import Mathlib

/-!
Cascading filter pipeline of fooyin.

A shallow embedding of `src/plugins/filters/filtercontroller.cpp` (the
`FilterController` and its private implementation) together with theorems about
the track intersection, the group registry and the cascade.

Objects that the controller only holds by pointer (`FilterWidget*`) live in an
explicit heap `m_widgets : Ptr → FilterWidget`; the registry `m_groups` and the
map `m_ungrouped` are association lists with the operations of the standard
containers the source uses.
-/

namespace Fooyin

/-! ## Data model -/

/-- Modelled from the spec: the `Track` class (core library, not part of the
filter sources).  A track has a stable integer identity, a library-membership
identity and further field values; the pipeline never mutates tracks. -/
structure Track where
  id : Int
  libraryId : Int
  fields : Nat
  deriving DecidableEq, Repr

abbrev TrackList := List Track

/-- The `std::unordered_set<int>` filled by the first loop of
`trackIntersection`: `emplace` of the identity of every track of `v1`. -/
def trackIds (v1 : TrackList) : List Int :=
  v1.foldl (fun ids track => ids.insert track.id) []

/-- `trackIntersection(v1, v2)` of filtercontroller.cpp: collect the identities
of `v1`, then walk `v2` and `push_back` every track whose identity is known. -/
def trackIntersection (v1 v2 : TrackList) : TrackList :=
  let ids := trackIds v1
  v2.foldl (fun result track => if ids.contains track.id then result ++ [track] else result) []

/-- Modelled from the spec: `Filter::filterTracks(tracks, search)` of the core
library (trackfilter.h is not part of the filter sources): the tracks that
satisfy the free-text predicate `matchesSearch(track, searchText)`, in order. -/
def Filter.filterTracks (matchesSearch : Track → String → Bool) (tracks : TrackList)
    (search : String) : TrackList :=
  tracks.filter (fun track => matchesSearch track search)

/-- Modelled from the spec: `Id` of the utils library.  A group reference is
nullable; the default-constructed `Id{}` (also `Id{""}`) is the one invalid
identity and stands for "ungrouped". -/
abbrev Id := Nat

/-- `Id::isValid()`. -/
def Id.isValid (id : Id) : Bool := id != 0

/-- A `FilterWidget*`: the address of a widget object in the heap. -/
abbrev Ptr := Nat

/-- Modelled from the spec: the state of one `FilterWidget` (filterwidget.cpp is
not part of the sources given): identity, group reference, position index,
activation flag, free-text predicate, current matched-track sequence
(`filteredTracks()`) and the base set it was last reset against (`tracks()`). -/
structure FilterWidget where
  id : Id
  group : Id
  index : Int
  active : Bool
  searchFilter : String
  filteredTracks : TrackList
  tracks : TrackList
  deriving DecidableEq, Repr

namespace FilterWidget

/-- Modelled from the spec: a freshly constructed `FilterWidget` with the given
identity: no group, inactive, no predicate, no tracks. -/
def create (id : Id) : FilterWidget :=
  { id := id, group := 0, index := -1, active := false, searchFilter := "",
    filteredTracks := [], tracks := [] }

/-- `FilterWidget::setGroup`. -/
def setGroup (w : FilterWidget) (group : Id) : FilterWidget := { w with group := group }

/-- `FilterWidget::setIndex`. -/
def setIndex (w : FilterWidget) (index : Int) : FilterWidget := { w with index := index }

/-- Modelled from the spec: `FilterWidget::isActive()`, the activation flag that
decides whether the node contributes to its group's intersection. -/
def isActive (w : FilterWidget) : Bool := w.active

/-- Modelled from the spec: `FilterWidget::reset(baseTracks)`.  The matched set
is recomputed by applying the search predicate (if any) to `baseTracks`, or is
`baseTracks` unchanged without a predicate; matched set and base set are
replaced unconditionally and the selection/activation state is not preserved. -/
def reset (matchesSearch : Track → String → Bool) (w : FilterWidget) (baseTracks : TrackList) :
    FilterWidget :=
  { w with
    filteredTracks :=
      if w.searchFilter.isEmpty then baseTracks
      else Filter.filterTracks matchesSearch baseTracks w.searchFilter
    tracks := baseTracks
    active := false }

/-- Modelled from the spec: `FilterWidget::clearFilteredTracks()`, the matched
set of a later node is cleared when an earlier selection changes (§4.4 step 2);
a cleared node no longer contributes to the combined intersection (Scenario 1). -/
def clearFilteredTracks (w : FilterWidget) : FilterWidget :=
  { w with filteredTracks := [], active := false }

/-- Modelled from the spec: `FilterWidget::setFilteredTracks`, replaces the
matched set (used to prune removed tracks, §4.6). -/
def setFilteredTracks (w : FilterWidget) (tracks : TrackList) : FilterWidget :=
  { w with filteredTracks := tracks }

end FilterWidget

/-- Modelled from the spec: `FilterGroup` (filterfwd.h is not part of the sources
given): identity, ordered sequence of `FilterWidget*`, cached combined
filtered-track sequence, pending-completion counter. -/
structure FilterGroup where
  id : Id
  filters : List Ptr
  filteredTracks : TrackList
  updateCount : Int
  deriving DecidableEq, Repr

/-- A default-constructed `FilterGroup`, as created by `m_groups[groupId]` for
an unseen key. -/
def FilterGroup.empty : FilterGroup :=
  { id := 0, filters := [], filteredTracks := [], updateCount := 0 }

/-- `FilterGroups`: the map from group identity to group. -/
abbrev FilterGroups := List (Id × FilterGroup)

namespace FilterGroups

/-- `m_groups.contains(key)`. -/
def contains (gs : FilterGroups) (key : Id) : Bool := (gs.lookup key).isSome

/-- Writing through the reference returned by `m_groups.at(key)`. -/
def assign (gs : FilterGroups) (key : Id) (group : FilterGroup) : FilterGroups :=
  gs.map (fun kv => if kv.1 = key then (kv.1, group) else kv)

/-- `m_groups.erase(key)`. -/
def erase (gs : FilterGroups) (key : Id) : FilterGroups :=
  gs.filter (fun kv => kv.1 ≠ key)

/-- `m_groups[key]`: a default-constructed group is inserted for an unseen key. -/
def index (gs : FilterGroups) (key : Id) : FilterGroups :=
  if contains gs key then gs else gs ++ [(key, FilterGroup.empty)]

end FilterGroups

/-- `UngroupedFilters`: the map `m_ungrouped` from widget identity to widget. -/
abbrev UngroupedFilters := List (Id × Ptr)

namespace UngroupedFilters

/-- `m_ungrouped.contains(key)`. -/
def contains (us : UngroupedFilters) (key : Id) : Bool := (us.lookup key).isSome

/-- `m_ungrouped.erase(key)`. -/
def erase (us : UngroupedFilters) (key : Id) : UngroupedFilters :=
  us.filter (fun kv => kv.1 ≠ key)

/-- `m_ungrouped.emplace(key, widget)`: nothing happens when the key exists. -/
def emplace (us : UngroupedFilters) (key : Id) (widget : Ptr) : UngroupedFilters :=
  if contains us key then us else us ++ [(key, widget)]

end UngroupedFilters

/-- The pipeline state of `FilterController::Private`: the library track list
(`m_library->tracks()`), the default group id, the registry, the ungrouped
map, and the heap of widget objects with its allocation counter. -/
structure State where
  m_library : TrackList
  vdefaultId : Id
  m_groups : FilterGroups
  m_ungrouped : UngroupedFilters
  m_widgets : Ptr → FilterWidget
  nextWidget : Ptr

namespace State

/-- The controller right after construction: no groups, no widgets. -/
def init (library : TrackList) (defaultId : Id) : State :=
  { m_library := library, vdefaultId := defaultId, m_groups := [], m_ungrouped := [],
    m_widgets := fun _ => FilterWidget.create 0, nextWidget := 0 }

/-- Calling a method on the widget object `widget` points to. -/
def modifyWidget (s : State) (widget : Ptr) (f : FilterWidget → FilterWidget) : State :=
  { s with m_widgets := Function.update s.m_widgets widget (f (s.m_widgets widget)) }

end State

/-- `std::erase(filters, widget)`: every occurrence is removed. -/
def eraseWidget (filters : List Ptr) (widget : Ptr) : List Ptr :=
  filters.filter (fun filterWidget => filterWidget ≠ widget)

/-- `filters.insert(filters.begin() + index, widget)`. -/
def insertWidget (filters : List Ptr) (index : Nat) (widget : Ptr) : List Ptr :=
  filters.take index ++ widget :: filters.drop index

/-- The placement of a moved widget in `handleFilterUpdated`: `push_back` when
the requested index is negative or beyond the size, `insert` at the index
otherwise. -/
def placeWidget (filters : List Ptr) (index : Int) (widget : Ptr) : List Ptr :=
  if index < 0 ∨ index > (filters.length : Int) then filters ++ [widget]
  else insertWidget filters index.toNat widget

/-! ## The controller -/

/-- `findContainingGroup(widget)`: the key of the first group whose sequence
holds the widget, the invalid id when there is none. -/
def findContainingGroup (s : State) (widget : Ptr) : Id :=
  match s.m_groups.find? (fun kv => kv.2.filters.contains widget) with
  | some kv => kv.1
  | none => 0

/-- `tracks(groupId)`: the cascade input of a group. -/
def tracks (s : State) (groupId : Id) : TrackList :=
  match s.m_groups.lookup groupId with
  | none => s.m_library
  | some group => if group.filteredTracks.isEmpty then s.m_library else group.filteredTracks

/-- The loop of `recalculateIndexesOfGroup`: `filter->setIndex(index++)`. -/
def setIndexes (widgets : Ptr → FilterWidget) : List Ptr → Int → (Ptr → FilterWidget)
  | [], _ => widgets
  | filter :: rest, index =>
    setIndexes (Function.update widgets filter ((widgets filter).setIndex index)) rest (index + 1)

/-- `recalculateIndexesOfGroup(group)`. -/
def recalculateIndexesOfGroup (s : State) (group : Id) : State :=
  match s.m_groups.lookup group with
  | none => s
  | some filterGroup => { s with m_widgets := setIndexes s.m_widgets filterGroup.filters 0 }

section
variable (matchesSearch : Track → String → Bool)

/-- `resetGroup(group)`. -/
def resetGroup (s : State) (group : Id) : State :=
  match s.m_groups.lookup group with
  | none => s
  | some filterGroup =>
    let s1 := { s with m_groups := s.m_groups.assign group { filterGroup with filteredTracks := [] } }
    filterGroup.filters.foldl
      (fun st filterWidget =>
        st.modifyWidget filterWidget (fun w => w.reset matchesSearch (tracks st group))) s1

/-- `resetAll()`: every group, then every ungrouped widget.  The body of the
loop over the groups is the body of `resetGroup` for the group's key. -/
def resetAll (s : State) : State :=
  let s1 := (s.m_groups.map Prod.fst).foldl (resetGroup matchesSearch) s
  (s1.m_ungrouped.map Prod.snd).foldl
    (fun st filterWidget =>
      st.modifyWidget filterWidget (fun w => w.reset matchesSearch st.m_library)) s1

end

/-- The loop of `getFilteredTracks` over the active filters, starting from the
cleared cache. -/
def combineActive (widgets : Ptr → FilterWidget) (activeFilters : List Ptr) : TrackList :=
  activeFilters.foldl
    (fun filteredTracks filter =>
      if filteredTracks.isEmpty then filteredTracks ++ (widgets filter).filteredTracks
      else trackIntersection (widgets filter).filteredTracks filteredTracks) []

/-- The view `activeFilters` of `getFilteredTracks`: the members of the group
for which `isActive()` holds, in filter order. -/
def activeFilters (s : State) (group : FilterGroup) : List Ptr :=
  group.filters.filter (fun widget => (s.m_widgets widget).isActive)

/-- `getFilteredTracks(groupId)`. -/
def getFilteredTracks (s : State) (groupId : Id) : State :=
  match s.m_groups.lookup groupId with
  | none => s
  | some group =>
    let combined := combineActive s.m_widgets (activeFilters s group)
    { s with m_groups := s.m_groups.assign groupId { group with filteredTracks := combined } }

/-- `clearActiveFilters(group, index)`. -/
def clearActiveFilters (s : State) (group : Id) (index : Int) : State :=
  match s.m_groups.lookup group with
  | none => s
  | some filterGroup =>
    filterGroup.filters.foldl
      (fun st filter =>
        if (st.m_widgets filter).index > index
        then st.modifyWidget filter FilterWidget.clearFilteredTracks else st) s

/-- `selectionChanged(filter)`.  The calls into the selection collaborator
(`changeSelectedTracks`, `executeAction`) do not touch the pipeline state. -/
def selectionChanged (matchesSearch : Track → String → Bool) (s : State) (filter : Ptr) : State :=
  let group := (s.m_widgets filter).group
  let resetIndex := (s.m_widgets filter).index
  let s1 := clearActiveFilters s group resetIndex
  let s2 := getFilteredTracks s1 group
  match s2.m_groups.lookup group with
  | none => s2
  | some filterGroup =>
    filterGroup.filters.foldl
      (fun st filterWidget =>
        if (st.m_widgets filterWidget).index > resetIndex
        then st.modifyWidget filterWidget (fun w => w.reset matchesSearch (tracks st group))
        else st) s2

/-- `removeLibraryTracks(libraryId)`. -/
def removeLibraryTracks (s : State) (libraryId : Int) : State :=
  s.m_groups.foldl
    (fun st kv =>
      kv.2.filters.foldl
        (fun st1 filterWidget =>
          st1.modifyWidget filterWidget (fun w =>
            w.setFilteredTracks (w.filteredTracks.filter (fun track => track.libraryId ≠ libraryId))))
        st) s

/-- `FilterController::createFilter()`.  `id` is the identity the new widget
object is constructed with; the result is the new `FilterWidget*` and the new
state.  `group` is the reference `m_groups[vdefaultId]`; the widget gets the
default group and the index `group.filters.size()`, is pushed to the group and
is reset against `tracks(vdefaultId)`.  The signal connections and
`updateFilterPlaylistActions` do not touch the pipeline state. -/
def createFilter (matchesSearch : Track → String → Bool) (s : State) (id : Id) : Ptr × State :=
  let widget := s.nextWidget
  let groups := s.m_groups.index s.vdefaultId
  match groups.lookup s.vdefaultId with
  | none => (widget, s)
  | some group =>
    let created :=
      ((FilterWidget.create id).setGroup s.vdefaultId).setIndex (group.filters.length : Int)
    let pushed := { group with id := s.vdefaultId, filters := group.filters ++ [widget] }
    let s1 := { s with
      m_widgets := Function.update s.m_widgets widget created
      nextWidget := s.nextWidget + 1
      m_groups := groups.assign s.vdefaultId pushed }
    (widget, s1.modifyWidget widget (fun w => w.reset matchesSearch (tracks s1 s1.vdefaultId)))

/-- `FilterController::addFilterToGroup(widget, groupId)`. -/
def addFilterToGroup (s : State) (widget : Ptr) (groupId : Id) : State :=
  if !groupId.isValid then
    let s1 := s.modifyWidget widget (fun w => (w.setGroup 0).setIndex (-1))
    { s1 with m_ungrouped := s1.m_ungrouped.emplace (s1.m_widgets widget).id widget }
  else
    let groups := s.m_groups.index groupId
    match groups.lookup groupId with
    | none => s
    | some group =>
      let s1 := s.modifyWidget widget
        (fun w => (w.setGroup groupId).setIndex (group.filters.length : Int))
      let pushed := { group with id := groupId, filters := group.filters ++ [widget] }
      { s1 with m_groups := groups.assign groupId pushed }

/-- `FilterController::removeFilter(widget)`. -/
def removeFilter (s : State) (widget : Ptr) : Bool × State :=
  let groupId := (s.m_widgets widget).group
  if !groupId.isValid && s.m_ungrouped.contains (s.m_widgets widget).id then
    (true, { s with m_ungrouped := s.m_ungrouped.erase (s.m_widgets widget).id })
  else
    match s.m_groups.lookup groupId with
    | none => (false, s)
    | some group =>
      if group.filters.contains widget then
        let filters := eraseWidget group.filters widget
        let s1 := { s with m_groups := s.m_groups.assign groupId { group with filters := filters } }
        let s2 := recalculateIndexesOfGroup s1 groupId
        if filters.isEmpty then (true, { s2 with m_groups := s2.m_groups.erase groupId })
        else (true, s2)
      else (false, s)

/-- The block "Remove from old group" of `handleFilterUpdated`. -/
def removeFromOldGroup (s : State) (widget : Ptr) (oldGroup : Id) : State :=
  if !oldGroup.isValid then
    { s with m_ungrouped := s.m_ungrouped.erase (s.m_widgets widget).id }
  else
    match s.m_groups.lookup oldGroup with
    | none => s
    | some group =>
      if group.filters.contains widget then
        let filters := eraseWidget group.filters widget
        let s1 := { s with m_groups := s.m_groups.assign oldGroup { group with filters := filters } }
        let s2 := if filters.isEmpty then { s1 with m_groups := s1.m_groups.erase oldGroup } else s1
        recalculateIndexesOfGroup s2 oldGroup
      else s

/-- The block "Add to new group" of `handleFilterUpdated`. -/
def addToNewGroup (s : State) (widget : Ptr) (groupId : Id) : State :=
  if !groupId.isValid then
    { s with m_ungrouped := s.m_ungrouped.emplace (s.m_widgets widget).id widget }
  else
    let groups := s.m_groups.index groupId
    match groups.lookup groupId with
    | none => s
    | some group =>
      let index := (s.m_widgets widget).index
      let filters := placeWidget group.filters index widget
      let inserted := { group with filters := filters, id := groupId }
      let s1 := { s with m_groups := groups.assign groupId inserted }
      recalculateIndexesOfGroup s1 groupId

/-- `handleFilterUpdated(widget)`. -/
def handleFilterUpdated (matchesSearch : Track → String → Bool) (s : State) (widget : Ptr) : State :=
  let groupId := (s.m_widgets widget).group
  let oldGroup := findContainingGroup s widget
  if groupId = oldGroup then
    if !groupId.isValid then
      s.modifyWidget widget (fun w => w.reset matchesSearch s.m_library)
    else resetGroup matchesSearch s (s.m_widgets widget).group
  else
    let s1 := removeFromOldGroup s widget oldGroup
    let s2 := addToNewGroup s1 widget groupId
    resetGroup matchesSearch (resetGroup matchesSearch s2 oldGroup) groupId

/-! ## Events raised by a widget

The widget changes its own fields and then emits the signal the controller is
connected to; the controller's handler runs on the widget's new fields. -/

/-- Modelled from the spec: a node's target group changes (§4.5).  The widget
records the requested group and index before it emits `filterUpdated`. -/
def requestGroup (s : State) (widget : Ptr) (group : Id) (index : Int) : State :=
  s.modifyWidget widget (fun w => (w.setGroup group).setIndex index)

/-- Modelled from the spec: a node's selection changes (§4.4).  The widget
stores the tracks of the selected values as its matched set, with its
activation, before it emits `selectionChanged`. -/
def select (s : State) (widget : Ptr) (selected : TrackList) (active : Bool) : State :=
  s.modifyWidget widget (fun w => { w with filteredTracks := selected, active := active })

/-! ## Notions used by the claims -/

/-- The order-preserving intersection of `S1..Sk` computed left to right, in the
words of the spec: start from `S1` and intersect with each further set in
turn; the order that survives is the one of the running result. -/
def intersectAll : List TrackList → TrackList
  | [] => []
  | first :: rest => rest.foldl (fun acc next => trackIntersection next acc) first

/-- The matched sets of the active members of a group, in filter order. -/
def activeSets (s : State) (group : FilterGroup) : List TrackList :=
  (activeFilters s group).map (fun widget => (s.m_widgets widget).filteredTracks)

/-- The cached combined set of a group, `none` when the group is not in the
registry. -/
def cachedTracks (s : State) (groupId : Id) : Option TrackList :=
  (s.m_groups.lookup groupId).map FilterGroup.filteredTracks

/-- The member sequence of a group, `none` when the group is not in the
registry. -/
def filtersOf (s : State) (groupId : Id) : Option (List Ptr) :=
  (s.m_groups.lookup groupId).map FilterGroup.filters

/-- Reindex density: in every group of the registry the member at position `i`
has index `i`. -/
def Dense (s : State) : Prop :=
  ∀ kv ∈ s.m_groups, ∀ i : Fin kv.2.filters.length,
    (s.m_widgets (kv.2.filters.get i)).index = (i.val : Int)

/-- All members of all groups, group after group. -/
def allFilters (s : State) : List Ptr :=
  s.m_groups.flatMap (fun kv => kv.2.filters)

/-- The number of places a node occupies: its occurrences in the member
sequences of all groups plus its occurrences in the ungrouped mapping. -/
def places (s : State) (widget : Ptr) : Nat :=
  (allFilters s).count widget + (s.m_ungrouped.map Prod.snd).count widget

/-- No group of the registry has an empty member list. -/
def NoEmptyGroup (s : State) : Prop :=
  ∀ kv ∈ s.m_groups, kv.2.filters ≠ []

/-- Every key of the registry is a valid group id. -/
def KeysValid (s : State) : Prop :=
  ∀ kv ∈ s.m_groups, kv.1 ≠ 0

/-- The registry as the invariants see it: the keys, the member sequence of
every key, the ungrouped map, the identity of every widget, the allocation
counter and the default group id. -/
structure Shape where
  keys : List Id
  filters : Id → Option (List Ptr)
  ungrouped : UngroupedFilters
  ids : Ptr → Id
  next : Ptr
  dflt : Id

/-- The shape of a pipeline state. -/
def State.shape (s : State) : Shape :=
  { keys := s.m_groups.map Prod.fst
    filters := filtersOf s
    ungrouped := s.m_ungrouped
    ids := fun p => (s.m_widgets p).id
    next := s.nextWidget
    dflt := s.vdefaultId }

namespace Shape

/-- Group `key` now has the member sequence `filters`; a group left without
members is erased, an unseen key is appended. -/
def setFilters (sh : Shape) (key : Id) (filters : List Ptr) : Shape :=
  { sh with
    keys :=
      if filters = [] then sh.keys.filter (fun k => k ≠ key)
      else if key ∈ sh.keys then sh.keys else sh.keys ++ [key]
    filters := Function.update sh.filters key (if filters = [] then none else some filters) }

/-- The ungrouped map is replaced. -/
def setUngrouped (sh : Shape) (ungrouped : UngroupedFilters) : Shape :=
  { sh with ungrouped := ungrouped }

/-- A new widget object with identity `id` is allocated. -/
def alloc (sh : Shape) (id : Id) : Shape :=
  { sh with ids := Function.update sh.ids sh.next id, next := sh.next + 1 }

/-- The structural invariant of the registry, for the list `reg` of registered
nodes (created or added, and not removed since). -/
structure Inv (sh : Shape) (reg : List Ptr) : Prop where
  keys_nodup : sh.keys.Nodup
  keys_iff : ∀ k, k ∈ sh.keys ↔ sh.filters k ≠ none
  keys_valid : ∀ k fs, sh.filters k = some fs → k ≠ 0
  nonempty : ∀ k fs, sh.filters k = some fs → fs ≠ []
  nodup : ∀ k fs, sh.filters k = some fs → fs.Nodup
  disjoint : ∀ k fs k' fs' p, sh.filters k = some fs → sh.filters k' = some fs' →
    p ∈ fs → p ∈ fs' → k = k'
  ukeys_nodup : (sh.ungrouped.map Prod.fst).Nodup
  ungrouped_id : ∀ i p, sh.ungrouped.lookup i = some p → sh.ids p = i
  ungrouped_not_grouped : ∀ i p, sh.ungrouped.lookup i = some p →
    ∀ k fs, sh.filters k = some fs → p ∉ fs
  ids_unique : ∀ p q, p < sh.next → q < sh.next → sh.ids p = sh.ids q → p = q
  registered : ∀ w, w ∈ reg ↔
    (∃ k fs, sh.filters k = some fs ∧ w ∈ fs) ∨ sh.ungrouped.lookup (sh.ids w) = some w
  allocated : ∀ w ∈ reg, w < sh.next
  default_valid : sh.dflt ≠ 0

end Shape

namespace Shape

/-- The removal step of `handleFilterUpdated` on the shape: the node leaves the
ungrouped map when `oldGroup` is invalid, and the sequence of `oldGroup`
otherwise. -/
def detach (sh : Shape) (widget : Ptr) (oldGroup : Id) : Shape :=
  if oldGroup = 0 then sh.setUngrouped (sh.ungrouped.erase (sh.ids widget))
  else
    match sh.filters oldGroup with
    | none => sh
    | some fs => if widget ∈ fs then sh.setFilters oldGroup (eraseWidget fs widget) else sh

/-- The insertion step of `handleFilterUpdated` on the shape. -/
def attach (sh : Shape) (widget : Ptr) (groupId : Id) (index : Int) : Shape :=
  if groupId = 0 then sh.setUngrouped (sh.ungrouped.emplace (sh.ids widget) widget)
  else sh.setFilters groupId (placeWidget ((sh.filters groupId).getD []) index widget)

end Shape

/-- The state `s'` differs from `s` only in the content of widgets (matched
sets, base sets, activation, predicate) and in cached combined sets: the
registry structure and the identity, group and index of every widget agree. -/
structure ContentOnly (s s' : State) : Prop where
  keys : s'.m_groups.map Prod.fst = s.m_groups.map Prod.fst
  filters : ∀ k, filtersOf s' k = filtersOf s k
  ungrouped : s'.m_ungrouped = s.m_ungrouped
  library : s'.m_library = s.m_library
  next : s'.nextWidget = s.nextWidget
  dflt : s'.vdefaultId = s.vdefaultId
  id : ∀ p, (s'.m_widgets p).id = (s.m_widgets p).id
  index : ∀ p, (s'.m_widgets p).index = (s.m_widgets p).index
  group : ∀ p, (s'.m_widgets p).group = (s.m_widgets p).group

/-- Density stated on the member sequences by key and the index of every
widget. -/
def DenseOn (filters : Id → Option (List Ptr)) (index : Ptr → Int) : Prop :=
  ∀ k fs, filters k = some fs → ∀ i : Fin fs.length, index (fs.get i) = (i.val : Int)

/-- The states reachable through `createFilter`, `addFilterToGroup`,
`removeFilter` and `handleFilterUpdated`, together with the list of registered
nodes.  A new widget gets an identity no other widget has; `addFilterToGroup`
is applied to an allocated node that is not registered; `filterUpdated` is
raised by a registered node after it recorded the requested group and index.
With `keepIndex`, a request that names the group already containing the node
leaves the node's index as it is. -/
inductive Reach (matchesSearch : Track → String → Bool) (library : TrackList) (defaultId : Id)
    (keepIndex : Bool) : State → List Ptr → Prop
  | init : Reach matchesSearch library defaultId keepIndex (State.init library defaultId) []
  | createFilter (s : State) (reg : List Ptr) (id : Id) :
      Reach matchesSearch library defaultId keepIndex s reg →
      (∀ p, p < s.nextWidget → (s.m_widgets p).id ≠ id) →
      Reach matchesSearch library defaultId keepIndex
        (Fooyin.createFilter matchesSearch s id).2 (s.nextWidget :: reg)
  | addFilterToGroup (s : State) (reg : List Ptr) (widget : Ptr) (groupId : Id) :
      Reach matchesSearch library defaultId keepIndex s reg →
      widget < s.nextWidget → widget ∉ reg →
      Reach matchesSearch library defaultId keepIndex
        (Fooyin.addFilterToGroup s widget groupId) (widget :: reg)
  | removeFilter (s : State) (reg : List Ptr) (widget : Ptr) :
      Reach matchesSearch library defaultId keepIndex s reg →
      widget < s.nextWidget →
      Reach matchesSearch library defaultId keepIndex
        (Fooyin.removeFilter s widget).2
        (if (Fooyin.removeFilter s widget).1 then reg.filter (fun w => w ≠ widget) else reg)
  | filterUpdated (s : State) (reg : List Ptr) (widget : Ptr) (groupId : Id) (index : Int) :
      Reach matchesSearch library defaultId keepIndex s reg →
      widget ∈ reg →
      (keepIndex = true → groupId ≠ 0 → groupId = findContainingGroup s widget →
        index = (s.m_widgets widget).index) →
      Reach matchesSearch library defaultId keepIndex
        (handleFilterUpdated matchesSearch (requestGroup s widget groupId index) widget) reg

instance (s : State) : Decidable (Dense s) := by
  unfold Dense
  infer_instance

/-- The cached combined set of every group is empty or equal to the
intersection, in index order, of the matched sets of its active members. -/
def CacheConsistent (s : State) : Prop :=
  ∀ kv ∈ s.m_groups,
    kv.2.filteredTracks = [] ∨ kv.2.filteredTracks = intersectAll (activeSets s kv.2)

instance (s : State) : Decidable (CacheConsistent s) := by
  unfold CacheConsistent
  infer_instance

/-- No running intersection of a proper, non-empty prefix of the sets is
empty. -/
def NoEmptyPrefix (sets : List TrackList) : Prop :=
  ∀ j, 0 < j → j < sets.length → intersectAll (sets.take j) ≠ []

/-- The loop of `getFilteredTracks` run on the list of the matched sets of the
active filters. -/
def combineSets (sets : List TrackList) : TrackList :=
  sets.foldl
    (fun filteredTracks set =>
      if filteredTracks.isEmpty then filteredTracks ++ set
      else trackIntersection set filteredTracks) []

/-- The matched sets of the active widgets among `filters`, in order. -/
def activeSetsOn (widgets : Ptr → FilterWidget) (filters : List Ptr) : List TrackList :=
  (filters.filter (fun widget => (widgets widget).isActive)).map
    (fun widget => (widgets widget).filteredTracks)

/-- Every cached combined set is empty or the combination that the loop of
`getFilteredTracks` yields on the matched sets of the currently active
members. -/
def CacheCombined (s : State) : Prop :=
  ∀ k fs cache, filtersOf s k = some fs → cachedTracks s k = some cache →
    cache = [] ∨ cache = combineSets (activeSetsOn s.m_widgets fs)

/-- The group field of every member of a group names that group. -/
def GroupField (s : State) : Prop :=
  ∀ k fs, filtersOf s k = some fs → ∀ p, p ∈ fs → (s.m_widgets p).group = k

/-- The invariant of the cascade: the structural invariant of the registry, the
group field of every member, and the cached combined sets. -/
structure CascadeInv (s : State) (reg : List Ptr) : Prop where
  inv : s.shape.Inv reg
  groupField : GroupField s
  cache : CacheCombined s

instance (s : State) : Decidable (NoEmptyGroup s) := by
  unfold NoEmptyGroup
  infer_instance

instance (s : State) : Decidable (KeysValid s) := by
  unfold KeysValid
  infer_instance

/-- A free-text predicate that every track satisfies. -/
def matchesAll : Track → String → Bool := fun _ _ => true

/-- The states reachable through `createFilter`, `addFilterToGroup` and
`removeFilter` of inactive nodes, `handleFilterUpdated`, `selectionChanged`,
`resetGroup` and `resetAll`, together with the list of registered nodes.  A
selection event stores the new matched set and activation in the node before
the controller's handler runs. -/
inductive ReachCascade (matchesSearch : Track → String → Bool) (library : TrackList)
    (defaultId : Id) : State → List Ptr → Prop
  | init : ReachCascade matchesSearch library defaultId (State.init library defaultId) []
  | createFilter (s : State) (reg : List Ptr) (id : Id) :
      ReachCascade matchesSearch library defaultId s reg →
      (∀ p, p < s.nextWidget → (s.m_widgets p).id ≠ id) →
      ReachCascade matchesSearch library defaultId
        (Fooyin.createFilter matchesSearch s id).2 (s.nextWidget :: reg)
  | addFilterToGroup (s : State) (reg : List Ptr) (widget : Ptr) (groupId : Id) :
      ReachCascade matchesSearch library defaultId s reg →
      widget < s.nextWidget → widget ∉ reg → (s.m_widgets widget).isActive = false →
      ReachCascade matchesSearch library defaultId
        (Fooyin.addFilterToGroup s widget groupId) (widget :: reg)
  | removeFilter (s : State) (reg : List Ptr) (widget : Ptr) :
      ReachCascade matchesSearch library defaultId s reg →
      widget < s.nextWidget → (s.m_widgets widget).isActive = false →
      ReachCascade matchesSearch library defaultId
        (Fooyin.removeFilter s widget).2
        (if (Fooyin.removeFilter s widget).1 then reg.filter (fun w => w ≠ widget) else reg)
  | filterUpdated (s : State) (reg : List Ptr) (widget : Ptr) (groupId : Id) (index : Int) :
      ReachCascade matchesSearch library defaultId s reg →
      widget ∈ reg →
      ReachCascade matchesSearch library defaultId
        (handleFilterUpdated matchesSearch (requestGroup s widget groupId index) widget) reg
  | selectionChanged (s : State) (reg : List Ptr) (widget : Ptr) (selected : TrackList)
      (active : Bool) :
      ReachCascade matchesSearch library defaultId s reg →
      widget < s.nextWidget →
      ReachCascade matchesSearch library defaultId
        (Fooyin.selectionChanged matchesSearch (select s widget selected active) widget) reg
  | resetGroup (s : State) (reg : List Ptr) (group : Id) :
      ReachCascade matchesSearch library defaultId s reg →
      ReachCascade matchesSearch library defaultId (Fooyin.resetGroup matchesSearch s group) reg
  | resetAll (s : State) (reg : List Ptr) :
      ReachCascade matchesSearch library defaultId s reg →
      ReachCascade matchesSearch library defaultId (Fooyin.resetAll matchesSearch s) reg

/-- A track with the given identity and library. -/
def libraryTrack (id libraryId : Int) : Track := { id := id, libraryId := libraryId, fields := 0 }

/-- A sample track with the given identity. -/
def sampleTrack (id : Int) : Track := { id := id, libraryId := 1, fields := 0 }

/-- A group `1` of three active members whose matched sets are pairwise
disjoint: `[t1]`, `[t2]`, `[t3]`. -/
def disjointState : State :=
  { m_library := [sampleTrack 1, sampleTrack 2, sampleTrack 3]
    vdefaultId := 1
    m_groups := [(1, { id := 1, filters := [0, 1, 2], filteredTracks := [], updateCount := 0 })]
    m_ungrouped := []
    m_widgets := fun p =>
      { id := 10 + p, group := 1, index := p, active := true, searchFilter := "",
        filteredTracks := [sampleTrack (p + 1)],
        tracks := [sampleTrack 1, sampleTrack 2, sampleTrack 3] }
    nextWidget := 3 }

/-- A group `1` with one inactive member and a stale non-empty cache. -/
def idleState : State :=
  { m_library := [sampleTrack 1, sampleTrack 2]
    vdefaultId := 1
    m_groups := [(1, { id := 1, filters := [0], filteredTracks := [sampleTrack 2], updateCount := 0 })]
    m_ungrouped := []
    m_widgets := fun _ => FilterWidget.create 5
    nextWidget := 1 }

/-- A library of two tracks, one from library `1` and one from library `2`. -/
def twoLibraries : TrackList := [libraryTrack 1 1, libraryTrack 2 2]

/-- One node in the default group `7`; both tracks are selected in it. -/
def selectedState : State :=
  selectionChanged matchesAll
    (select (createFilter matchesAll (State.init twoLibraries 7) 100).2 0 twoLibraries true) 0

/-- Two nodes in the default group `7`; the first track is selected in the
second node. -/
def secondSelectedState : State :=
  selectionChanged matchesAll
    (select (createFilter matchesAll (createFilter matchesAll
      (State.init twoLibraries 7) 100).2 101).2 1 [libraryTrack 1 1] true) 1

/-- A node in which the first track is selected was removed, which erased the
default group `7`; a node created afterwards has both tracks selected. -/
def removedActiveState : State :=
  selectionChanged matchesAll
    (select (createFilter matchesAll (removeFilter (selectionChanged matchesAll
      (select (createFilter matchesAll (State.init twoLibraries 7) 100).2 0
        [libraryTrack 1 1] true) 0) 0).2 101).2 1 twoLibraries true) 1

/-- Three nodes in the default group `7`, and the selections `[t1]`, `[t2]`
in the first two, made in index order. -/
def twoDisjointSelections : State :=
  selectionChanged matchesAll
    (select (selectionChanged matchesAll
      (select (createFilter matchesAll (createFilter matchesAll (createFilter matchesAll
        (State.init [sampleTrack 1, sampleTrack 2, sampleTrack 3] 7) 100).2 101).2 102).2
        0 [sampleTrack 1] true) 0) 1 [sampleTrack 2] true) 1

/-- Nodes `1` and `2` moved to group `9`, both tracks selected in node `2`, and
node `1`, a member of group `9`, added to group `7`. -/
def addedTwiceState : State :=
  addFilterToGroup (selectionChanged matchesAll
    (select (handleFilterUpdated matchesAll (requestGroup (handleFilterUpdated matchesAll
      (requestGroup (createFilter matchesAll (createFilter matchesAll (createFilter matchesAll
        (State.init twoLibraries 7) 100).2 101).2 102).2 1 9 0) 1) 2 9 1) 2)
      2 twoLibraries true) 2) 1 7

/-- Three nodes created in the default group `7`; the last one moved to the new
group `9`. -/
def movedState : State :=
  handleFilterUpdated matchesAll
    (requestGroup (createFilter matchesAll (createFilter matchesAll (createFilter matchesAll
      (State.init twoLibraries 7) 100).2 101).2 102).2 2 9 0) 2

/-- Two nodes created in the default group `7`. -/
def twoNodesState : State :=
  (createFilter matchesAll (createFilter matchesAll (State.init twoLibraries 7) 100).2 101).2

/-- Scenario 1: the library `[t1, t2, t3]` and the group `1` with the members
Genre (node `0`, index 0, active, matched set `[t1, t3]`) and Artist (node `1`,
index 1, active, matched set `artist`), both without predicate. -/
def scenarioOne (artist : TrackList) : State :=
  { m_library := [sampleTrack 1, sampleTrack 2, sampleTrack 3]
    vdefaultId := 1
    m_groups := [(1, { id := 1, filters := [0, 1], filteredTracks := [], updateCount := 0 })]
    m_ungrouped := []
    m_widgets := fun p =>
      if p = 0 then
        { id := 10, group := 1, index := 0, active := true, searchFilter := "",
          filteredTracks := [sampleTrack 1, sampleTrack 3],
          tracks := [sampleTrack 1, sampleTrack 2, sampleTrack 3] }
      else
        { id := 11, group := 1, index := 1, active := true, searchFilter := "",
          filteredTracks := artist,
          tracks := [sampleTrack 1, sampleTrack 2, sampleTrack 3] }
    nextWidget := 2 }

/-- A group `1` whose first two members both have index 0: node `0` (active,
matched set `genre`), node `1` (active, matched set `[t1, t2]`) and node `2`
(index 1, inactive), over the library `[t1, t2, t3]`. -/
def sharedIndexState (genre : TrackList) : State :=
  { m_library := [sampleTrack 1, sampleTrack 2, sampleTrack 3]
    vdefaultId := 1
    m_groups := [(1, { id := 1, filters := [0, 1, 2], filteredTracks := [], updateCount := 0 })]
    m_ungrouped := []
    m_widgets := fun p =>
      if p = 0 then
        { id := 10, group := 1, index := 0, active := true, searchFilter := "",
          filteredTracks := genre, tracks := [sampleTrack 1, sampleTrack 2, sampleTrack 3] }
      else if p = 1 then
        { id := 11, group := 1, index := 0, active := true, searchFilter := "",
          filteredTracks := [sampleTrack 1, sampleTrack 2],
          tracks := [sampleTrack 1, sampleTrack 2, sampleTrack 3] }
      else
        { id := 12, group := 1, index := 1, active := false, searchFilter := "",
          filteredTracks := [sampleTrack 1, sampleTrack 2, sampleTrack 3],
          tracks := [sampleTrack 1, sampleTrack 2, sampleTrack 3] }
    nextWidget := 3 }

/-! ## Pairwise refresh

`FilterWidget::refetchFilteredTracks` and `FilterWidget::softReset` are methods
of the widget; the controller is embedded over any two such methods. -/

section
variable (refetchFilteredTracks : FilterWidget → FilterWidget)
variable (softReset : FilterWidget → TrackList → FilterWidget)

/-- The block that `refreshFilters` runs for `filter` and the widget after it:
`if(filter->isActive()) { filter->refetchFilteredTracks();
next->softReset(filter->filteredTracks()); }`. -/
def refreshPair (s : State) (filter next : Ptr) : State :=
  if (s.m_widgets filter).isActive then
    let s1 := s.modifyWidget filter refetchFilteredTracks
    s1.modifyWidget next (fun w => softReset w (s1.m_widgets filter).filteredTracks)
  else s

/-- The loop `for(int i{0}; i < count - 1; i += 2)` of `refreshFilters`, from
the value `i` of the counter, with `fuel` iterations at most.  There is no
result when `filters.at(i)` or `filters.at(i + 1)` is outside the sequence
(`std::out_of_range`), or when the fuel does not suffice. -/
def refreshLoop (filters : List Ptr) (count : Int) : Nat → Int → State → Option State
  | 0, i, s => if i < count - 1 then none else some s
  | fuel + 1, i, s =>
    if i < count - 1 then
      match filters[i.toNat]?, filters[(i + 1).toNat]? with
      | some filter, some next =>
        refreshLoop filters count fuel (i + 2)
          (refreshPair refetchFilteredTracks softReset s filter next)
      | _, _ => none
    else some s

/-- `refreshFilters(groupId)`.  The loop is given `count` iterations; there is
no result when a bounds-checked access `filters.at(..)` fails. -/
def refreshFilters (s : State) (groupId : Id) : Option State :=
  match s.m_groups.lookup groupId with
  | none => some s
  | some group =>
    let count : Int := (group.filters.length : Int)
    match refreshLoop refetchFilteredTracks softReset group.filters count
        group.filters.length 0 s with
    | none => none
    | some s1 =>
      if count > 1 ∧ count % 2 = 1 then
        match group.filters[(count - 2).toNat]?, group.filters[(count - 1).toNat]? with
        | some filter, some next =>
          some (refreshPair refetchFilteredTracks softReset s1 filter next)
        | _, _ => none
      else some s1

/-- The refresh in the words of the specification, first part: the nodes are
walked two at a time; the node at the even position, if active, is refetched
and the next node is soft-reset from its matched set. -/
def refreshPairsSpec : List Ptr → State → State
  | first :: second :: rest, s =>
    refreshPairsSpec rest (refreshPair refetchFilteredTracks softReset s first second)
  | _, s => s

/-- The refresh in the words of the specification: the walk over the pairs,
and then, if the number `n` of members is odd and above 1, the same treatment
of the trailing node against the node at `n - 2`. -/
def refreshFiltersSpec (s : State) (groupId : Id) : State :=
  match s.m_groups.lookup groupId with
  | none => s
  | some group =>
    let s1 := refreshPairsSpec refetchFilteredTracks softReset group.filters s
    match group.filters.reverse with
    | last :: before :: _ =>
      if group.filters.length % 2 = 1
      then refreshPair refetchFilteredTracks softReset s1 before last else s1
    | _ => s1

end

/-! ## Tracks added or updated

`FilterWidget::tracksAdded` and `FilterWidget::tracksUpdated` are methods of
the widget; the controller is embedded over any two such methods. -/

section
variable (matchesSearch : Track → String → Bool)
variable (tracksAdded tracksUpdated : FilterWidget → TrackList → FilterWidget)

/-- The body of the loop over `group.filters` in `handleTracksAddedUpdated`, on
the state and the local `activeFilterTracks`.  The one-shot queued connection
to `finishedUpdating` that the `updated` variant registers runs later, from
the event loop, and changes nothing during this call. -/
def pushTracks (tracks : TrackList) (updated : Bool) (acc : State × TrackList)
    (filterWidget : Ptr) : State × TrackList :=
  let s := acc.1
  let activeFilterTracks := acc.2
  let s1 :=
    if !(s.m_widgets filterWidget).searchFilter.isEmpty then
      let filteredTracks :=
        Filter.filterTracks matchesSearch tracks (s.m_widgets filterWidget).searchFilter
      if updated then s.modifyWidget filterWidget (fun w => tracksUpdated w filteredTracks)
      else s.modifyWidget filterWidget (fun w => tracksAdded w filteredTracks)
    else if activeFilterTracks.isEmpty then
      if updated then s.modifyWidget filterWidget (fun w => tracksUpdated w tracks)
      else s.modifyWidget filterWidget (fun w => tracksAdded w tracks)
    else
      let filtered := trackIntersection activeFilterTracks tracks
      if updated then s.modifyWidget filterWidget (fun w => tracksUpdated w filtered)
      else s.modifyWidget filterWidget (fun w => tracksAdded w filtered)
  if (s1.m_widgets filterWidget).isActive
  then (s1, (s1.m_widgets filterWidget).filteredTracks)
  else (s1, activeFilterTracks)

/-- `handleTracksAddedUpdated(tracks, updated)`: for every group, the loop over
its filters with a fresh `activeFilterTracks`. -/
def handleTracksAddedUpdated (s : State) (tracks : TrackList) (updated : Bool) : State :=
  s.m_groups.foldl
    (fun st kv =>
      (kv.2.filters.foldl (pushTracks matchesSearch tracksAdded tracksUpdated tracks updated)
        (st, [])).1) s

/-- The batch pushed to a node, in the words of the specification: the
predicate applied to the incoming tracks if the node has a non-empty search
predicate; otherwise the incoming tracks unchanged if the accumulator is
empty; otherwise the intersection of the accumulator with the tracks. -/
def batchFor (tracks accumulator : TrackList) (node : FilterWidget) : TrackList :=
  if node.searchFilter.isEmpty = false
  then Filter.filterTracks matchesSearch tracks node.searchFilter
  else if accumulator.isEmpty then tracks
  else trackIntersection accumulator tracks

/-- The walk over the members of a group, in the words of the specification:
the batch is pushed to the node as an add or an update; after the push the
accumulator becomes the matched set of the node if the node is active. -/
def pushBatches (tracks : TrackList) (isUpdate : Bool) :
    List Ptr → TrackList → State → State
  | [], _, s => s
  | node :: rest, accumulator, s =>
    let batch := batchFor matchesSearch tracks accumulator (s.m_widgets node)
    let s1 := s.modifyWidget node
      (fun w => if isUpdate then tracksUpdated w batch else tracksAdded w batch)
    let accumulator1 :=
      if (s1.m_widgets node).isActive then (s1.m_widgets node).filteredTracks else accumulator
    pushBatches tracks isUpdate rest accumulator1 s1

/-- The handling of added or updated tracks in the words of the specification:
for every group the members are visited in order with an accumulator that
starts empty. -/
def handleTracksAddedUpdatedSpec (s : State) (tracks : TrackList) (isUpdate : Bool) : State :=
  s.m_groups.foldl
    (fun st kv => pushBatches matchesSearch tracksAdded tracksUpdated tracks isUpdate
      kv.2.filters [] st) s

end
/-- Three nodes created in the default group `7`: none has a predicate and none
is active. -/
def threeNodesState : State :=
  (createFilter matchesAll (createFilter matchesAll (createFilter matchesAll
    (State.init twoLibraries 7) 100).2 101).2 102).2

/-! ## Search, and operations addressed to a group -/

/-- The unit of work that `searchChanged` hands to `Utils::asyncExec`: the
lambda holds copies of `search` and `tracksToFilter`, the continuation holds
the pointer `filter`. -/
structure SearchTask where
  filter : Ptr
  search : String
  tracksToFilter : TrackList
  deriving DecidableEq, Repr

/-- The body of the task: `Filter::filterTracks(tracksToFilter, search)` on the
captured copies. -/
def SearchTask.result (matchesSearch : Track → String → Bool) (task : SearchTask) : TrackList :=
  Filter.filterTracks matchesSearch task.tracksToFilter task.search

/-- The library function `QString::length()`, which is not part of the sources:
the number of UTF-16 code units of the text.  A character outside the Basic
Multilingual Plane is stored as a surrogate pair and counts as two. -/
def QString.length (text : String) : Nat :=
  text.toList.foldl (fun n c => n + (if c.toNat < 65536 then 1 else 2)) 0

/-- `searchChanged(filter, search)`: the state after the call and the task that
was dispatched, if any.  `filter->searchFilter()` is the text the node had
before; the lengths compared are those of `QString::length()`. -/
def searchChanged (matchesSearch : Track → String → Bool) (s : State) (filter : Ptr)
    (search : String) : State × Option SearchTask :=
  let groupId := (s.m_widgets filter).group
  match s.m_groups.lookup groupId with
  | none => (s, none)
  | some group =>
    if QString.length (s.m_widgets filter).searchFilter ≥ 2 ∧ QString.length search < 2 then
      (s.modifyWidget filter (fun w => w.reset matchesSearch s.m_library), none)
    else if QString.length search < 2 then (s, none)
    else
      let reset := !group.filteredTracks.isEmpty
        || decide (QString.length (s.m_widgets filter).searchFilter > QString.length search)
      let tracksToFilter := if reset then s.m_library else (s.m_widgets filter).tracks
      (s, some (SearchTask.mk filter search tracksToFilter))

/-- The continuation `.then(m_self, [filter](const TrackList& filteredTracks)
{ filter->reset(filteredTracks); })`, run in the state the controller is in
when the task has finished. -/
def searchFinished (matchesSearch : Track → String → Bool) (s : State) (task : SearchTask) :
    State :=
  s.modifyWidget task.filter (fun w => w.reset matchesSearch (task.result matchesSearch))

/-- `resetFiltersAfterFilter(filter)`. -/
def resetFiltersAfterFilter (matchesSearch : Track → String → Bool) (s : State) (filter : Ptr) :
    State :=
  let group := (s.m_widgets filter).group
  match s.m_groups.lookup group with
  | none => s
  | some filterGroup =>
    let resetIndex := (s.m_widgets filter).index - 1
    filterGroup.filters.foldl
      (fun st filterWidget =>
        if (st.m_widgets filterWidget).index > resetIndex
        then st.modifyWidget filterWidget (fun w => w.reset matchesSearch (tracks st group))
        else st) s

/-- `FilterController::groupById(id)`. -/
def groupById (s : State) (id : Id) : Option FilterGroup :=
  if !s.m_groups.contains id then none else s.m_groups.lookup id

/-- A node with the predicate text `previous` and the own track set `[t1, t3]`,
alone in the group `1`, whose combined set is empty, over the library
`[t1, t2, t3]`. -/
def searchState (previous : String) : State :=
  { m_library := [sampleTrack 1, sampleTrack 2, sampleTrack 3]
    vdefaultId := 1
    m_groups := [(1, { id := 1, filters := [0], filteredTracks := [], updateCount := 0 })]
    m_ungrouped := []
    m_widgets := fun _ =>
      { id := 10, group := 1, index := 0, active := false, searchFilter := previous,
        filteredTracks := [sampleTrack 1, sampleTrack 3],
        tracks := [sampleTrack 1, sampleTrack 3] }
    nextWidget := 1 }

/-! ## Completion of an update -/

/-- The connections made by the loop of `handleTracksAddedUpdated`: with
`updated`, one queued single-shot connection of `finishedUpdating` for every
member of every group, whose slot captures the member and `count`, the size of
the group; without `updated` no connection is made. -/
def completionHooks (s : State) (updated : Bool) : List (Ptr × Int) :=
  s.m_groups.flatMap (fun kv =>
    kv.2.filters.flatMap (fun filterWidget =>
      if updated then [(filterWidget, (kv.2.filters.length : Int))] else []))

/-- The slot connected to `finishedUpdating`, with its captures `count` and
`filterWidget`.  The flag of the result tells whether `refreshFilters` was
called; the result is `none` when `refreshFilters` fails. -/
def finishedUpdating (refetchFilteredTracks : FilterWidget → FilterWidget)
    (softReset : FilterWidget → TrackList → FilterWidget) (s : State) (count : Int)
    (filterWidget : Ptr) : Option (State × Bool) :=
  let groupId := (s.m_widgets filterWidget).group
  match s.m_groups.lookup groupId with
  | none => some (s, false)
  | some group =>
    let updateCount := group.updateCount + 1
    if updateCount = count then
      let s1 := { s with m_groups := s.m_groups.assign groupId { group with updateCount := 0 } }
      (refreshFilters refetchFilteredTracks softReset s1 groupId).map (fun s2 => (s2, true))
    else
      let s1 :=
        { s with m_groups := s.m_groups.assign groupId { group with updateCount := updateCount } }
      some (s1, false)

/-- The event loop delivers queued slots one after the other, each once.  The
result is the final state and the number of calls of `refreshFilters`. -/
def deliver (refetchFilteredTracks : FilterWidget → FilterWidget)
    (softReset : FilterWidget → TrackList → FilterWidget) :
    List (Ptr × Int) → State → Option (State × Nat)
  | [], s => some (s, 0)
  | hook :: rest, s =>
    match finishedUpdating refetchFilteredTracks softReset s hook.2 hook.1 with
    | none => none
    | some (s1, called) =>
      match deliver refetchFilteredTracks softReset rest s1 with
      | none => none
      | some (s2, calls) => some (s2, (if called then 1 else 0) + calls)

/-! ## M3U playlists: the subsong suffix of a path -/

/-- The library function `QString::toInt()`, which is not part of the sources,
on a run of decimal digits: the value in base 10, or 0 when the value does not
fit in an `int`. -/
def toInt (digits : List Char) : Int :=
  let value : Nat := digits.foldl (fun acc c => acc * 10 + (c.toNat - 48)) 0
  if value ≤ 2147483647 then (value : Int) else 0

/-- The regular expression `#(\d+)$` tried at the start of `text`: a `#`, one
or more ASCII digits, taken greedily, and then the end of the text or the
newline that ends the text.  The result is the captured run of digits. -/
def subsongAt (text : List Char) : Option (List Char) :=
  match text with
  | [] => none
  | c :: rest =>
    if c = '#' then
      let digits := rest.takeWhile Char.isDigit
      let tail := rest.dropWhile Char.isDigit
      if digits ≠ [] ∧ (tail = [] ∨ tail = ['\n']) then some digits else none
    else none

/-- The body of `endingSubsong` with `regex.match(*filepath)` as a search for
the first position where the expression matches; `before` is the text passed
over.  The result is the value returned and the text left in `*filepath`:
the captured digits as a number and the text without the match, or `-1` and
the text unchanged without a match. -/
def endingSubsongFrom (before : List Char) : List Char → Int × List Char
  | [] => (-1, before)
  | c :: rest =>
    match subsongAt (c :: rest) with
    | some digits => (toInt digits, before ++ rest.drop digits.length)
    | none => endingSubsongFrom (before ++ [c]) rest

/-- `endingSubsong(&filepath)`. -/
def endingSubsong (filepath : List Char) : Int × List Char :=
  endingSubsongFrom [] filepath

/-- The path text `savePlaylist` builds for a track: `track.filepath()`,
followed by `#` and the decimal subsong if `track.subsong() > 0`. -/
def savedPath (filepath : List Char) (subsong : Int) : List Char :=
  if subsong > 0 then filepath ++ '#' :: Nat.toDigits 10 subsong.toNat else filepath

/-! ## Track intersection: basic facts -/

theorem mem_foldl_insert (v : TrackList) (acc : List Int) (i : Int) :
    i ∈ v.foldl (fun ids track => ids.insert track.id) acc ↔ i ∈ acc ∨ ∃ t ∈ v, t.id = i := by
  induction v generalizing acc with
  | nil => simp
  | cons t v ih =>
    simp only [List.foldl_cons, ih, List.mem_insert_iff, List.mem_cons, exists_eq_or_imp]
    constructor
    · rintro ((h | h) | h)
      · exact Or.inr (Or.inl h.symm)
      · exact Or.inl h
      · exact Or.inr (Or.inr h)
    · rintro (h | h | h)
      · exact Or.inl (Or.inr h)
      · exact Or.inl (Or.inl h.symm)
      · exact Or.inr h

theorem mem_trackIds (v : TrackList) (i : Int) : i ∈ trackIds v ↔ ∃ t ∈ v, t.id = i := by
  simp [trackIds, mem_foldl_insert]

theorem foldl_push_eq_filter (p : Track → Bool) (v acc : TrackList) :
    v.foldl (fun result track => if p track then result ++ [track] else result) acc
      = acc ++ v.filter p := by
  induction v generalizing acc with
  | nil => simp
  | cons t v ih =>
    simp only [List.foldl_cons, ih, List.filter_cons]
    by_cases h : p t = true <;> simp [h]

/-- The intersection is the filter of the second operand by "identity occurs in
the first operand". -/
theorem trackIntersection_eq_filter (v1 v2 : TrackList) :
    trackIntersection v1 v2 = v2.filter (fun t => decide (t.id ∈ v1.map Track.id)) := by
  unfold trackIntersection
  simp only [foldl_push_eq_filter, List.nil_append]
  apply List.filter_congr
  intro t _
  have key : t.id ∈ trackIds v1 ↔ t.id ∈ v1.map Track.id := by
    simp [mem_trackIds]
  by_cases h : t.id ∈ v1.map Track.id
  · have h1 := key.mpr h
    simp [h, h1]
  · have h1 : t.id ∉ trackIds v1 := fun h1 => h (key.mp h1)
    simp [h, h1]

theorem mem_trackIntersection (v1 v2 : TrackList) (t : Track) :
    t ∈ trackIntersection v1 v2 ↔ t ∈ v2 ∧ t.id ∈ v1.map Track.id := by
  simp [trackIntersection_eq_filter, List.mem_filter]

theorem trackIntersection_nil_right (a : TrackList) : trackIntersection a [] = [] := by
  simp [trackIntersection_eq_filter]

theorem trackIntersection_nil_left (a : TrackList) : trackIntersection [] a = [] := by
  simp [trackIntersection_eq_filter]

theorem trackIntersection_self (a : TrackList) : trackIntersection a a = a := by
  rw [trackIntersection_eq_filter, List.filter_eq_self]
  intro t ht
  simpa using ⟨t, ht, rfl⟩

theorem trackIntersection_sublist (a b : TrackList) : (trackIntersection a b).Sublist b := by
  rw [trackIntersection_eq_filter]
  exact List.filter_sublist b

/-! ## Association lists with the standard map operations -/

theorem lookup_cons_eq {β : Type} (a k : Nat) (b : β) (es : List (Nat × β)) :
    List.lookup a ((k, b) :: es) = if a = k then some b else List.lookup a es := by
  rw [List.lookup_cons]
  by_cases h : a = k
  · simp [h]
  · have : (a == k) = false := by simpa using h
    simp [this, h]

theorem lookup_eq_none_iff {β : Type} (a : Nat) (es : List (Nat × β)) :
    List.lookup a es = none ↔ a ∉ es.map Prod.fst := by
  induction es with
  | nil => simp
  | cons kv es ih =>
    obtain ⟨k, b⟩ := kv
    rw [lookup_cons_eq]
    by_cases h : a = k
    · simp [h]
    · simp [h, ih]

theorem mem_of_lookup_eq_some {β : Type} {a : Nat} {b : β} {es : List (Nat × β)}
    (h : List.lookup a es = some b) : (a, b) ∈ es := by
  induction es with
  | nil => simp at h
  | cons kv es ih =>
    obtain ⟨k, c⟩ := kv
    rw [lookup_cons_eq] at h
    by_cases hk : a = k
    · simp [hk] at h
      simp [hk, h]
    · simp [hk] at h
      exact List.mem_cons_of_mem _ (ih h)

theorem lookup_eq_some_of_mem {β : Type} {a : Nat} {b : β} {es : List (Nat × β)}
    (hnd : (es.map Prod.fst).Nodup) (h : (a, b) ∈ es) : List.lookup a es = some b := by
  induction es with
  | nil => simp at h
  | cons kv es ih =>
    obtain ⟨k, c⟩ := kv
    rw [lookup_cons_eq]
    simp only [List.map_cons, List.nodup_cons] at hnd
    rcases List.mem_cons.mp h with h1 | h1
    · simp only [Prod.mk.injEq] at h1
      simp [h1.1, h1.2]
    · have hne : a ≠ k := by
        rintro rfl
        exact hnd.1 (List.mem_map.mpr ⟨(a, b), h1, rfl⟩)
      simp [hne, ih hnd.2 h1]

namespace FilterGroups

theorem keys_assign (gs : FilterGroups) (key : Id) (group : FilterGroup) :
    (assign gs key group).map Prod.fst = gs.map Prod.fst := by
  unfold assign
  rw [List.map_map]
  apply List.map_congr_left
  intro kv _
  by_cases h : kv.1 = key <;> simp [h]

theorem lookup_assign (gs : FilterGroups) (key : Id) (group : FilterGroup) (k : Id) :
    (assign gs key group).lookup k
      = if k = key then (gs.lookup key).map (fun _ => group) else gs.lookup k := by
  induction gs with
  | nil => simp [assign]
  | cons kv gs ih =>
    obtain ⟨k0, g0⟩ := kv
    have hc : assign ((k0, g0) :: gs) key group
        = (if k0 = key then (k0, group) else (k0, g0)) :: assign gs key group := by
      simp [assign]
    rw [hc]
    by_cases h0 : k0 = key
    · subst h0
      simp only [if_true, lookup_cons_eq, ih]
      by_cases hk : k = k0 <;> simp [hk]
    · simp only [h0, if_false, lookup_cons_eq, ih]
      by_cases hk : k = key
      · have : key ≠ k0 := fun h => h0 h.symm
        simp [hk, this]
      · simp [hk]

theorem keys_erase (gs : FilterGroups) (key : Id) :
    (erase gs key).map Prod.fst = (gs.map Prod.fst).filter (fun k => k ≠ key) := by
  unfold erase
  rw [List.filter_map]
  rfl

theorem lookup_erase (gs : FilterGroups) (key : Id) (k : Id) :
    (erase gs key).lookup k = if k = key then none else gs.lookup k := by
  induction gs with
  | nil => simp [erase]
  | cons kv gs ih =>
    obtain ⟨k0, g0⟩ := kv
    by_cases h0 : k0 = key
    · have hc : erase ((k0, g0) :: gs) key = erase gs key := by simp [erase, h0]
      rw [hc, ih, lookup_cons_eq]
      by_cases hk : k = key
      · simp [hk]
      · have : k ≠ k0 := by rw [h0]; exact hk
        simp [hk, this]
    · have hc : erase ((k0, g0) :: gs) key = (k0, g0) :: erase gs key := by simp [erase, h0]
      rw [hc, lookup_cons_eq, lookup_cons_eq, ih]
      by_cases hk : k = key
      · subst hk
        have : k ≠ k0 := fun h => h0 h.symm
        simp [this]
      · simp [hk]

theorem lookup_append_single (gs : FilterGroups) (key : Id) (group : FilterGroup) (k : Id) :
    (gs ++ [(key, group)]).lookup k
      = match gs.lookup k with
        | some g => some g
        | none => if k = key then some group else none := by
  induction gs with
  | nil => simp [lookup_cons_eq]
  | cons kv gs ih =>
    obtain ⟨k0, g0⟩ := kv
    rw [List.cons_append, lookup_cons_eq, lookup_cons_eq, ih]
    by_cases hk : k = k0 <;> simp [hk]

theorem lookup_index (gs : FilterGroups) (key : Id) (k : Id) :
    (index gs key).lookup k
      = if k = key then some ((gs.lookup key).getD FilterGroup.empty) else gs.lookup k := by
  unfold index contains
  cases h : gs.lookup key with
  | some g =>
    by_cases hk : k = key
    · simp [hk, h]
    · simp [hk]
  | none =>
    simp only [Option.isSome_none, Bool.false_eq_true, if_false, lookup_append_single]
    by_cases hk : k = key
    · simp [hk, h]
    · simp [hk]
      cases gs.lookup k <;> rfl

theorem keys_index (gs : FilterGroups) (key : Id) :
    (index gs key).map Prod.fst
      = if key ∈ gs.map Prod.fst then gs.map Prod.fst else gs.map Prod.fst ++ [key] := by
  unfold index contains
  by_cases h : key ∈ gs.map Prod.fst
  · have : gs.lookup key ≠ none := fun hn => (lookup_eq_none_iff key gs).mp hn h
    have h2 : (gs.lookup key).isSome = true := Option.isSome_iff_ne_none.mpr this
    simp [h2, if_pos h]
  · have : gs.lookup key = none := (lookup_eq_none_iff key gs).mpr h
    simp [this, if_neg h]

end FilterGroups

/-! ## Claims on the track intersection -/

/-- C1: for all track sequences `a` and `b`, `trackIntersection a b` is the
subsequence of `b` (same order, same multiplicity) of the elements whose
identity occurs in `a`; an element of `a` that is absent from `b` is not in it. -/
theorem trackIntersection_is_subsequence_of_second (a b : TrackList) :
    trackIntersection a b = b.filter (fun t => decide (t.id ∈ a.map Track.id))
      ∧ (trackIntersection a b).Sublist b
      ∧ (∀ t, t ∈ a → t ∉ b → t ∉ trackIntersection a b) := by
  refine ⟨trackIntersection_eq_filter a b, trackIntersection_sublist a b, ?_⟩
  intro t _ hb h
  exact hb ((mem_trackIntersection a b t).mp h).1

/-- The C1 theorem applied to `a = [t1, t2]`, `b = [t2]`: `t1` is not in the
intersection. -/
theorem trackIntersection_is_subsequence_of_second_witness :
    sampleTrack 1 ∉ trackIntersection [sampleTrack 1, sampleTrack 2] [sampleTrack 2] :=
  (trackIntersection_is_subsequence_of_second [sampleTrack 1, sampleTrack 2] [sampleTrack 2]).2.2
    (sampleTrack 1) (by decide) (by decide)

/-- C2: intersecting with the empty sequence on either side yields the empty
sequence, and intersecting a sequence with itself returns it unchanged. -/
theorem trackIntersection_empty_and_idempotent (a : TrackList) :
    trackIntersection a [] = [] ∧ trackIntersection [] a = [] ∧ trackIntersection a a = a :=
  ⟨trackIntersection_nil_right a, trackIntersection_nil_left a, trackIntersection_self a⟩

theorem mem_ids_trackIntersection (a b : TrackList) (i : Int) :
    i ∈ (trackIntersection a b).map Track.id ↔ i ∈ a.map Track.id ∧ i ∈ b.map Track.id := by
  simp only [List.mem_map, mem_trackIntersection]
  constructor
  · rintro ⟨t, ⟨hb, u, hu, hut⟩, rfl⟩
    exact ⟨⟨u, hu, hut⟩, ⟨t, hb, rfl⟩⟩
  · rintro ⟨⟨u, hu, rfl⟩, ⟨t, ht, hti⟩⟩
    exact ⟨t, ⟨ht, u, hu, hti.symm⟩, hti⟩

/-- C3: `trackIntersection a b` and `trackIntersection b a` contain the same
track identities; each keeps the order of its second operand, and the two
results can differ as sequences. -/
theorem trackIntersection_comm_content :
    (∀ a b : TrackList,
        (∀ i : Int, i ∈ (trackIntersection a b).map Track.id
            ↔ i ∈ (trackIntersection b a).map Track.id)
          ∧ (trackIntersection a b).Sublist b ∧ (trackIntersection b a).Sublist a)
      ∧ ∃ a b : TrackList, trackIntersection a b ≠ trackIntersection b a := by
  refine ⟨fun a b => ⟨fun i => ?_, trackIntersection_sublist a b, trackIntersection_sublist b a⟩, ?_⟩
  · rw [mem_ids_trackIntersection, mem_ids_trackIntersection]
    exact And.comm
  · exact ⟨[sampleTrack 1, sampleTrack 2], [sampleTrack 2, sampleTrack 1], by decide⟩

/-- C4: on a group whose three active members have the matched sets `[t1]`,
`[t2]`, `[t3]`, the left-to-right intersection is empty, but
`getFilteredTracks` leaves `[t3]` in the cache: once the running intersection
is empty, the loop takes it for "no filter seen yet" and copies the next set. -/
theorem getFilteredTracks_disjoint_selections :
    activeSets disjointState
        { id := 1, filters := [0, 1, 2], filteredTracks := [], updateCount := 0 }
      = [[sampleTrack 1], [sampleTrack 2], [sampleTrack 3]]
    ∧ intersectAll [[sampleTrack 1], [sampleTrack 2], [sampleTrack 3]] = []
    ∧ cachedTracks (getFilteredTracks disjointState 1) 1 = some [sampleTrack 3] := by
  decide

/-! ## Cascade input -/

theorem m_library_getFilteredTracks (s : State) (g : Id) :
    (getFilteredTracks s g).m_library = s.m_library := by
  unfold getFilteredTracks
  cases s.m_groups.lookup g <;> rfl

theorem m_widgets_getFilteredTracks (s : State) (g : Id) :
    (getFilteredTracks s g).m_widgets = s.m_widgets := by
  unfold getFilteredTracks
  cases s.m_groups.lookup g <;> rfl

theorem lookup_getFilteredTracks (s : State) (g k : Id) :
    (getFilteredTracks s g).m_groups.lookup k
      = if k = g then
          (s.m_groups.lookup g).map (fun group =>
            { group with filteredTracks := combineActive s.m_widgets (activeFilters s group) })
        else s.m_groups.lookup k := by
  unfold getFilteredTracks
  cases h : s.m_groups.lookup g with
  | none =>
    by_cases hk : k = g
    · simp [hk, h]
    · simp [hk]
  | some group =>
    simp only [FilterGroups.lookup_assign, h, Option.map_some']

/-- C5: `tracks g` is the library for an unknown group and for a group with an
empty cache, and the cache otherwise; after `getFilteredTracks` on a group
without active member the cache is empty and `tracks g` is the library. -/
theorem tracks_cascade_input (s : State) (g : Id) :
    (s.m_groups.lookup g = none → tracks s g = s.m_library)
    ∧ (∀ group, s.m_groups.lookup g = some group → group.filteredTracks = [] →
        tracks s g = s.m_library)
    ∧ (∀ group, s.m_groups.lookup g = some group → group.filteredTracks ≠ [] →
        tracks s g = group.filteredTracks)
    ∧ (∀ group, s.m_groups.lookup g = some group →
        (∀ w ∈ group.filters, (s.m_widgets w).isActive = false) →
        cachedTracks (getFilteredTracks s g) g = some []
          ∧ tracks (getFilteredTracks s g) g = s.m_library) := by
  refine ⟨?_, ?_, ?_, ?_⟩
  · intro h
    simp [tracks, h]
  · intro group h he
    simp [tracks, h, he]
  · intro group h hne
    simp [tracks, h, hne]
  · intro group h hall
    have hfil : activeFilters s group = [] := by
      unfold activeFilters
      rw [List.filter_eq_nil_iff]
      intro w hw
      simp [hall w hw]
    have hl := lookup_getFilteredTracks s g g
    simp only [if_true, h, Option.map_some', hfil] at hl
    refine ⟨?_, ?_⟩
    · simp [cachedTracks, hl, combineActive]
    · simp [tracks, hl, combineActive, m_library_getFilteredTracks]

/-- The C5 theorem applied to a group with one inactive member and a stale
cache. -/
theorem tracks_cascade_input_witness :
    cachedTracks (getFilteredTracks idleState 1) 1 = some []
      ∧ tracks (getFilteredTracks idleState 1) 1 = [sampleTrack 1, sampleTrack 2] :=
  (tracks_cascade_input idleState 1).2.2.2
    { id := 1, filters := [0], filteredTracks := [sampleTrack 2], updateCount := 0 }
    (by decide) (by decide)

/-! ## The structural invariant on shapes -/

namespace Shape

theorem Inv.mem_reg_of_grouped {sh : Shape} {reg : List Ptr} (h : Inv sh reg) {k : Id}
    {fs : List Ptr} {w : Ptr} (hk : sh.filters k = some fs) (hw : w ∈ fs) : w ∈ reg :=
  (h.registered w).mpr (Or.inl ⟨k, fs, hk, hw⟩)

theorem Inv.mem_reg_of_ungrouped {sh : Shape} {reg : List Ptr} (h : Inv sh reg) {i : Id}
    {p : Ptr} (hp : sh.ungrouped.lookup i = some p) : p ∈ reg := by
  have hid := h.ungrouped_id i p hp
  exact (h.registered p).mpr (Or.inr (by rw [hid]; exact hp))

theorem filters_setFilters (sh : Shape) (key : Id) (fs : List Ptr) (k : Id) :
    (sh.setFilters key fs).filters k
      = if k = key then (if fs = [] then none else some fs) else sh.filters k := by
  simp only [setFilters, Function.update_apply]

/-- Allocation of a widget with a fresh identity keeps the invariant. -/
theorem Inv.alloc {sh : Shape} {reg : List Ptr} (h : Inv sh reg) (id : Id)
    (hfresh : ∀ p, p < sh.next → sh.ids p ≠ id) : Inv (sh.alloc id) reg := by
  have hne : ∀ p, p ∈ reg → p ≠ sh.next := fun p hp => Nat.ne_of_lt (h.allocated p hp)
  have hids : ∀ p, p ∈ reg → (sh.alloc id).ids p = sh.ids p := by
    intro p hp
    simp [Shape.alloc, Function.update_apply, hne p hp]
  refine
    { keys_nodup := h.keys_nodup, keys_iff := h.keys_iff, keys_valid := h.keys_valid,
      nonempty := h.nonempty, nodup := h.nodup, disjoint := h.disjoint,
      ukeys_nodup := h.ukeys_nodup, default_valid := h.default_valid,
      ungrouped_id := ?_, ungrouped_not_grouped := h.ungrouped_not_grouped,
      ids_unique := ?_, registered := ?_, allocated := ?_ }
  · intro i p hp
    rw [hids p (h.mem_reg_of_ungrouped hp)]
    exact h.ungrouped_id i p hp
  · intro p q hp hq hpq
    simp only [Shape.alloc, Function.update_apply] at hp hq hpq
    by_cases h1 : p = sh.next <;> by_cases h2 : q = sh.next
    · rw [h1, h2]
    · simp only [h1, h2, if_true, if_false] at hpq
      exact absurd hpq.symm (hfresh q (Nat.lt_of_le_of_ne (Nat.lt_succ_iff.mp hq) h2))
    · simp only [h1, h2, if_true, if_false] at hpq
      exact absurd hpq (hfresh p (Nat.lt_of_le_of_ne (Nat.lt_succ_iff.mp hp) h1))
    · simp only [h1, h2, if_false] at hpq
      exact h.ids_unique p q (Nat.lt_of_le_of_ne (Nat.lt_succ_iff.mp hp) h1)
        (Nat.lt_of_le_of_ne (Nat.lt_succ_iff.mp hq) h2) hpq
  · intro w
    by_cases hw : w = sh.next
    · subst hw
      have hnot : sh.next ∉ reg := fun hr => absurd rfl (hne _ hr)
      constructor
      · intro hr; exact absurd hr hnot
      · rintro (⟨k, fs, hk, hmem⟩ | hu)
        · exact absurd (h.mem_reg_of_grouped hk hmem) hnot
        · exact absurd (h.mem_reg_of_ungrouped hu) hnot
    · have : (sh.alloc id).ids w = sh.ids w := by
        simp [Shape.alloc, Function.update_apply, hw]
      rw [h.registered w]
      simp only [this]
      rfl
  · intro w hw
    exact Nat.lt_succ_of_lt (h.allocated w hw)

/-- Attaching an unregistered node to a group keeps the invariant. -/
theorem Inv.attach {sh : Shape} {reg : List Ptr} (h : Inv sh reg) (w : Ptr) (g : Id)
    (fs : List Ptr) (hw : w ∉ reg) (halloc : w < sh.next) (hg : g ≠ 0)
    (hmem : ∀ p, p ∈ fs ↔ p = w ∨ p ∈ (sh.filters g).getD []) (hnd : fs.Nodup) :
    Inv (sh.setFilters g fs) (w :: reg) := by
  have hfs : fs ≠ [] := by
    intro h0
    have := (hmem w).mpr (Or.inl rfl)
    rw [h0] at this
    exact absurd this (List.not_mem_nil w)
  have hfil : ∀ k, (sh.setFilters g fs).filters k = if k = g then some fs else sh.filters k := by
    intro k
    rw [filters_setFilters]
    simp [hfs]
  have hold : ∀ p, p ∈ (sh.filters g).getD [] → p ∈ reg := by
    intro p hp
    cases hgs : sh.filters g with
    | none => simp [hgs] at hp
    | some old =>
      rw [hgs] at hp
      exact h.mem_reg_of_grouped hgs hp
  have hin : ∀ p, p ∈ fs → p ≠ w → ∃ old, sh.filters g = some old ∧ p ∈ old := by
    intro p hp hpw
    rcases (hmem p).mp hp with h1 | h1
    · exact absurd h1 hpw
    · cases hgs : sh.filters g with
      | none => simp [hgs] at h1
      | some old => rw [hgs] at h1; exact ⟨old, rfl, h1⟩
  refine
    { keys_nodup := ?_, keys_iff := ?_, keys_valid := ?_, nonempty := ?_, nodup := ?_,
      disjoint := ?_, ukeys_nodup := h.ukeys_nodup, default_valid := h.default_valid,
      ungrouped_id := h.ungrouped_id, ungrouped_not_grouped := ?_,
      ids_unique := h.ids_unique, registered := ?_, allocated := ?_ }
  · simp only [setFilters, hfs, if_false]
    by_cases hk : g ∈ sh.keys
    · simp only [hk, if_true]; exact h.keys_nodup
    · simp only [hk, if_false]
      rw [List.nodup_append]
      refine ⟨h.keys_nodup, List.nodup_singleton g, ?_⟩
      intro x hx hx'
      rw [List.mem_singleton] at hx'
      exact hk (hx' ▸ hx)
  · intro k
    rw [hfil]
    simp only [setFilters, hfs, if_false]
    by_cases hkg : k = g
    · subst hkg
      by_cases hk : k ∈ sh.keys <;> simp [hk]
    · simp only [hkg, if_false]
      by_cases hk : g ∈ sh.keys
      · simp only [hk, if_true]; exact h.keys_iff k
      · simp only [hk, if_false, List.mem_append, List.mem_singleton, hkg, or_false]
        exact h.keys_iff k
  · intro k fs' hk
    rw [hfil] at hk
    by_cases hkg : k = g
    · rw [hkg]; exact hg
    · simp only [hkg, if_false] at hk
      exact h.keys_valid k fs' hk
  · intro k fs' hk
    rw [hfil] at hk
    by_cases hkg : k = g
    · simp only [hkg, if_true, Option.some.injEq] at hk
      rw [← hk]; exact hfs
    · simp only [hkg, if_false] at hk
      exact h.nonempty k fs' hk
  · intro k fs' hk
    rw [hfil] at hk
    by_cases hkg : k = g
    · simp only [hkg, if_true, Option.some.injEq] at hk
      rw [← hk]; exact hnd
    · simp only [hkg, if_false] at hk
      exact h.nodup k fs' hk
  · intro k fs1 k' fs2 p hk hk' hp hp'
    rw [hfil] at hk hk'
    by_cases hkg : k = g <;> by_cases hkg' : k' = g
    · rw [hkg, hkg']
    · simp only [hkg, if_true, Option.some.injEq] at hk
      simp only [hkg', if_false] at hk'
      rw [← hk] at hp
      by_cases hpw : p = w
      · exact absurd (h.mem_reg_of_grouped hk' (hpw ▸ hp')) hw
      · obtain ⟨old, ho, hpo⟩ := hin p hp hpw
        rw [hkg]
        exact h.disjoint g old k' fs2 p ho hk' hpo hp'
    · simp only [hkg', if_true, Option.some.injEq] at hk'
      simp only [hkg, if_false] at hk
      rw [← hk'] at hp'
      by_cases hpw : p = w
      · exact absurd (h.mem_reg_of_grouped hk (hpw ▸ hp)) hw
      · obtain ⟨old, ho, hpo⟩ := hin p hp' hpw
        rw [hkg']
        exact h.disjoint k fs1 g old p hk ho hp hpo
    · simp only [hkg, hkg', if_false] at hk hk'
      exact h.disjoint k fs1 k' fs2 p hk hk' hp hp'
  · intro i p hp k fs' hk hpf
    rw [hfil] at hk
    by_cases hkg : k = g
    · simp only [hkg, if_true, Option.some.injEq] at hk
      rw [← hk] at hpf
      by_cases hpw : p = w
      · exact hw (hpw ▸ h.mem_reg_of_ungrouped hp)
      · obtain ⟨old, ho, hpo⟩ := hin p hpf hpw
        exact h.ungrouped_not_grouped i p hp g old ho hpo
    · simp only [hkg, if_false] at hk
      exact h.ungrouped_not_grouped i p hp k fs' hk hpf
  · intro x
    rw [List.mem_cons, h.registered x]
    constructor
    · rintro (hx | ⟨k, fs', hk, hxf⟩ | hu)
      · exact Or.inl ⟨g, fs, by rw [hfil]; simp, (hmem x).mpr (Or.inl hx)⟩
      · by_cases hkg : k = g
        · refine Or.inl ⟨g, fs, by rw [hfil]; simp, (hmem x).mpr (Or.inr ?_)⟩
          rw [← hkg, hk]; exact hxf
        · exact Or.inl ⟨k, fs', by rw [hfil]; simp [hkg, hk], hxf⟩
      · exact Or.inr hu
    · rintro (⟨k, fs', hk, hxf⟩ | hu)
      · rw [hfil] at hk
        by_cases hkg : k = g
        · simp only [hkg, if_true, Option.some.injEq] at hk
          rw [← hk] at hxf
          by_cases hxw : x = w
          · exact Or.inl hxw
          · obtain ⟨old, ho, hpo⟩ := hin x hxf hxw
            exact Or.inr (Or.inl ⟨g, old, ho, hpo⟩)
        · simp only [hkg, if_false] at hk
          exact Or.inr (Or.inl ⟨k, fs', hk, hxf⟩)
      · exact Or.inr (Or.inr hu)
  · intro x hx
    rcases List.mem_cons.mp hx with hx | hx
    · rw [hx]; exact halloc
    · exact h.allocated x hx

end Shape

theorem lookup_filter_ne {β : Type} (es : List (Nat × β)) (key k : Nat) :
    (es.filter (fun kv => kv.1 ≠ key)).lookup k = if k = key then none else es.lookup k := by
  induction es with
  | nil => simp
  | cons kv es ih =>
    obtain ⟨k0, g0⟩ := kv
    by_cases h0 : k0 = key
    · have hc : ((k0, g0) :: es).filter (fun kv => kv.1 ≠ key)
          = es.filter (fun kv => kv.1 ≠ key) := by simp [h0]
      rw [hc, ih, lookup_cons_eq]
      by_cases hk : k = key
      · simp [hk]
      · have : k ≠ k0 := by rw [h0]; exact hk
        simp [hk, this]
    · have hc : ((k0, g0) :: es).filter (fun kv => kv.1 ≠ key)
          = (k0, g0) :: es.filter (fun kv => kv.1 ≠ key) := by simp [h0]
      rw [hc, lookup_cons_eq, lookup_cons_eq, ih]
      by_cases hk : k = key
      · subst hk
        have : k ≠ k0 := fun h => h0 h.symm
        simp [this]
      · simp [hk]

theorem lookup_append_singleton {β : Type} (es : List (Nat × β)) (key : Nat) (b : β) (k : Nat) :
    (es ++ [(key, b)]).lookup k
      = match es.lookup k with
        | some g => some g
        | none => if k = key then some b else none := by
  induction es with
  | nil => simp [lookup_cons_eq]
  | cons kv es ih =>
    obtain ⟨k0, g0⟩ := kv
    rw [List.cons_append, lookup_cons_eq, lookup_cons_eq, ih]
    by_cases hk : k = k0 <;> simp [hk]

theorem keys_filter_ne {β : Type} (es : List (Nat × β)) (key : Nat) :
    (es.filter (fun kv => kv.1 ≠ key)).map Prod.fst
      = (es.map Prod.fst).filter (fun k => k ≠ key) := by
  rw [List.filter_map]
  rfl

namespace UngroupedFilters

theorem lookup_erase_key (us : UngroupedFilters) (key k : Id) :
    (erase us key).lookup k = if k = key then none else us.lookup k :=
  lookup_filter_ne us key k

theorem emplace_of_lookup_none (us : UngroupedFilters) (key : Id) (w : Ptr)
    (h : us.lookup key = none) : emplace us key w = us ++ [(key, w)] := by
  simp [emplace, contains, h]

end UngroupedFilters

namespace Shape

/-- Detaching a member from its group keeps the invariant; the node is no longer
registered. -/
theorem Inv.detach {sh : Shape} {reg : List Ptr} (h : Inv sh reg) (w : Ptr) (k : Id)
    (old : List Ptr) (hk : sh.filters k = some old) (hw : w ∈ old) :
    Inv (sh.setFilters k (eraseWidget old w)) (reg.filter (fun x => x ≠ w)) := by
  have hrest : ∀ p, p ∈ eraseWidget old w ↔ p ∈ old ∧ p ≠ w := by
    intro p
    simp [eraseWidget, List.mem_filter]
  have hfil : ∀ k' fs, (sh.setFilters k (eraseWidget old w)).filters k' = some fs →
      (k' = k ∧ fs = eraseWidget old w ∧ fs ≠ []) ∨ (k' ≠ k ∧ sh.filters k' = some fs) := by
    intro k' fs hk'
    rw [filters_setFilters] at hk'
    by_cases hkk : k' = k
    · simp only [hkk, if_true] at hk'
      by_cases he : eraseWidget old w = []
      · simp [he] at hk'
      · simp only [he, if_false, Option.some.injEq] at hk'
        exact Or.inl ⟨hkk, hk'.symm, hk' ▸ he⟩
    · simp only [hkk, if_false] at hk'
      exact Or.inr ⟨hkk, hk'⟩
  have hkeys : k ∈ sh.keys := (h.keys_iff k).mpr (by simp [hk])
  refine
    { keys_nodup := ?_, keys_iff := ?_, keys_valid := ?_, nonempty := ?_, nodup := ?_,
      disjoint := ?_, ukeys_nodup := h.ukeys_nodup, default_valid := h.default_valid,
      ungrouped_id := h.ungrouped_id, ungrouped_not_grouped := ?_,
      ids_unique := h.ids_unique, registered := ?_, allocated := ?_ }
  · simp only [setFilters]
    by_cases he : eraseWidget old w = []
    · simp only [he, if_true]
      exact h.keys_nodup.filter _
    · simp only [he, if_false, hkeys, if_true]
      exact h.keys_nodup
  · intro k'
    rw [filters_setFilters]
    simp only [setFilters]
    by_cases he : eraseWidget old w = []
    · simp only [he, if_true, List.mem_filter, decide_eq_true_eq]
      by_cases hkk : k' = k
      · simp [hkk]
      · simp only [hkk, if_false, ne_eq, not_false_eq_true, and_true]
        exact h.keys_iff k'
    · simp only [he, if_false, hkeys, if_true]
      by_cases hkk : k' = k
      · simp [hkk, hkeys]
      · simp only [hkk, if_false]
        exact h.keys_iff k'
  · intro k' fs hk'
    rcases hfil k' fs hk' with ⟨h1, _, _⟩ | ⟨_, h2⟩
    · rw [h1]; exact h.keys_valid k old hk
    · exact h.keys_valid k' fs h2
  · intro k' fs hk'
    rcases hfil k' fs hk' with ⟨_, _, h3⟩ | ⟨_, h2⟩
    · exact h3
    · exact h.nonempty k' fs h2
  · intro k' fs hk'
    rcases hfil k' fs hk' with ⟨_, h2, _⟩ | ⟨_, h2⟩
    · rw [h2]; exact (h.nodup k old hk).filter _
    · exact h.nodup k' fs h2
  · intro k1 fs1 k2 fs2 p h1 h2 hp1 hp2
    rcases hfil k1 fs1 h1 with ⟨e1, f1, _⟩ | ⟨n1, g1⟩ <;>
      rcases hfil k2 fs2 h2 with ⟨e2, f2, _⟩ | ⟨n2, g2⟩
    · rw [e1, e2]
    · rw [f1] at hp1
      rw [e1]
      exact h.disjoint k old k2 fs2 p hk g2 ((hrest p).mp hp1).1 hp2
    · rw [f2] at hp2
      rw [e2]
      exact h.disjoint k1 fs1 k old p g1 hk hp1 ((hrest p).mp hp2).1
    · exact h.disjoint k1 fs1 k2 fs2 p g1 g2 hp1 hp2
  · intro i p hp k' fs hk' hpf
    rcases hfil k' fs hk' with ⟨_, f1, _⟩ | ⟨_, g1⟩
    · rw [f1] at hpf
      exact h.ungrouped_not_grouped i p hp k old hk ((hrest p).mp hpf).1
    · exact h.ungrouped_not_grouped i p hp k' fs g1 hpf
  · intro x
    simp only [List.mem_filter, decide_eq_true_eq]
    constructor
    · rintro ⟨hx, hxw⟩
      rcases (h.registered x).mp hx with ⟨k', fs, hk', hxf⟩ | hu
      · left
        by_cases hkk : k' = k
        · have hfs : fs = old := by
            rw [hkk, hk] at hk'
            exact (Option.some.inj hk').symm
          have hxr : x ∈ eraseWidget old w := (hrest x).mpr ⟨hfs ▸ hxf, hxw⟩
          have hne : eraseWidget old w ≠ [] := List.ne_nil_of_mem hxr
          exact ⟨k, eraseWidget old w, by rw [filters_setFilters]; simp [hne], hxr⟩
        · exact ⟨k', fs, by rw [filters_setFilters]; simp [hkk, hk'], hxf⟩
      · exact Or.inr hu
    · rintro (⟨k', fs, hk', hxf⟩ | hu)
      · rcases hfil k' fs hk' with ⟨_, f1, _⟩ | ⟨n1, g1⟩
        · rw [f1] at hxf
          exact ⟨h.mem_reg_of_grouped hk ((hrest x).mp hxf).1, ((hrest x).mp hxf).2⟩
        · refine ⟨h.mem_reg_of_grouped g1 hxf, ?_⟩
          intro hxw
          exact n1 (h.disjoint k' fs k old x g1 hk hxf (hxw ▸ hw))
      · have hu' : sh.ungrouped.lookup (sh.ids x) = some x := hu
        refine ⟨h.mem_reg_of_ungrouped hu', ?_⟩
        intro hxw
        exact h.ungrouped_not_grouped _ x hu' k old hk (hxw ▸ hw)
  · intro x hx
    exact h.allocated x (List.mem_filter.mp hx).1

/-- Erasing an ungrouped node from the ungrouped map keeps the invariant. -/
theorem Inv.eraseUngrouped {sh : Shape} {reg : List Ptr} (h : Inv sh reg) (w : Ptr)
    (hw : sh.ungrouped.lookup (sh.ids w) = some w) :
    Inv (sh.setUngrouped (sh.ungrouped.erase (sh.ids w))) (reg.filter (fun x => x ≠ w)) := by
  have hl : ∀ i, (sh.setUngrouped (sh.ungrouped.erase (sh.ids w))).ungrouped.lookup i
      = if i = sh.ids w then none else sh.ungrouped.lookup i := by
    intro i
    exact UngroupedFilters.lookup_erase_key sh.ungrouped (sh.ids w) i
  have hsome : ∀ i p, (sh.setUngrouped (sh.ungrouped.erase (sh.ids w))).ungrouped.lookup i = some p →
      i ≠ sh.ids w ∧ sh.ungrouped.lookup i = some p := by
    intro i p hp
    rw [hl] at hp
    by_cases hi : i = sh.ids w
    · simp [hi] at hp
    · simp only [hi, if_false] at hp
      exact ⟨hi, hp⟩
  have hwreg : w ∈ reg := h.mem_reg_of_ungrouped hw
  refine
    { keys_nodup := h.keys_nodup, keys_iff := h.keys_iff, keys_valid := h.keys_valid,
      nonempty := h.nonempty, nodup := h.nodup, disjoint := h.disjoint,
      ukeys_nodup := ?_, default_valid := h.default_valid,
      ungrouped_id := ?_, ungrouped_not_grouped := ?_,
      ids_unique := h.ids_unique, registered := ?_, allocated := ?_ }
  · show ((sh.ungrouped.erase (sh.ids w)).map Prod.fst).Nodup
    unfold UngroupedFilters.erase
    rw [keys_filter_ne]
    exact h.ukeys_nodup.filter _
  · intro i p hp
    exact h.ungrouped_id i p (hsome i p hp).2
  · intro i p hp
    exact h.ungrouped_not_grouped i p (hsome i p hp).2
  · intro x
    simp only [List.mem_filter, decide_eq_true_eq]
    constructor
    · rintro ⟨hx, hxw⟩
      rcases (h.registered x).mp hx with hg | hu
      · exact Or.inl hg
      · right
        show (sh.setUngrouped (sh.ungrouped.erase (sh.ids w))).ungrouped.lookup (sh.ids x) = some x
        rw [hl]
        have : sh.ids x ≠ sh.ids w := fun hid =>
          hxw (h.ids_unique x w (h.allocated x hx) (h.allocated w hwreg) hid)
        simp [this, hu]
    · rintro (⟨k, fs, hk, hxf⟩ | hu)
      · refine ⟨h.mem_reg_of_grouped hk hxf, ?_⟩
        intro hxw
        exact h.ungrouped_not_grouped _ w hw k fs hk (hxw ▸ hxf)
      · have hu' := hsome (sh.ids x) x hu
        refine ⟨h.mem_reg_of_ungrouped hu'.2, ?_⟩
        intro hxw
        exact hu'.1 (by rw [hxw])
  · intro x hx
    exact h.allocated x (List.mem_filter.mp hx).1

/-- Erasing a key that is not in the ungrouped map changes nothing. -/
theorem erase_of_lookup_none (us : UngroupedFilters) (key : Id) (h : us.lookup key = none) :
    us.erase key = us := by
  unfold UngroupedFilters.erase
  rw [List.filter_eq_self]
  intro kv hkv
  have := (lookup_eq_none_iff key us).mp h
  simp only [ne_eq, decide_eq_true_eq]
  intro hk
  exact this (List.mem_map.mpr ⟨kv, hkv, hk⟩)

/-- Placing an unregistered node in the ungrouped map keeps the invariant. -/
theorem Inv.emplaceUngrouped {sh : Shape} {reg : List Ptr} (h : Inv sh reg) (w : Ptr)
    (hw : w ∉ reg) (halloc : w < sh.next) :
    Inv (sh.setUngrouped (sh.ungrouped.emplace (sh.ids w) w)) (w :: reg) := by
  have hnone : sh.ungrouped.lookup (sh.ids w) = none := by
    cases hl : sh.ungrouped.lookup (sh.ids w) with
    | none => rfl
    | some p =>
      have hp := h.mem_reg_of_ungrouped hl
      have hid := h.ungrouped_id _ p hl
      have : p = w := h.ids_unique p w (h.allocated p hp) halloc hid
      exact absurd (this ▸ hp) hw
  have hem := UngroupedFilters.emplace_of_lookup_none sh.ungrouped (sh.ids w) w hnone
  have hl : ∀ i, (sh.setUngrouped (sh.ungrouped.emplace (sh.ids w) w)).ungrouped.lookup i
      = if i = sh.ids w then some w else sh.ungrouped.lookup i := by
    intro i
    show (sh.ungrouped.emplace (sh.ids w) w).lookup i = _
    rw [hem, lookup_append_singleton]
    by_cases hi : i = sh.ids w
    · simp [hi, hnone]
    · simp only [hi, if_false]
      cases sh.ungrouped.lookup i <;> rfl
  have hsome : ∀ i p, (sh.setUngrouped (sh.ungrouped.emplace (sh.ids w) w)).ungrouped.lookup i = some p →
      (i = sh.ids w ∧ p = w) ∨ (i ≠ sh.ids w ∧ sh.ungrouped.lookup i = some p) := by
    intro i p hp
    rw [hl] at hp
    by_cases hi : i = sh.ids w
    · simp only [hi, if_true, Option.some.injEq] at hp
      exact Or.inl ⟨hi, hp.symm⟩
    · simp only [hi, if_false] at hp
      exact Or.inr ⟨hi, hp⟩
  refine
    { keys_nodup := h.keys_nodup, keys_iff := h.keys_iff, keys_valid := h.keys_valid,
      nonempty := h.nonempty, nodup := h.nodup, disjoint := h.disjoint,
      ukeys_nodup := ?_, default_valid := h.default_valid,
      ungrouped_id := ?_, ungrouped_not_grouped := ?_,
      ids_unique := h.ids_unique, registered := ?_, allocated := ?_ }
  · show ((sh.ungrouped.emplace (sh.ids w) w).map Prod.fst).Nodup
    rw [hem, List.map_append, List.nodup_append]
    refine ⟨h.ukeys_nodup, List.nodup_singleton _, ?_⟩
    intro x hx hx'
    simp only [List.map_cons, List.map_nil, List.mem_singleton] at hx'
    exact (lookup_eq_none_iff _ _).mp hnone (hx' ▸ hx)
  · intro i p hp
    rcases hsome i p hp with ⟨h1, h2⟩ | ⟨_, h2⟩
    · rw [h1, h2]; rfl
    · exact h.ungrouped_id i p h2
  · intro i p hp k fs hk hpf
    rcases hsome i p hp with ⟨_, h2⟩ | ⟨_, h2⟩
    · exact hw (h.mem_reg_of_grouped hk (h2 ▸ hpf))
    · exact h.ungrouped_not_grouped i p h2 k fs hk hpf
  · intro x
    rw [List.mem_cons, h.registered x]
    constructor
    · rintro (hx | hg | hu)
      · right
        show (sh.setUngrouped (sh.ungrouped.emplace (sh.ids w) w)).ungrouped.lookup (sh.ids x) = some x
        rw [hl, hx]; simp
      · exact Or.inl hg
      · right
        show (sh.setUngrouped (sh.ungrouped.emplace (sh.ids w) w)).ungrouped.lookup (sh.ids x) = some x
        rw [hl]
        by_cases hi : sh.ids x = sh.ids w
        · rw [hi] at hu
          rw [hnone] at hu
          exact absurd hu (by simp)
        · simp [hi, hu]
    · rintro (hg | hu)
      · exact Or.inr (Or.inl hg)
      · rcases hsome (sh.ids x) x hu with ⟨_, h2⟩ | ⟨_, h2⟩
        · exact Or.inl h2
        · exact Or.inr (Or.inr h2)
  · intro x hx
    rcases List.mem_cons.mp hx with hx | hx
    · rw [hx]; exact halloc
    · exact h.allocated x hx

end Shape

/-! ## Operations that change content only -/

theorem ContentOnly.refl (s : State) : ContentOnly s s :=
  { keys := rfl, filters := fun _ => rfl, ungrouped := rfl, library := rfl, next := rfl,
    dflt := rfl, id := fun _ => rfl, index := fun _ => rfl, group := fun _ => rfl }

theorem ContentOnly.trans {s1 s2 s3 : State} (h12 : ContentOnly s1 s2) (h23 : ContentOnly s2 s3) :
    ContentOnly s1 s3 :=
  { keys := h23.keys.trans h12.keys
    filters := fun k => (h23.filters k).trans (h12.filters k)
    ungrouped := h23.ungrouped.trans h12.ungrouped
    library := h23.library.trans h12.library
    next := h23.next.trans h12.next
    dflt := h23.dflt.trans h12.dflt
    id := fun p => (h23.id p).trans (h12.id p)
    index := fun p => (h23.index p).trans (h12.index p)
    group := fun p => (h23.group p).trans (h12.group p) }

theorem ContentOnly.shape_eq {s s' : State} (h : ContentOnly s s') : s'.shape = s.shape := by
  unfold State.shape
  rw [h.keys, h.ungrouped, h.next, h.dflt]
  congr 1
  · funext k; exact h.filters k
  · funext p; exact h.id p

theorem ContentOnly.modifyWidget (s : State) (w : Ptr) (f : FilterWidget → FilterWidget)
    (hid : ∀ x, (f x).id = x.id) (hindex : ∀ x, (f x).index = x.index)
    (hgroup : ∀ x, (f x).group = x.group) : ContentOnly s (s.modifyWidget w f) := by
  refine
    { keys := rfl, filters := fun _ => rfl, ungrouped := rfl, library := rfl, next := rfl,
      dflt := rfl, id := ?_, index := ?_, group := ?_ }
  all_goals
    intro p
    simp only [State.modifyWidget, Function.update_apply]
    by_cases hp : p = w
    · simp [hp, hid, hindex, hgroup]
    · simp [hp]

theorem ContentOnly.foldl (step : State → Ptr → State)
    (hstep : ∀ st p, ContentOnly st (step st p)) (l : List Ptr) (s : State) :
    ContentOnly s (l.foldl step s) := by
  induction l generalizing s with
  | nil => exact ContentOnly.refl s
  | cons p l ih => exact (hstep s p).trans (ih (step s p))

theorem ContentOnly.foldlKeys (step : State → Id → State)
    (hstep : ∀ st k, ContentOnly st (step st k)) (l : List Id) (s : State) :
    ContentOnly s (l.foldl step s) := by
  induction l generalizing s with
  | nil => exact ContentOnly.refl s
  | cons p l ih => exact (hstep s p).trans (ih (step s p))

/-- Replacing the cached combined set of a group changes content only. -/
theorem ContentOnly.assignCache (s : State) (k : Id) (group : FilterGroup) (cache : TrackList)
    (hk : s.m_groups.lookup k = some group) :
    ContentOnly s { s with m_groups := s.m_groups.assign k { group with filteredTracks := cache } } := by
  refine
    { keys := FilterGroups.keys_assign _ _ _, filters := ?_, ungrouped := rfl, library := rfl,
      next := rfl, dflt := rfl, id := fun _ => rfl, index := fun _ => rfl,
      group := fun _ => rfl }
  intro k'
  simp only [filtersOf, FilterGroups.lookup_assign]
  by_cases hkk : k' = k
  · simp [hkk, hk]
  · simp [hkk]

theorem FilterWidget.reset_id (m : Track → String → Bool) (w : FilterWidget) (b : TrackList) :
    (w.reset m b).id = w.id := rfl

theorem FilterWidget.reset_index (m : Track → String → Bool) (w : FilterWidget) (b : TrackList) :
    (w.reset m b).index = w.index := rfl

theorem FilterWidget.reset_group (m : Track → String → Bool) (w : FilterWidget) (b : TrackList) :
    (w.reset m b).group = w.group := rfl

theorem ContentOnly.resetGroup (m : Track → String → Bool) (s : State) (k : Id) :
    ContentOnly s (resetGroup m s k) := by
  unfold Fooyin.resetGroup
  cases hk : s.m_groups.lookup k with
  | none => exact ContentOnly.refl s
  | some group =>
    refine (ContentOnly.assignCache s k group [] hk).trans ?_
    apply ContentOnly.foldl
    intro st p
    exact ContentOnly.modifyWidget st p _ (fun _ => rfl) (fun _ => rfl) (fun _ => rfl)

theorem ContentOnly.resetAll (m : Track → String → Bool) (s : State) :
    ContentOnly s (resetAll m s) := by
  unfold Fooyin.resetAll
  refine (ContentOnly.foldlKeys (Fooyin.resetGroup m) (fun st k => ContentOnly.resetGroup m st k)
    (s.m_groups.map Prod.fst) s).trans ?_
  apply ContentOnly.foldl
  intro st p
  exact ContentOnly.modifyWidget st p _ (fun _ => rfl) (fun _ => rfl) (fun _ => rfl)

theorem ContentOnly.getFilteredTracks (s : State) (k : Id) :
    ContentOnly s (getFilteredTracks s k) := by
  unfold Fooyin.getFilteredTracks
  cases hk : s.m_groups.lookup k with
  | none => exact ContentOnly.refl s
  | some group => exact ContentOnly.assignCache s k group _ hk

theorem ContentOnly.clearActiveFilters (s : State) (k : Id) (index : Int) :
    ContentOnly s (clearActiveFilters s k index) := by
  unfold Fooyin.clearActiveFilters
  cases hk : s.m_groups.lookup k with
  | none => exact ContentOnly.refl s
  | some group =>
    apply ContentOnly.foldl
    intro st p
    by_cases h : (st.m_widgets p).index > index
    · simp only [h, if_true]
      exact ContentOnly.modifyWidget st p _ (fun _ => rfl) (fun _ => rfl) (fun _ => rfl)
    · simp only [h, if_false]
      exact ContentOnly.refl st

theorem ContentOnly.selectionChanged (m : Track → String → Bool) (s : State) (w : Ptr) :
    ContentOnly s (selectionChanged m s w) := by
  unfold Fooyin.selectionChanged
  simp only
  refine (ContentOnly.clearActiveFilters s (s.m_widgets w).group (s.m_widgets w).index).trans ?_
  refine (ContentOnly.getFilteredTracks
    (Fooyin.clearActiveFilters s (s.m_widgets w).group (s.m_widgets w).index)
    (s.m_widgets w).group).trans ?_
  split
  · exact ContentOnly.refl _
  · apply ContentOnly.foldl
    intro st p
    split
    · exact ContentOnly.modifyWidget st p _ (fun _ => rfl) (fun _ => rfl) (fun _ => rfl)
    · exact ContentOnly.refl st

theorem ContentOnly.select (s : State) (w : Ptr) (sel : TrackList) (act : Bool) :
    ContentOnly s (select s w sel act) :=
  ContentOnly.modifyWidget s w _ (fun _ => rfl) (fun _ => rfl) (fun _ => rfl)

theorem ContentOnly.removeLibraryTracks (s : State) (libraryId : Int) :
    ContentOnly s (removeLibraryTracks s libraryId) := by
  unfold Fooyin.removeLibraryTracks
  generalize s.m_groups = gs
  induction gs generalizing s with
  | nil => exact ContentOnly.refl s
  | cons kv gs ih =>
    rw [List.foldl_cons]
    refine ContentOnly.trans ?_ (ih _)
    apply ContentOnly.foldl
    intro st p
    exact ContentOnly.modifyWidget st p _ (fun _ => rfl) (fun _ => rfl) (fun _ => rfl)

/-! ## Shape of the state after each operation -/

theorem setIndexes_of_not_mem (h : Ptr → FilterWidget) (fs : List Ptr) (i : Int) (p : Ptr)
    (hp : p ∉ fs) : setIndexes h fs i p = h p := by
  induction fs generalizing h i with
  | nil => rfl
  | cons q fs ih =>
    simp only [List.mem_cons, not_or] at hp
    simp only [setIndexes]
    rw [ih _ _ hp.2, Function.update_apply]
    simp [hp.1]

theorem setIndexes_proj {α : Type} (proj : FilterWidget → α)
    (hproj : ∀ w j, proj (w.setIndex j) = proj w) (h : Ptr → FilterWidget) (fs : List Ptr)
    (i : Int) (p : Ptr) : proj (setIndexes h fs i p) = proj (h p) := by
  induction fs generalizing h i with
  | nil => rfl
  | cons q fs ih =>
    simp only [setIndexes]
    rw [ih, Function.update_apply]
    by_cases hpq : p = q
    · simp [hpq, hproj]
    · simp [hpq]

theorem setIndexes_id (h : Ptr → FilterWidget) (fs : List Ptr) (i : Int) (p : Ptr) :
    (setIndexes h fs i p).id = (h p).id :=
  setIndexes_proj FilterWidget.id (fun _ _ => rfl) h fs i p

theorem setIndexes_group (h : Ptr → FilterWidget) (fs : List Ptr) (i : Int) (p : Ptr) :
    (setIndexes h fs i p).group = (h p).group :=
  setIndexes_proj FilterWidget.group (fun _ _ => rfl) h fs i p

theorem setIndexes_get (h : Ptr → FilterWidget) (fs : List Ptr) (i : Int) (hnd : fs.Nodup)
    (j : Fin fs.length) : (setIndexes h fs i (fs.get j)).index = i + (j.val : Int) := by
  induction fs generalizing h i with
  | nil => exact j.elim0
  | cons q fs ih =>
    rw [List.nodup_cons] at hnd
    obtain ⟨j, hj⟩ := j
    cases j with
    | zero =>
      simp only [setIndexes, List.get_eq_getElem, List.getElem_cons_zero]
      rw [setIndexes_of_not_mem _ _ _ _ hnd.1]
      simp [FilterWidget.setIndex]
    | succ j =>
      simp only [setIndexes, List.get_eq_getElem, List.getElem_cons_succ]
      have hj' : j < fs.length := by simpa using hj
      have := ih (Function.update h q ((h q).setIndex i)) (i + 1) hnd.2 ⟨j, hj'⟩
      simp only [List.get_eq_getElem] at this
      rw [this]
      push_cast
      ring

theorem Shape.ext_fields {a b : Shape} (h1 : a.keys = b.keys)
    (h2 : ∀ k, a.filters k = b.filters k) (h3 : a.ungrouped = b.ungrouped)
    (h4 : ∀ p, a.ids p = b.ids p) (h5 : a.next = b.next) (h6 : a.dflt = b.dflt) : a = b := by
  cases a
  cases b
  simp only at h1 h2 h3 h4 h5 h6
  simp only [Shape.mk.injEq]
  exact ⟨h1, funext h2, h3, funext h4, h5, h6⟩

namespace FilterGroups

theorem mem_keys_iff (gs : FilterGroups) (k : Id) :
    k ∈ gs.map Prod.fst ↔ gs.lookup k ≠ none := by
  rw [Ne, lookup_eq_none_iff]
  exact not_not.symm

theorem lookup_index_assign (gs : FilterGroups) (key : Id) (group : FilterGroup) (k : Id) :
    ((index gs key).assign key group).lookup k = if k = key then some group else gs.lookup k := by
  rw [lookup_assign, lookup_index, lookup_index]
  by_cases hk : k = key
  · simp [hk]
  · simp [hk]

theorem keys_index_assign (gs : FilterGroups) (key : Id) (group : FilterGroup) :
    ((index gs key).assign key group).map Prod.fst
      = if key ∈ gs.map Prod.fst then gs.map Prod.fst else gs.map Prod.fst ++ [key] := by
  rw [keys_assign, keys_index]

theorem lookup_assign_of_some (gs : FilterGroups) (key : Id) (group old : FilterGroup) (k : Id)
    (h : gs.lookup key = some old) :
    (assign gs key group).lookup k = if k = key then some group else gs.lookup k := by
  rw [lookup_assign, h]
  rfl

end FilterGroups

theorem getD_empty_filters (o : Option FilterGroup) :
    (o.getD FilterGroup.empty).filters = (o.map FilterGroup.filters).getD [] := by
  cases o <;> rfl

theorem shape_modifyWidget_reset (m : Track → String → Bool) (s : State) (w : Ptr)
    (base : TrackList) : (s.modifyWidget w (fun x => x.reset m base)).shape = s.shape :=
  (ContentOnly.modifyWidget s w (fun x => x.reset m base) (fun _ => rfl) (fun _ => rfl)
    (fun _ => rfl)).shape_eq

theorem index_modifyWidget_reset (m : Track → String → Bool) (s : State) (w : Ptr)
    (base : TrackList) (p : Ptr) :
    ((s.modifyWidget w (fun x => x.reset m base)).m_widgets p).index = (s.m_widgets p).index :=
  (ContentOnly.modifyWidget s w (fun x => x.reset m base) (fun _ => rfl) (fun _ => rfl)
    (fun _ => rfl)).index p

/-- The shape of the state after `createFilter`. -/
theorem shape_createFilter (m : Track → String → Bool) (s : State) (id : Id) :
    (createFilter m s id).2.shape
      = (s.shape.alloc id).setFilters s.vdefaultId
          ((s.shape.filters s.vdefaultId).getD [] ++ [s.nextWidget]) := by
  have hl := FilterGroups.lookup_index s.m_groups s.vdefaultId s.vdefaultId
  simp only [if_true] at hl
  simp only [createFilter, hl]
  rw [shape_modifyWidget_reset]
  apply Shape.ext_fields
  · simp only [State.shape, Shape.setFilters, Shape.alloc, FilterGroups.keys_index_assign]
    simp
  · intro k
    simp only [State.shape, Shape.setFilters, Shape.alloc, filtersOf,
      FilterGroups.lookup_index_assign, Function.update_apply]
    by_cases hk : k = s.vdefaultId
    · simp [hk, getD_empty_filters]
    · simp [hk]
  · rfl
  · intro p
    simp only [State.shape, Shape.setFilters, Shape.alloc, Function.update_apply]
    by_cases hp : p = s.nextWidget
    · simp [hp, FilterWidget.setIndex, FilterWidget.setGroup, FilterWidget.create]
    · simp [hp]
  · rfl
  · rfl

/-- The index of every widget after `createFilter`. -/
theorem index_createFilter (m : Track → String → Bool) (s : State) (id : Id) (p : Ptr) :
    ((createFilter m s id).2.m_widgets p).index
      = if p = s.nextWidget then (((filtersOf s s.vdefaultId).getD []).length : Int)
        else (s.m_widgets p).index := by
  have hl := FilterGroups.lookup_index s.m_groups s.vdefaultId s.vdefaultId
  simp only [if_true] at hl
  simp only [createFilter, hl]
  rw [index_modifyWidget_reset]
  simp only [Function.update_apply, filtersOf]
  by_cases hp : p = s.nextWidget
  · simp [hp, FilterWidget.setIndex, getD_empty_filters]
  · simp [hp]

theorem Id.isValid_eq_false_iff (g : Id) : ((!Id.isValid g) = true) ↔ g = 0 := by
  simp [Id.isValid]

theorem m_groups_recalculateIndexesOfGroup (s : State) (k : Id) :
    (recalculateIndexesOfGroup s k).m_groups = s.m_groups := by
  unfold recalculateIndexesOfGroup
  cases s.m_groups.lookup k <;> rfl

theorem m_widgets_recalculateIndexesOfGroup (s : State) (k : Id) :
    (recalculateIndexesOfGroup s k).m_widgets
      = setIndexes s.m_widgets ((filtersOf s k).getD []) 0 := by
  unfold recalculateIndexesOfGroup filtersOf
  cases s.m_groups.lookup k <;> rfl

theorem shape_recalculateIndexesOfGroup (s : State) (k : Id) :
    (recalculateIndexesOfGroup s k).shape = s.shape := by
  apply Shape.ext_fields
  · simp only [State.shape, m_groups_recalculateIndexesOfGroup]
  · intro k'
    simp only [State.shape, filtersOf, m_groups_recalculateIndexesOfGroup]
  · unfold recalculateIndexesOfGroup
    cases s.m_groups.lookup k <;> rfl
  · intro p
    simp only [State.shape, m_widgets_recalculateIndexesOfGroup, setIndexes_id]
  · unfold recalculateIndexesOfGroup
    cases s.m_groups.lookup k <;> rfl
  · unfold recalculateIndexesOfGroup
    cases s.m_groups.lookup k <;> rfl

theorem placeWidget_neg_one (fs : List Ptr) (w : Ptr) : placeWidget fs (-1) w = fs ++ [w] := by
  simp [placeWidget]

/-- The shape of the state after `addFilterToGroup`. -/
theorem shape_addFilterToGroup (s : State) (w : Ptr) (g : Id) :
    (addFilterToGroup s w g).shape = s.shape.attach w g (-1) := by
  unfold addFilterToGroup Shape.attach
  by_cases hg : g = 0
  · have hv : (!Id.isValid g) = true := (Id.isValid_eq_false_iff g).mpr hg
    rw [if_pos hv, if_pos hg]
    apply Shape.ext_fields
    · rfl
    · intro k; rfl
    · simp [State.shape, Shape.setUngrouped, State.modifyWidget, FilterWidget.setGroup,
        FilterWidget.setIndex]
    · intro p
      simp only [State.shape, Shape.setUngrouped, State.modifyWidget, Function.update_apply]
      by_cases hp : p = w
      · simp [hp, FilterWidget.setGroup, FilterWidget.setIndex]
      · simp [hp]
    · rfl
    · rfl
  · have hv : ¬ ((!Id.isValid g) = true) := fun h => hg ((Id.isValid_eq_false_iff g).mp h)
    have hl := FilterGroups.lookup_index s.m_groups g g
    simp only [if_true] at hl
    rw [if_neg hv, if_neg hg]
    simp only [hl, placeWidget_neg_one]
    apply Shape.ext_fields
    · simp only [State.shape, Shape.setFilters, State.modifyWidget,
        FilterGroups.keys_index_assign]
      simp
    · intro k
      simp only [State.shape, Shape.setFilters, State.modifyWidget, filtersOf,
        FilterGroups.lookup_index_assign, Function.update_apply]
      by_cases hk : k = g
      · simp [hk, getD_empty_filters]
      · simp [hk]
    · rfl
    · intro p
      simp only [State.shape, Shape.setFilters, State.modifyWidget, Function.update_apply]
      by_cases hp : p = w
      · simp [hp, FilterWidget.setGroup, FilterWidget.setIndex]
      · simp [hp]
    · rfl
    · rfl

/-- The index of every widget after `addFilterToGroup`. -/
theorem index_addFilterToGroup (s : State) (w : Ptr) (g : Id) (p : Ptr) :
    ((addFilterToGroup s w g).m_widgets p).index
      = if p = w then (if g = 0 then -1 else (((filtersOf s g).getD []).length : Int))
        else (s.m_widgets p).index := by
  unfold addFilterToGroup
  by_cases hg : g = 0
  · have hv : (!Id.isValid g) = true := (Id.isValid_eq_false_iff g).mpr hg
    rw [if_pos hv]
    simp only [hg, if_true, State.modifyWidget, Function.update_apply]
    by_cases hp : p = w
    · simp [hp, FilterWidget.setIndex]
    · simp [hp]
  · have hv : ¬ ((!Id.isValid g) = true) := fun h => hg ((Id.isValid_eq_false_iff g).mp h)
    have hl := FilterGroups.lookup_index s.m_groups g g
    simp only [if_true] at hl
    rw [if_neg hv]
    simp only [hg, if_false, hl, State.modifyWidget, Function.update_apply, filtersOf]
    by_cases hp : p = w
    · simp [hp, FilterWidget.setIndex, getD_empty_filters]
    · simp [hp]

/-- The registry after a member sequence was replaced by `rest` in group `k` and
the group was erased when `rest` is empty, as the shape sees it. -/
theorem shape_after_erase (s : State) (k : Id) (group : FilterGroup) (rest : List Ptr)
    (widgets : Ptr → FilterWidget) (hk : s.m_groups.lookup k = some group)
    (hid : ∀ p, (widgets p).id = (s.m_widgets p).id) (s' : State)
    (hg : s'.m_groups
      = if rest.isEmpty then (s.m_groups.assign k { group with filters := rest }).erase k
        else s.m_groups.assign k { group with filters := rest })
    (hu : s'.m_ungrouped = s.m_ungrouped) (hw : s'.m_widgets = widgets)
    (hn : s'.nextWidget = s.nextWidget) (hd : s'.vdefaultId = s.vdefaultId) :
    s'.shape = s.shape.setFilters k rest := by
  have hkeys : k ∈ s.m_groups.map Prod.fst :=
    (FilterGroups.mem_keys_iff s.m_groups k).mpr (by simp [hk])
  apply Shape.ext_fields
  · simp only [State.shape, Shape.setFilters, hg]
    by_cases he : rest = []
    · simp [he, FilterGroups.keys_erase, FilterGroups.keys_assign]
    · have he' : rest.isEmpty = false := by simpa using he
      simp [he, he', FilterGroups.keys_assign, hkeys]
  · intro k'
    simp only [State.shape, Shape.setFilters, filtersOf, hg, Function.update_apply]
    by_cases he : rest = []
    · simp only [he, List.isEmpty_nil, if_true, FilterGroups.lookup_erase,
        FilterGroups.lookup_assign_of_some _ _ _ _ _ hk]
      by_cases hkk : k' = k <;> simp [hkk]
    · have he' : rest.isEmpty = false := by simpa using he
      simp only [he, he', if_false, Bool.false_eq_true,
        FilterGroups.lookup_assign_of_some _ _ _ _ _ hk]
      by_cases hkk : k' = k <;> simp [hkk]
  · simp only [State.shape, Shape.setFilters, hu]
  · intro p
    simp only [State.shape, Shape.setFilters, hw, hid]
  · simp only [State.shape, Shape.setFilters, hn]
  · simp only [State.shape, Shape.setFilters, hd]

theorem removeFilter_ungrouped (s : State) (w : Ptr) (hg : (s.m_widgets w).group = 0)
    (hu : s.m_ungrouped.lookup (s.m_widgets w).id ≠ none) :
    removeFilter s w
      = (true, { s with m_ungrouped := s.m_ungrouped.erase (s.m_widgets w).id }) := by
  unfold removeFilter
  have h1 : (!Id.isValid (s.m_widgets w).group) = true := (Id.isValid_eq_false_iff _).mpr hg
  have h2 : s.m_ungrouped.contains (s.m_widgets w).id = true := by
    unfold UngroupedFilters.contains
    exact Option.isSome_iff_ne_none.mpr hu
  simp [h1, h2]

theorem removeFilter_not_ungrouped (s : State) (w : Ptr)
    (h : ¬ ((s.m_widgets w).group = 0 ∧ s.m_ungrouped.lookup (s.m_widgets w).id ≠ none)) :
    removeFilter s w
      = match s.m_groups.lookup (s.m_widgets w).group with
        | none => (false, s)
        | some group =>
          if group.filters.contains w then
            let filters := eraseWidget group.filters w
            let s1 := { s with m_groups :=
              s.m_groups.assign (s.m_widgets w).group { group with filters := filters } }
            let s2 := recalculateIndexesOfGroup s1 (s.m_widgets w).group
            if filters.isEmpty then
              (true, { s2 with m_groups := s2.m_groups.erase (s.m_widgets w).group })
            else (true, s2)
          else (false, s) := by
  unfold removeFilter
  have hc : ¬ ((!Id.isValid (s.m_widgets w).group && s.m_ungrouped.contains (s.m_widgets w).id)
      = true) := by
    intro hc
    rw [Bool.and_eq_true] at hc
    refine h ⟨(Id.isValid_eq_false_iff _).mp hc.1, ?_⟩
    have := hc.2
    unfold UngroupedFilters.contains at this
    exact Option.isSome_iff_ne_none.mp this
  exact if_neg hc

theorem removeFilter_not_found (s : State) (w : Ptr)
    (h : ¬ ((s.m_widgets w).group = 0 ∧ s.m_ungrouped.lookup (s.m_widgets w).id ≠ none))
    (hnf : ∀ fs, filtersOf s (s.m_widgets w).group = some fs → w ∉ fs) :
    removeFilter s w = (false, s) := by
  rw [removeFilter_not_ungrouped s w h]
  cases hl : s.m_groups.lookup (s.m_widgets w).group with
  | none => rfl
  | some group =>
    have := hnf group.filters (by simp [filtersOf, hl])
    simp [this]

theorem removeFilter_grouped (s : State) (w : Ptr) (group : FilterGroup)
    (h : ¬ ((s.m_widgets w).group = 0 ∧ s.m_ungrouped.lookup (s.m_widgets w).id ≠ none))
    (hl : s.m_groups.lookup (s.m_widgets w).group = some group) (hw : w ∈ group.filters) :
    (removeFilter s w).1 = true
      ∧ (removeFilter s w).2.shape
          = s.shape.setFilters (s.m_widgets w).group (eraseWidget group.filters w)
      ∧ (removeFilter s w).2.m_widgets
          = setIndexes s.m_widgets (eraseWidget group.filters w) 0
      ∧ (NoEmptyGroup s → NoEmptyGroup (removeFilter s w).2) := by
  rw [removeFilter_not_ungrouped s w h]
  have hc : group.filters.contains w = true := by simpa using hw
  simp only [hl, hc, if_true]
  have hl1 := FilterGroups.lookup_assign_of_some s.m_groups (s.m_widgets w).group
    { group with filters := eraseWidget group.filters w } group (s.m_widgets w).group hl
  simp only [if_true] at hl1
  generalize hgr : ({ group with filters := eraseWidget group.filters w } : FilterGroup) = newGroup
    at hl1 ⊢
  have hnew : newGroup.filters = eraseWidget group.filters w := by rw [← hgr]
  generalize hs1 : ({ s with m_groups := s.m_groups.assign (s.m_widgets w).group newGroup } : State)
    = s1
  have hs1g : s1.m_groups = s.m_groups.assign (s.m_widgets w).group newGroup := by rw [← hs1]
  have hwid : (recalculateIndexesOfGroup s1 (s.m_widgets w).group).m_widgets
      = setIndexes s.m_widgets (eraseWidget group.filters w) 0 := by
    rw [m_widgets_recalculateIndexesOfGroup]
    simp [filtersOf, hs1g, hl1, hnew, ← hs1]
  have hne1 : NoEmptyGroup s → ∀ kv ∈ s1.m_groups, kv.1 ≠ (s.m_widgets w).group →
      kv.2.filters ≠ [] := by
    intro hne kv hkv hk
    rw [hs1g] at hkv
    simp only [FilterGroups.assign, List.mem_map] at hkv
    obtain ⟨kv0, hkv0, rfl⟩ := hkv
    by_cases h0 : kv0.1 = (s.m_widgets w).group
    · simp [h0] at hk
    · simp only [h0, if_false]
      exact hne kv0 hkv0
  have hne2 : ∀ kv ∈ s1.m_groups, kv.1 = (s.m_widgets w).group →
      kv.2.filters = eraseWidget group.filters w := by
    intro kv hkv hk
    rw [hs1g] at hkv
    simp only [FilterGroups.assign, List.mem_map] at hkv
    obtain ⟨kv0, hkv0, rfl⟩ := hkv
    by_cases h0 : kv0.1 = (s.m_widgets w).group
    · simp [h0, hnew]
    · simp [h0] at hk
  by_cases he : (eraseWidget group.filters w).isEmpty = true
  · simp only [he, if_true]
    refine ⟨trivial, ?_, hwid, ?_⟩
    · apply shape_after_erase s _ group _ _ hl (fun p => setIndexes_id _ _ _ p)
      · simp only [he, if_true, m_groups_recalculateIndexesOfGroup, hs1g, hgr]
      · rw [← hs1]; unfold recalculateIndexesOfGroup; split <;> rfl
      · exact hwid
      · rw [← hs1]; unfold recalculateIndexesOfGroup; split <;> rfl
      · rw [← hs1]; unfold recalculateIndexesOfGroup; split <;> rfl
    · intro hne kv hkv
      simp only [m_groups_recalculateIndexesOfGroup, FilterGroups.erase, List.mem_filter,
        decide_eq_true_eq] at hkv
      exact hne1 hne kv hkv.1 hkv.2
  · have he' : (eraseWidget group.filters w).isEmpty = false := by simpa using he
    simp only [he', Bool.false_eq_true, if_false]
    refine ⟨trivial, ?_, hwid, ?_⟩
    · apply shape_after_erase s _ group _ _ hl (fun p => setIndexes_id _ _ _ p)
      · simp only [he', Bool.false_eq_true, if_false, m_groups_recalculateIndexesOfGroup, hs1g,
          hgr]
      · rw [← hs1]; unfold recalculateIndexesOfGroup; split <;> rfl
      · exact hwid
      · rw [← hs1]; unfold recalculateIndexesOfGroup; split <;> rfl
      · rw [← hs1]; unfold recalculateIndexesOfGroup; split <;> rfl
    · intro hne kv hkv
      simp only [NoEmptyGroup, m_groups_recalculateIndexesOfGroup] at hkv
      by_cases hk : kv.1 = (s.m_widgets w).group
      · rw [hne2 kv hkv hk]
        simpa using he
      · exact hne1 hne kv hkv hk

theorem scalars_recalculateIndexesOfGroup (s : State) (k : Id) :
    (recalculateIndexesOfGroup s k).m_ungrouped = s.m_ungrouped
      ∧ (recalculateIndexesOfGroup s k).nextWidget = s.nextWidget
      ∧ (recalculateIndexesOfGroup s k).vdefaultId = s.vdefaultId
      ∧ (recalculateIndexesOfGroup s k).m_library = s.m_library := by
  unfold recalculateIndexesOfGroup
  cases s.m_groups.lookup k <;> exact ⟨rfl, rfl, rfl, rfl⟩

/-- The shape and the widgets after the block "Remove from old group". -/
theorem removeFromOldGroup_spec (s : State) (w : Ptr) (old : Id) :
    (removeFromOldGroup s w old).shape = s.shape.detach w old
      ∧ (removeFromOldGroup s w old).m_widgets
          = (if old = 0 then s.m_widgets
             else match filtersOf s old with
               | none => s.m_widgets
               | some fs =>
                 if w ∈ fs then setIndexes s.m_widgets (eraseWidget fs w) 0 else s.m_widgets) := by
  unfold removeFromOldGroup Shape.detach
  by_cases ho : old = 0
  · have hv : (!Id.isValid old) = true := (Id.isValid_eq_false_iff old).mpr ho
    rw [if_pos hv, if_pos ho, if_pos ho]
    exact ⟨rfl, rfl⟩
  · have hv : ¬ ((!Id.isValid old) = true) := fun h => ho ((Id.isValid_eq_false_iff old).mp h)
    rw [if_neg hv, if_neg ho, if_neg ho]
    have hfo : s.shape.filters old = filtersOf s old := rfl
    rw [hfo]
    cases hl : s.m_groups.lookup old with
    | none => simp [filtersOf, hl]
    | some group =>
      have hf : filtersOf s old = some group.filters := by simp [filtersOf, hl]
      simp only [hf]
      by_cases hw : w ∈ group.filters
      · have hc : group.filters.contains w = true := by simpa using hw
        simp only [hc, hw, if_true]
        generalize hgr : ({ group with filters := eraseWidget group.filters w } : FilterGroup)
          = newGroup
        have hnew : newGroup.filters = eraseWidget group.filters w := by rw [← hgr]
        have hl1 := FilterGroups.lookup_assign_of_some s.m_groups old newGroup group old hl
        simp only [if_true] at hl1
        by_cases he : (eraseWidget group.filters w).isEmpty = true
        · simp only [he, if_true]
          have hnil : eraseWidget group.filters w = [] := by simpa using he
          refine ⟨?_, ?_⟩
          · rw [shape_recalculateIndexesOfGroup]
            apply shape_after_erase s old group _ s.m_widgets hl (fun _ => rfl)
            · simp only [he, if_true, hgr]
            · rfl
            · rfl
            · rfl
            · rfl
          · rw [m_widgets_recalculateIndexesOfGroup]
            simp [filtersOf, FilterGroups.lookup_erase, hnil, setIndexes]
        · have he' : (eraseWidget group.filters w).isEmpty = false := by simpa using he
          simp only [he', Bool.false_eq_true, if_false]
          refine ⟨?_, ?_⟩
          · rw [shape_recalculateIndexesOfGroup]
            apply shape_after_erase s old group _ s.m_widgets hl (fun _ => rfl)
            · simp only [he', Bool.false_eq_true, if_false, hgr]
            · rfl
            · rfl
            · rfl
            · rfl
          · rw [m_widgets_recalculateIndexesOfGroup]
            simp [filtersOf, hl1, hnew]
      · have hc : group.filters.contains w = false := by simpa using hw
        simp only [hc, hw, Bool.false_eq_true, if_false]
        exact ⟨trivial, trivial⟩

/-- The shape and the widgets after the block "Add to new group". -/
theorem addToNewGroup_spec (s : State) (w : Ptr) (g : Id) :
    (addToNewGroup s w g).shape = s.shape.attach w g (s.m_widgets w).index
      ∧ (addToNewGroup s w g).m_widgets
          = (if g = 0 then s.m_widgets
             else setIndexes s.m_widgets
               (placeWidget ((filtersOf s g).getD []) (s.m_widgets w).index w) 0) := by
  unfold addToNewGroup Shape.attach
  by_cases hg : g = 0
  · have hv : (!Id.isValid g) = true := (Id.isValid_eq_false_iff g).mpr hg
    rw [if_pos hv, if_pos hg, if_pos hg]
    exact ⟨rfl, rfl⟩
  · have hv : ¬ ((!Id.isValid g) = true) := fun h => hg ((Id.isValid_eq_false_iff g).mp h)
    have hl := FilterGroups.lookup_index s.m_groups g g
    simp only [if_true] at hl
    rw [if_neg hv, if_neg hg, if_neg hg]
    simp only [hl]
    generalize hgr : ({ (Option.getD (s.m_groups.lookup g) FilterGroup.empty) with
        filters := placeWidget (Option.getD (s.m_groups.lookup g) FilterGroup.empty).filters
          (s.m_widgets w).index w, id := g } : FilterGroup) = newGroup
    have hnew : newGroup.filters
        = placeWidget ((filtersOf s g).getD []) (s.m_widgets w).index w := by
      rw [← hgr]
      simp [filtersOf, getD_empty_filters]
    have hne : placeWidget ((filtersOf s g).getD []) (s.m_widgets w).index w ≠ [] := by
      unfold placeWidget insertWidget
      split <;> simp
    refine ⟨?_, ?_⟩
    · rw [shape_recalculateIndexesOfGroup]
      apply Shape.ext_fields
      · simp only [State.shape, Shape.setFilters, FilterGroups.keys_index_assign]
        rw [if_neg hne]
      · intro k
        simp only [State.shape, Shape.setFilters, filtersOf,
          FilterGroups.lookup_index_assign, Function.update_apply]
        by_cases hk : k = g
        · have := hne
          simp only [filtersOf] at this hnew
          simp [hk, hnew, this]
        · simp [hk]
      · rfl
      · intro p; rfl
      · rfl
      · rfl
    · rw [m_widgets_recalculateIndexesOfGroup]
      simp [filtersOf, FilterGroups.lookup_index_assign, hnew]

theorem mem_insertWidget (fs : List Ptr) (n : Nat) (w p : Ptr) :
    p ∈ insertWidget fs n w ↔ p = w ∨ p ∈ fs := by
  unfold insertWidget
  rw [List.mem_append, List.mem_cons]
  constructor
  · rintro (h | h | h)
    · exact Or.inr (List.mem_of_mem_take h)
    · exact Or.inl h
    · exact Or.inr (List.mem_of_mem_drop h)
  · rintro (h | h)
    · exact Or.inr (Or.inl h)
    · rw [← List.take_append_drop n fs, List.mem_append] at h
      rcases h with h | h
      · exact Or.inl h
      · exact Or.inr (Or.inr h)

theorem mem_placeWidget (fs : List Ptr) (k : Int) (w p : Ptr) :
    p ∈ placeWidget fs k w ↔ p = w ∨ p ∈ fs := by
  unfold placeWidget
  split
  · rw [List.mem_append, List.mem_singleton]
    exact Or.comm
  · exact mem_insertWidget fs _ w p

theorem nodup_insertWidget (fs : List Ptr) (n : Nat) (w : Ptr) (hnd : fs.Nodup) (hw : w ∉ fs) :
    (insertWidget fs n w).Nodup := by
  unfold insertWidget
  have hperm : (fs.take n ++ w :: fs.drop n).Perm (w :: (fs.take n ++ fs.drop n)) :=
    List.perm_middle
  rw [hperm.nodup_iff, List.take_append_drop, List.nodup_cons]
  exact ⟨hw, hnd⟩

theorem nodup_placeWidget (fs : List Ptr) (k : Int) (w : Ptr) (hnd : fs.Nodup) (hw : w ∉ fs) :
    (placeWidget fs k w).Nodup := by
  unfold placeWidget
  split
  · rw [List.nodup_append]
    refine ⟨hnd, List.nodup_singleton w, ?_⟩
    intro x hx hx'
    rw [List.mem_singleton] at hx'
    exact hw (hx' ▸ hx)
  · exact nodup_insertWidget fs _ w hnd hw

namespace Shape

/-- The invariant depends on the list of registered nodes only through
membership. -/
theorem Inv.congr_reg {sh : Shape} {reg reg' : List Ptr} (h : Inv sh reg)
    (hreg : ∀ x, x ∈ reg' ↔ x ∈ reg) : Inv sh reg' :=
  { keys_nodup := h.keys_nodup, keys_iff := h.keys_iff, keys_valid := h.keys_valid,
    nonempty := h.nonempty, nodup := h.nodup, disjoint := h.disjoint,
    ukeys_nodup := h.ukeys_nodup, default_valid := h.default_valid,
    ungrouped_id := h.ungrouped_id, ungrouped_not_grouped := h.ungrouped_not_grouped,
    ids_unique := h.ids_unique
    registered := fun w => (hreg w).trans (h.registered w)
    allocated := fun w hw => h.allocated w ((hreg w).mp hw) }

theorem Inv.not_grouped_of_not_reg {sh : Shape} {reg : List Ptr} (h : Inv sh reg) {w : Ptr}
    (hw : w ∉ reg) (k : Id) (fs : List Ptr) (hk : sh.filters k = some fs) : w ∉ fs :=
  fun hmem => hw (h.mem_reg_of_grouped hk hmem)

/-- The insertion step keeps the invariant; the node is registered afterwards. -/
theorem Inv.attachShape {sh : Shape} {reg : List Ptr} (h : Inv sh reg) (w : Ptr) (g : Id)
    (k : Int) (hw : w ∉ reg) (halloc : w < sh.next) :
    Inv (sh.attach w g k) (w :: reg) := by
  unfold Shape.attach
  by_cases hg : g = 0
  · rw [if_pos hg]
    exact h.emplaceUngrouped w hw halloc
  · rw [if_neg hg]
    apply h.attach w g _ hw halloc hg
    · intro p
      exact mem_placeWidget _ k w p
    · apply nodup_placeWidget
      · cases hgs : sh.filters g with
        | none => simp
        | some old => simpa using h.nodup g old hgs
      · cases hgs : sh.filters g with
        | none => simp
        | some old => simpa using h.not_grouped_of_not_reg hw g old hgs

/-- The removal step keeps the invariant when `old` is the group that contains
the node, or the invalid id when no group contains it; the node is not
registered afterwards. -/
theorem Inv.detachShape {sh : Shape} {reg : List Ptr} (h : Inv sh reg) (w : Ptr) (old : Id)
    (hw : w ∈ reg)
    (hold : ∀ k fs, sh.filters k = some fs → w ∈ fs → old = k)
    (hnone : (∀ k fs, sh.filters k = some fs → w ∉ fs) → old = 0) :
    Inv (sh.detach w old) (reg.filter (fun x => x ≠ w)) := by
  unfold Shape.detach
  rcases (h.registered w).mp hw with ⟨k, fs, hk, hwf⟩ | hu
  · have hok : old = k := hold k fs hk hwf
    have hk0 : old ≠ 0 := hok ▸ h.keys_valid k fs hk
    rw [if_neg hk0, hok, hk]
    simp only [hwf, if_true]
    exact h.detach w k fs hk hwf
  · have hng : ∀ k fs, sh.filters k = some fs → w ∉ fs :=
      fun k fs hk => h.ungrouped_not_grouped _ w hu k fs hk
    rw [if_pos (hnone hng)]
    exact h.eraseUngrouped w hu

end Shape

/-- `findContainingGroup` names the group that contains the widget, and the
invalid id when no group contains it. -/
theorem findContainingGroup_spec (s : State) (reg : List Ptr) (h : s.shape.Inv reg) (w : Ptr) :
    (∀ k fs, s.shape.filters k = some fs → w ∈ fs → findContainingGroup s w = k)
      ∧ ((∀ k fs, s.shape.filters k = some fs → w ∉ fs) → findContainingGroup s w = 0) := by
  have hkeys : (s.m_groups.map Prod.fst).Nodup := h.keys_nodup
  unfold findContainingGroup
  cases hf : s.m_groups.find? (fun kv => kv.2.filters.contains w) with
  | none =>
    rw [List.find?_eq_none] at hf
    refine ⟨?_, fun _ => rfl⟩
    intro k fs hk hwf
    have hk' : filtersOf s k = some fs := hk
    unfold filtersOf at hk'
    cases hl : s.m_groups.lookup k with
    | none => simp [hl] at hk'
    | some group =>
      simp only [hl, Option.map_some', Option.some.injEq] at hk'
      have hmem := mem_of_lookup_eq_some hl
      have := hf (k, group) hmem
      exact absurd (by simpa [hk'] using hwf) this
  | some kv =>
    have hmem := List.mem_of_find?_eq_some hf
    have hp0 := List.find?_some hf
    have hp : w ∈ kv.2.filters := by simpa using hp0
    have hl : s.m_groups.lookup kv.1 = some kv.2 := lookup_eq_some_of_mem hkeys hmem
    have hs : s.shape.filters kv.1 = some kv.2.filters := by
      show filtersOf s kv.1 = _
      simp [filtersOf, hl]
    refine ⟨?_, ?_⟩
    · intro k fs hk hwf
      exact h.disjoint kv.1 kv.2.filters k fs w hs hk hp hwf
    · intro hnone
      exact absurd hp (hnone kv.1 kv.2.filters hs)

theorem findContainingGroup_congr (s s' : State) (h : s'.m_groups = s.m_groups) (w : Ptr) :
    findContainingGroup s' w = findContainingGroup s w := by
  unfold findContainingGroup
  rw [h]

theorem handleFilterUpdated_same (m : Track → String → Bool) (s : State) (w : Ptr)
    (h : (s.m_widgets w).group = findContainingGroup s w) :
    ContentOnly s (handleFilterUpdated m s w) := by
  unfold handleFilterUpdated
  simp only [h, if_true]
  split
  · exact ContentOnly.modifyWidget s w _ (fun _ => rfl) (fun _ => rfl) (fun _ => rfl)
  · exact ContentOnly.resetGroup m s _

theorem handleFilterUpdated_move (m : Track → String → Bool) (s : State) (w : Ptr)
    (h : (s.m_widgets w).group ≠ findContainingGroup s w) :
    ContentOnly
      (addToNewGroup (removeFromOldGroup s w (findContainingGroup s w)) w (s.m_widgets w).group)
      (handleFilterUpdated m s w) := by
  unfold handleFilterUpdated
  simp only [h, if_false]
  exact (ContentOnly.resetGroup m _ _).trans (ContentOnly.resetGroup m _ _)

/-! ## The structural invariant along the operations -/

theorem inv_init (library : TrackList) (defaultId : Id) (hd : defaultId ≠ 0) :
    (State.init library defaultId).shape.Inv [] := by
  refine
    { keys_nodup := List.nodup_nil, keys_iff := ?_, keys_valid := ?_, nonempty := ?_,
      nodup := ?_, disjoint := ?_, ukeys_nodup := List.nodup_nil, default_valid := hd,
      ungrouped_id := ?_, ungrouped_not_grouped := ?_, ids_unique := ?_, registered := ?_,
      allocated := ?_ }
  · intro k; simp [State.shape, State.init, filtersOf]
  · intro k fs hk; simp [State.shape, State.init, filtersOf] at hk
  · intro k fs hk; simp [State.shape, State.init, filtersOf] at hk
  · intro k fs hk; simp [State.shape, State.init, filtersOf] at hk
  · intro k fs k' fs' p hk; simp [State.shape, State.init, filtersOf] at hk
  · intro i p hp; simp [State.shape, State.init] at hp
  · intro i p hp; simp [State.shape, State.init] at hp
  · intro p q hp; exact absurd hp (Nat.not_lt_zero p)
  · intro w; simp [State.shape, State.init, filtersOf]
  · intro w hw; simp at hw

theorem inv_createFilter (m : Track → String → Bool) (s : State) (reg : List Ptr) (id : Id)
    (h : s.shape.Inv reg) (hfresh : ∀ p, p < s.nextWidget → (s.m_widgets p).id ≠ id) :
    (createFilter m s id).2.shape.Inv (s.nextWidget :: reg) := by
  rw [shape_createFilter]
  have ha := h.alloc id hfresh
  have hnot : s.nextWidget ∉ reg := fun hr => absurd (h.allocated _ hr) (Nat.lt_irrefl _)
  apply ha.attach s.nextWidget s.vdefaultId _ hnot (Nat.lt_succ_self _) h.default_valid
  · intro p
    have : (s.shape.alloc id).filters = s.shape.filters := rfl
    rw [this, List.mem_append, List.mem_singleton]
    exact Or.comm
  · rw [List.nodup_append]
    refine ⟨?_, List.nodup_singleton _, ?_⟩
    · cases hgs : s.shape.filters s.vdefaultId with
      | none => simp
      | some old => simpa using h.nodup _ old hgs
    · intro x hx hx'
      rw [List.mem_singleton] at hx'
      cases hgs : s.shape.filters s.vdefaultId with
      | none => simp [hgs] at hx
      | some old =>
        rw [hgs] at hx
        exact hnot (hx' ▸ h.mem_reg_of_grouped hgs hx)

theorem inv_addFilterToGroup (s : State) (reg : List Ptr) (w : Ptr) (g : Id)
    (h : s.shape.Inv reg) (halloc : w < s.nextWidget) (hw : w ∉ reg) :
    (addFilterToGroup s w g).shape.Inv (w :: reg) := by
  rw [shape_addFilterToGroup]
  exact h.attachShape w g (-1) hw halloc

theorem inv_removeFilter (s : State) (reg : List Ptr) (w : Ptr) (h : s.shape.Inv reg)
    (halloc : w < s.nextWidget) :
    (removeFilter s w).2.shape.Inv
      (if (removeFilter s w).1 then reg.filter (fun x => x ≠ w) else reg) := by
  by_cases hu : (s.m_widgets w).group = 0 ∧ s.m_ungrouped.lookup (s.m_widgets w).id ≠ none
  · rw [removeFilter_ungrouped s w hu.1 hu.2]
    simp only [if_true]
    cases hl : s.m_ungrouped.lookup (s.m_widgets w).id with
    | none => exact absurd hl hu.2
    | some p =>
      have hl' : s.shape.ungrouped.lookup (s.shape.ids w) = some p := hl
      have hp := h.mem_reg_of_ungrouped hl'
      have hid := h.ungrouped_id _ p hl'
      have hpw : p = w := h.ids_unique p w (h.allocated p hp) halloc hid
      rw [hpw] at hl'
      exact h.eraseUngrouped w hl'
  · cases hl : s.m_groups.lookup (s.m_widgets w).group with
    | none =>
      have := removeFilter_not_found s w hu (by intro fs hf; simp [filtersOf, hl] at hf)
      rw [this]
      simpa using h
    | some group =>
      by_cases hw : w ∈ group.filters
      · obtain ⟨h1, h2, _, _⟩ := removeFilter_grouped s w group hu hl hw
        rw [h1, h2]
        simp only [if_true]
        exact h.detach w _ group.filters (by show filtersOf s _ = _; simp [filtersOf, hl]) hw
      · have := removeFilter_not_found s w hu (by
          intro fs hf
          simp only [filtersOf, hl, Option.map_some', Option.some.injEq] at hf
          rw [← hf]; exact hw)
        rw [this]
        simpa using h

theorem shape_requestGroup (s : State) (w : Ptr) (g : Id) (k : Int) :
    (requestGroup s w g k).shape = s.shape := by
  apply Shape.ext_fields
  · rfl
  · intro _; rfl
  · rfl
  · intro p
    simp only [State.shape, requestGroup, State.modifyWidget, Function.update_apply]
    by_cases hp : p = w
    · simp [hp, FilterWidget.setGroup, FilterWidget.setIndex]
    · simp [hp]
  · rfl
  · rfl

theorem group_requestGroup (s : State) (w : Ptr) (g : Id) (k : Int) :
    ((requestGroup s w g k).m_widgets w).group = g := by
  simp [requestGroup, State.modifyWidget, FilterWidget.setGroup, FilterWidget.setIndex]

theorem inv_handleFilterUpdated (m : Track → String → Bool) (s : State) (reg : List Ptr)
    (w : Ptr) (h : s.shape.Inv reg) (hw : w ∈ reg) :
    (handleFilterUpdated m s w).shape.Inv reg := by
  by_cases hsame : (s.m_widgets w).group = findContainingGroup s w
  · rw [(handleFilterUpdated_same m s w hsame).shape_eq]
    exact h
  · rw [(handleFilterUpdated_move m s w hsame).shape_eq, (addToNewGroup_spec _ _ _).1,
      (removeFromOldGroup_spec _ _ _).1]
    have hfind := findContainingGroup_spec s reg h w
    have h1 := h.detachShape w (findContainingGroup s w) hw
      (fun k fs hk hwf => (hfind.1 k fs hk hwf)) hfind.2
    have hnot : w ∉ reg.filter (fun x => x ≠ w) := by simp
    have halloc : w < (s.shape.detach w (findContainingGroup s w)).next := by
      have : (s.shape.detach w (findContainingGroup s w)).next = s.shape.next := by
        unfold Shape.detach
        split
        · rfl
        · split
          · rfl
          · split <;> rfl
      rw [this]
      exact h.allocated w hw
    have h2 := h1.attachShape w (s.m_widgets w).group
      ((removeFromOldGroup s w (findContainingGroup s w)).m_widgets w).index hnot halloc
    refine h2.congr_reg ?_
    intro x
    simp only [List.mem_cons, List.mem_filter, decide_eq_true_eq]
    constructor
    · intro hx
      by_cases hxw : x = w
      · exact Or.inl hxw
      · exact Or.inr ⟨hx, hxw⟩
    · rintro (hx | hx)
      · rw [hx]; exact hw
      · exact hx.1

theorem inv_filterUpdated (m : Track → String → Bool) (s : State) (reg : List Ptr)
    (w : Ptr) (g : Id) (k : Int) (h : s.shape.Inv reg) (hw : w ∈ reg) :
    (handleFilterUpdated m (requestGroup s w g k) w).shape.Inv reg := by
  apply inv_handleFilterUpdated
  · rw [shape_requestGroup]; exact h
  · exact hw

/-- Every reachable state satisfies the structural invariant. -/
theorem Reach.inv {m : Track → String → Bool} {library : TrackList} {defaultId : Id}
    {keepIndex : Bool} {s : State} {reg : List Ptr} (hd : defaultId ≠ 0)
    (h : Reach m library defaultId keepIndex s reg) : s.shape.Inv reg := by
  induction h with
  | init => exact inv_init library defaultId hd
  | createFilter s reg id _ hfresh ih => exact inv_createFilter m s reg id ih hfresh
  | addFilterToGroup s reg w g _ halloc hw ih => exact inv_addFilterToGroup s reg w g ih halloc hw
  | removeFilter s reg w _ halloc ih => exact inv_removeFilter s reg w ih halloc
  | filterUpdated s reg w g k _ hw _ ih => exact inv_filterUpdated m s reg w g k ih hw

/-! ## Reindex density along the operations -/

/-- The index of every widget of a state. -/
theorem DenseOn.congr {filters : Id → Option (List Ptr)} {index index' : Ptr → Int}
    (h : DenseOn filters index)
    (hidx : ∀ k fs p, filters k = some fs → p ∈ fs → index' p = index p) :
    DenseOn filters index' := by
  intro k fs hk i
  rw [hidx k fs _ hk (List.get_mem fs i.val i.isLt)]
  exact h k fs hk i

/-- Density after the members of one group were replaced by `fs` and renumbered
by `setIndexes`: the other groups only need to be dense and disjoint from `fs`. -/
theorem DenseOn.reindex {filters : Id → Option (List Ptr)} (widgets : Ptr → FilterWidget)
    (g : Id) (fs : List Ptr)
    (hother : ∀ k fs', k ≠ g → filters k = some fs' →
      ∀ i : Fin fs'.length, (widgets (fs'.get i)).index = (i.val : Int))
    (hnd : fs.Nodup)
    (hdisj : ∀ k fs', k ≠ g → filters k = some fs' → ∀ p, p ∈ fs' → p ∉ fs) :
    DenseOn (Function.update filters g (if fs = [] then none else some fs))
      (fun p => (setIndexes widgets fs 0 p).index) := by
  intro k fs' hk i
  rw [Function.update_apply] at hk
  by_cases hkg : k = g
  · simp only [hkg, if_true] at hk
    by_cases he : fs = []
    · simp [he] at hk
    · simp only [he, if_false, Option.some.injEq] at hk
      subst hk
      simp only
      rw [setIndexes_get widgets fs 0 hnd i]
      simp
  · simp only [hkg, if_false] at hk
    simp only
    rw [setIndexes_of_not_mem _ _ _ _ (hdisj k fs' hkg hk _ (List.get_mem fs' i.val i.isLt))]
    exact hother k fs' hkg hk i

/-- Density after a node that is in no group was appended to a group with the
group's size as its index. -/
theorem DenseOn.append {filters : Id → Option (List Ptr)} {index : Ptr → Int}
    (h : DenseOn filters index) (g : Id) (w : Ptr)
    (hw : ∀ k fs, filters k = some fs → w ∉ fs) (index' : Ptr → Int)
    (hidx : ∀ p, index' p = if p = w then (((filters g).getD []).length : Int) else index p) :
    DenseOn (Function.update filters g (some ((filters g).getD [] ++ [w]))) index' := by
  have hold : ∀ (j : Nat) (hj : j < ((filters g).getD []).length),
      ((filters g).getD [])[j] ≠ w ∧ index ((filters g).getD [])[j] = (j : Int) := by
    cases hgs : filters g with
    | none => intro j hj; simp at hj
    | some old =>
      intro j hj
      simp only [Option.getD_some] at hj ⊢
      exact ⟨fun he => hw g old hgs (he ▸ List.getElem_mem hj), h g old hgs ⟨j, hj⟩⟩
  intro k fs hk i
  rw [Function.update_apply] at hk
  by_cases hkg : k = g
  · simp only [hkg, if_true, Option.some.injEq] at hk
    subst hk
    obtain ⟨i, hi⟩ := i
    simp only [List.get_eq_getElem]
    by_cases hlt : i < ((filters g).getD []).length
    · rw [List.getElem_append_left hlt, hidx]
      simp only [(hold i hlt).1, if_false]
      exact (hold i hlt).2
    · have hlen : i = ((filters g).getD []).length := by
        simp only [List.length_append, List.length_singleton] at hi
        exact Nat.le_antisymm (Nat.lt_succ_iff.mp hi) (Nat.not_lt.mp hlt)
      subst hlen
      rw [List.getElem_append_right (Nat.le_refl _)]
      simp [hidx]
  · simp only [hkg, if_false] at hk
    rw [hidx]
    have hne : fs.get i ≠ w := fun he => hw k fs hk (he ▸ List.get_mem fs i.val i.isLt)
    simp only [hne, if_false]
    exact h k fs hk i

theorem filters_setFilters_of_ne_nil (sh : Shape) (g : Id) (fs : List Ptr) (hfs : fs ≠ []) :
    (sh.setFilters g fs).filters = Function.update sh.filters g (some fs) := by
  simp [Shape.setFilters, hfs]

theorem placeWidget_ne_nil (fs : List Ptr) (k : Int) (w : Ptr) : placeWidget fs k w ≠ [] := by
  unfold placeWidget insertWidget
  split <;> simp

theorem dense_createFilter (m : Track → String → Bool) (s : State) (reg : List Ptr) (id : Id)
    (h : s.shape.Inv reg) (hd : DenseOn (filtersOf s) (fun p => (s.m_widgets p).index)) :
    DenseOn (filtersOf (createFilter m s id).2)
      (fun p => ((createFilter m s id).2.m_widgets p).index) := by
  have hnot : s.nextWidget ∉ reg := fun hr => absurd (h.allocated _ hr) (Nat.lt_irrefl _)
  have hf : filtersOf (createFilter m s id).2
      = Function.update (filtersOf s) s.vdefaultId
          (some ((filtersOf s s.vdefaultId).getD [] ++ [s.nextWidget])) := by
    show (createFilter m s id).2.shape.filters = _
    rw [shape_createFilter, filters_setFilters_of_ne_nil _ _ _ (by simp)]
    rfl
  rw [hf]
  exact hd.append s.vdefaultId s.nextWidget
    (fun k fs hk => h.not_grouped_of_not_reg hnot k fs hk) _
    (fun p => index_createFilter m s id p)

theorem dense_addFilterToGroup (s : State) (reg : List Ptr) (w : Ptr) (g : Id)
    (h : s.shape.Inv reg) (hw : w ∉ reg)
    (hd : DenseOn (filtersOf s) (fun p => (s.m_widgets p).index)) :
    DenseOn (filtersOf (addFilterToGroup s w g))
      (fun p => ((addFilterToGroup s w g).m_widgets p).index) := by
  have hng : ∀ k fs, filtersOf s k = some fs → w ∉ fs :=
    fun k fs hk => h.not_grouped_of_not_reg hw k fs hk
  by_cases hg : g = 0
  · have hf : filtersOf (addFilterToGroup s w g) = filtersOf s := by
      show (addFilterToGroup s w g).shape.filters = _
      rw [shape_addFilterToGroup]
      simp [Shape.attach, hg, Shape.setUngrouped]
      rfl
    rw [hf]
    apply hd.congr
    intro k fs p hk hp
    simp only [index_addFilterToGroup]
    have : p ≠ w := fun he => hng k fs hk (he ▸ hp)
    simp [this]
  · have hf : filtersOf (addFilterToGroup s w g)
        = Function.update (filtersOf s) g (some ((filtersOf s g).getD [] ++ [w])) := by
      show (addFilterToGroup s w g).shape.filters = _
      rw [shape_addFilterToGroup]
      simp only [Shape.attach, hg, if_false, placeWidget_neg_one]
      rw [filters_setFilters_of_ne_nil _ _ _ (by simp)]
      rfl
    rw [hf]
    apply hd.append g w hng
    intro p
    rw [index_addFilterToGroup]
    simp [hg]

theorem dense_removeFilter (s : State) (reg : List Ptr) (w : Ptr) (h : s.shape.Inv reg)
    (hd : DenseOn (filtersOf s) (fun p => (s.m_widgets p).index)) :
    DenseOn (filtersOf (removeFilter s w).2)
      (fun p => ((removeFilter s w).2.m_widgets p).index) := by
  by_cases hu : (s.m_widgets w).group = 0 ∧ s.m_ungrouped.lookup (s.m_widgets w).id ≠ none
  · rw [removeFilter_ungrouped s w hu.1 hu.2]
    exact hd
  · cases hl : s.m_groups.lookup (s.m_widgets w).group with
    | none =>
      rw [removeFilter_not_found s w hu (by intro fs hf; simp [filtersOf, hl] at hf)]
      exact hd
    | some group =>
      by_cases hw : w ∈ group.filters
      · obtain ⟨_, h2, h3, _⟩ := removeFilter_grouped s w group hu hl hw
        have hgs : s.shape.filters (s.m_widgets w).group = some group.filters := by
          show filtersOf s _ = _
          simp [filtersOf, hl]
        have hf : filtersOf (removeFilter s w).2
            = Function.update (filtersOf s) (s.m_widgets w).group
                (if eraseWidget group.filters w = [] then none
                 else some (eraseWidget group.filters w)) := by
          show (removeFilter s w).2.shape.filters = _
          rw [h2]
          rfl
        rw [hf, h3]
        apply DenseOn.reindex
        · intro k fs' _ hk i
          exact hd k fs' hk i
        · exact (h.nodup _ _ hgs).filter _
        · intro k fs' hkg hk p hp hp'
          have hp'' : p ∈ group.filters := (List.mem_filter.mp hp').1
          exact hkg (h.disjoint k fs' _ group.filters p hk hgs hp hp'')
      · rw [removeFilter_not_found s w hu (by
          intro fs hf
          simp only [filtersOf, hl, Option.map_some', Option.some.injEq] at hf
          rw [← hf]; exact hw)]
        exact hd

/-- Density after `handleFilterUpdated`, from density of all positions that do
not hold the widget, and of the widget's own position when the target group is
the group that contains it. -/
theorem dense_handleFilterUpdated (m : Track → String → Bool) (s : State) (reg : List Ptr)
    (w : Ptr) (h : s.shape.Inv reg) (hw : w ∈ reg)
    (hd : ∀ k fs, filtersOf s k = some fs → ∀ i : Fin fs.length, fs.get i ≠ w →
      (s.m_widgets (fs.get i)).index = (i.val : Int))
    (hsame : (s.m_widgets w).group = findContainingGroup s w →
      DenseOn (filtersOf s) (fun p => (s.m_widgets p).index)) :
    DenseOn (filtersOf (handleFilterUpdated m s w))
      (fun p => ((handleFilterUpdated m s w).m_widgets p).index) := by
  by_cases hs : (s.m_widgets w).group = findContainingGroup s w
  · have hc := handleFilterUpdated_same m s w hs
    have hf : filtersOf (handleFilterUpdated m s w) = filtersOf s := funext hc.filters
    rw [hf]
    exact (hsame hs).congr (fun _ _ p _ _ => hc.index p)
  · have hc := handleFilterUpdated_move m s w hs
    have hf : filtersOf (handleFilterUpdated m s w)
        = filtersOf (addToNewGroup (removeFromOldGroup s w (findContainingGroup s w)) w
            (s.m_widgets w).group) := funext hc.filters
    rw [hf]
    refine DenseOn.congr ?_ (fun _ _ p _ _ => hc.index p)
    -- the state after the removal block
    have hfind := findContainingGroup_spec s reg h w
    have hinv1 : (removeFromOldGroup s w (findContainingGroup s w)).shape.Inv
        (reg.filter (fun x => x ≠ w)) := by
      rw [(removeFromOldGroup_spec _ _ _).1]
      exact h.detachShape w _ hw (fun k fs hk hwf => hfind.1 k fs hk hwf) hfind.2
    have hd1 : DenseOn (filtersOf (removeFromOldGroup s w (findContainingGroup s w)))
        (fun p => ((removeFromOldGroup s w (findContainingGroup s w)).m_widgets p).index) := by
      rcases (h.registered w).mp hw with ⟨k0, fs0, hk0, hwf0⟩ | hu
      · have hold : findContainingGroup s w = k0 := hfind.1 k0 fs0 hk0 hwf0
        have hk0ne : k0 ≠ 0 := h.keys_valid k0 fs0 hk0
        have hk0' : filtersOf s k0 = some fs0 := hk0
        have hf1 : filtersOf (removeFromOldGroup s w (findContainingGroup s w))
            = Function.update (filtersOf s) k0
                (if eraseWidget fs0 w = [] then none else some (eraseWidget fs0 w)) := by
          show (removeFromOldGroup s w (findContainingGroup s w)).shape.filters = _
          rw [(removeFromOldGroup_spec _ _ _).1, hold]
          unfold Shape.detach
          rw [if_neg hk0ne, hk0]
          simp only [hwf0, if_true]
          rfl
        have hw1 : (removeFromOldGroup s w (findContainingGroup s w)).m_widgets
            = setIndexes s.m_widgets (eraseWidget fs0 w) 0 := by
          rw [(removeFromOldGroup_spec _ _ _).2, hold, if_neg hk0ne, hk0']
          simp only [hwf0, if_true]
        rw [hf1, hw1]
        apply DenseOn.reindex
        · intro k fs' hkk hk i
          apply hd k fs' hk i
          intro he
          exact hkk (h.disjoint k fs' k0 fs0 w hk hk0 (he ▸ List.get_mem fs' i.val i.isLt) hwf0)
        · exact (h.nodup k0 fs0 hk0).filter _
        · intro k fs' hkk hk p hp hp'
          exact hkk (h.disjoint k fs' k0 fs0 p hk hk0 hp (List.mem_filter.mp hp').1)
      · have hng : ∀ k fs, s.shape.filters k = some fs → w ∉ fs :=
          fun k fs hk => h.ungrouped_not_grouped _ w hu k fs hk
        have hold : findContainingGroup s w = 0 := hfind.2 hng
        have hf1 : filtersOf (removeFromOldGroup s w (findContainingGroup s w)) = filtersOf s := by
          show (removeFromOldGroup s w (findContainingGroup s w)).shape.filters = _
          rw [(removeFromOldGroup_spec _ _ _).1, hold]
          unfold Shape.detach
          rw [if_pos rfl]
          rfl
        have hw1 : (removeFromOldGroup s w (findContainingGroup s w)).m_widgets = s.m_widgets := by
          rw [(removeFromOldGroup_spec _ _ _).2, hold, if_pos rfl]
        rw [hf1, hw1]
        intro k fs hk i
        apply hd k fs hk i
        intro he
        exact hng k fs hk (he ▸ List.get_mem fs i.val i.isLt)
    -- the state after the insertion block
    generalize removeFromOldGroup s w (findContainingGroup s w) = s1 at hinv1 hd1 ⊢
    have hnot : w ∉ reg.filter (fun x => x ≠ w) := by simp
    by_cases hg : (s.m_widgets w).group = 0
    · have hf2 : filtersOf (addToNewGroup s1 w (s.m_widgets w).group) = filtersOf s1 := by
        show (addToNewGroup s1 w (s.m_widgets w).group).shape.filters = _
        rw [(addToNewGroup_spec _ _ _).1]
        unfold Shape.attach
        rw [if_pos hg]
        rfl
      have hw2 : (addToNewGroup s1 w (s.m_widgets w).group).m_widgets = s1.m_widgets := by
        rw [(addToNewGroup_spec _ _ _).2, if_pos hg]
      rw [hf2, hw2]
      exact hd1
    · have hf2 : filtersOf (addToNewGroup s1 w (s.m_widgets w).group)
          = Function.update (filtersOf s1) (s.m_widgets w).group
              (if placeWidget ((filtersOf s1 (s.m_widgets w).group).getD [])
                    (s1.m_widgets w).index w = [] then none
               else some (placeWidget ((filtersOf s1 (s.m_widgets w).group).getD [])
                    (s1.m_widgets w).index w)) := by
        show (addToNewGroup s1 w (s.m_widgets w).group).shape.filters = _
        rw [(addToNewGroup_spec _ _ _).1]
        unfold Shape.attach
        rw [if_neg hg]
        rfl
      have hw2 : (addToNewGroup s1 w (s.m_widgets w).group).m_widgets
          = setIndexes s1.m_widgets (placeWidget ((filtersOf s1 (s.m_widgets w).group).getD [])
              (s1.m_widgets w).index w) 0 := by
        rw [(addToNewGroup_spec _ _ _).2, if_neg hg]
      rw [hf2, hw2]
      apply DenseOn.reindex
      · intro k fs' _ hk i
        exact hd1 k fs' hk i
      · apply nodup_placeWidget
        · cases hgs : filtersOf s1 (s.m_widgets w).group with
          | none => simp
          | some old => simpa using hinv1.nodup _ old hgs
        · cases hgs : filtersOf s1 (s.m_widgets w).group with
          | none => simp
          | some old => simpa using hinv1.not_grouped_of_not_reg hnot _ old hgs
      · intro k fs' hkk hk p hp hp'
        rcases (mem_placeWidget _ _ _ _).mp hp' with hpw | hpo
        · exact hinv1.not_grouped_of_not_reg hnot k fs' hk (hpw ▸ hp)
        · cases hgs : filtersOf s1 (s.m_widgets w).group with
          | none => simp [hgs] at hpo
          | some old =>
            rw [hgs] at hpo
            exact hkk (hinv1.disjoint k fs' _ old p hk hgs hp hpo)

theorem index_requestGroup (s : State) (w : Ptr) (g : Id) (k : Int) (p : Ptr) :
    ((requestGroup s w g k).m_widgets p).index = if p = w then k else (s.m_widgets p).index := by
  simp only [requestGroup, State.modifyWidget, Function.update_apply]
  by_cases hp : p = w
  · simp [hp, FilterWidget.setIndex]
  · simp [hp]

theorem dense_filterUpdated (m : Track → String → Bool) (s : State) (reg : List Ptr)
    (w : Ptr) (g : Id) (k : Int) (h : s.shape.Inv reg) (hw : w ∈ reg)
    (hd : DenseOn (filtersOf s) (fun p => (s.m_widgets p).index))
    (hkeep : g ≠ 0 → g = findContainingGroup s w → k = (s.m_widgets w).index) :
    DenseOn (filtersOf (handleFilterUpdated m (requestGroup s w g k) w))
      (fun p => ((handleFilterUpdated m (requestGroup s w g k) w).m_widgets p).index) := by
  have hinv : (requestGroup s w g k).shape.Inv reg := by rw [shape_requestGroup]; exact h
  have hf : filtersOf (requestGroup s w g k) = filtersOf s := rfl
  have hfind : findContainingGroup (requestGroup s w g k) w = findContainingGroup s w :=
    findContainingGroup_congr s _ rfl w
  apply dense_handleFilterUpdated m _ reg w hinv hw
  · intro k' fs hk i hne
    rw [index_requestGroup]
    simp only [hne, if_false]
    exact hd k' fs hk i
  · intro hsame
    rw [group_requestGroup, hfind] at hsame
    rw [hf]
    by_cases hg : g = 0
    · have hspec := findContainingGroup_spec s reg h w
      have hng : ∀ k' fs, filtersOf s k' = some fs → w ∉ fs := by
        intro k' fs hk hwf
        have := hspec.1 k' fs hk hwf
        rw [← hsame, hg] at this
        exact h.keys_valid k' fs hk this.symm
      apply hd.congr
      intro k' fs p hk hp
      rw [index_requestGroup]
      have : p ≠ w := fun he => hng k' fs hk (he ▸ hp)
      simp [this]
    · have hk := hkeep hg hsame
      apply hd.congr
      intro k' fs p _ _
      rw [index_requestGroup]
      by_cases hp : p = w
      · simp [hp, hk]
      · simp [hp]

/-- Every state reachable with `keepIndex` is dense. -/
theorem Reach.dense {m : Track → String → Bool} {library : TrackList} {defaultId : Id}
    {s : State} {reg : List Ptr} (hd : defaultId ≠ 0)
    (h : Reach m library defaultId true s reg) :
    DenseOn (filtersOf s) (fun p => (s.m_widgets p).index) := by
  induction h with
  | init =>
    intro k fs hk
    simp [filtersOf, State.init] at hk
  | createFilter s reg id hr _ ih => exact dense_createFilter m s reg id (hr.inv hd) ih
  | addFilterToGroup s reg w g hr _ hw ih => exact dense_addFilterToGroup s reg w g (hr.inv hd) hw ih
  | removeFilter s reg w hr _ ih => exact dense_removeFilter s reg w (hr.inv hd) ih
  | filterUpdated s reg w g k hr hw hkeep ih =>
    exact dense_filterUpdated m s reg w g k (hr.inv hd) hw ih (hkeep rfl)

theorem Dense_of_denseOn (s : State) (hkeys : (s.m_groups.map Prod.fst).Nodup)
    (hd : DenseOn (filtersOf s) (fun p => (s.m_widgets p).index)) : Dense s := by
  intro kv hkv i
  have hl : s.m_groups.lookup kv.1 = some kv.2 := lookup_eq_some_of_mem hkeys hkv
  exact hd kv.1 kv.2.filters (by simp [filtersOf, hl]) i

/-- C7, as amended: in every state reachable through `createFilter`,
`addFilterToGroup` of a node that is not registered, `removeFilter`, and
`handleFilterUpdated` requests that either move the node to another group or
leave its index as it is, the member at position `i` of every group of the
registry has index `i`. -/
theorem reindex_density (m : Track → String → Bool) (library : TrackList) (defaultId : Id)
    (hd : defaultId ≠ 0) (s : State) (reg : List Ptr)
    (h : Reach m library defaultId true s reg) : Dense s :=
  Dense_of_denseOn s (h.inv hd).keys_nodup (h.dense hd)

/-- The C7 theorem applied to the state after two `createFilter` calls and the
move of the first node to a new group `9`. -/
theorem reindex_density_witness :
    Dense (handleFilterUpdated matchesAll
      (requestGroup (createFilter matchesAll (createFilter matchesAll
        (State.init [] 7) 100).2 101).2 0 9 0) 0) :=
  reindex_density matchesAll [] 7 (by decide) _ _
    (Reach.filterUpdated _ _ 0 9 0
      (Reach.createFilter _ _ 101
        (Reach.createFilter _ _ 100 Reach.init (by decide)) (by decide))
      (by decide) (by decide))

/-- C7, counterexample: after `createFilter` and `addFilterToGroup` of the same
node to the default group the node sits at positions 0 and 1 with index 1; and
after two `createFilter` calls, a `handleFilterUpdated` of the second node that
requests index 0 in the group it is already in leaves both members with
index 0. -/
theorem reindex_density_fails :
    ¬ Dense (addFilterToGroup (createFilter matchesAll (State.init [] 7) 100).2 0 7)
      ∧ ¬ Dense (handleFilterUpdated matchesAll
          (requestGroup (createFilter matchesAll (createFilter matchesAll
            (State.init [] 7) 100).2 101).2 1 7 0) 1) := by
  decide

/-! ## Membership in exactly one place -/

theorem mem_allFilters_iff (s : State) (hkeys : (s.m_groups.map Prod.fst).Nodup) (w : Ptr) :
    w ∈ allFilters s ↔ ∃ k fs, filtersOf s k = some fs ∧ w ∈ fs := by
  unfold allFilters
  rw [List.mem_flatMap]
  constructor
  · rintro ⟨kv, hkv, hw⟩
    have hl : s.m_groups.lookup kv.1 = some kv.2 := lookup_eq_some_of_mem hkeys hkv
    exact ⟨kv.1, kv.2.filters, by simp [filtersOf, hl], hw⟩
  · rintro ⟨k, fs, hk, hw⟩
    unfold filtersOf at hk
    cases hl : s.m_groups.lookup k with
    | none => simp [hl] at hk
    | some group =>
      simp only [hl, Option.map_some', Option.some.injEq] at hk
      exact ⟨(k, group), mem_of_lookup_eq_some hl, hk ▸ hw⟩

theorem nodup_allFilters (s : State) (reg : List Ptr) (h : s.shape.Inv reg) :
    (allFilters s).Nodup := by
  have hkeys : (s.m_groups.map Prod.fst).Nodup := h.keys_nodup
  unfold allFilters
  rw [List.nodup_flatMap]
  refine ⟨?_, ?_⟩
  · intro kv hkv
    have hl : s.m_groups.lookup kv.1 = some kv.2 := lookup_eq_some_of_mem hkeys hkv
    exact h.nodup kv.1 kv.2.filters (by show filtersOf s _ = _; simp [filtersOf, hl])
  · have hp : s.m_groups.Pairwise (fun a b => a.1 ≠ b.1) := by
      have := hkeys
      rw [List.Nodup, List.pairwise_map] at this
      exact this
    refine hp.imp_of_mem ?_
    intro a b ha hb hab
    show List.Disjoint a.2.filters b.2.filters
    intro p hpa hpb
    have hla : s.m_groups.lookup a.1 = some a.2 := lookup_eq_some_of_mem hkeys ha
    have hlb : s.m_groups.lookup b.1 = some b.2 := lookup_eq_some_of_mem hkeys hb
    exact hab (h.disjoint a.1 a.2.filters b.1 b.2.filters p
      (by show filtersOf s _ = _; simp [filtersOf, hla])
      (by show filtersOf s _ = _; simp [filtersOf, hlb]) hpa hpb)

theorem mem_ungrouped_values_iff (s : State) (reg : List Ptr) (h : s.shape.Inv reg) (w : Ptr) :
    w ∈ s.m_ungrouped.map Prod.snd ↔ s.m_ungrouped.lookup (s.m_widgets w).id = some w := by
  have hkeys : (s.m_ungrouped.map Prod.fst).Nodup := h.ukeys_nodup
  rw [List.mem_map]
  constructor
  · rintro ⟨kv, hkv, rfl⟩
    have hl : s.m_ungrouped.lookup kv.1 = some kv.2 := lookup_eq_some_of_mem hkeys hkv
    have hid : (s.m_widgets kv.2).id = kv.1 := h.ungrouped_id kv.1 kv.2 hl
    rw [hid]
    exact hl
  · intro hl
    exact ⟨(_, w), mem_of_lookup_eq_some hl, rfl⟩

theorem nodup_ungrouped_values (s : State) (reg : List Ptr) (h : s.shape.Inv reg) :
    (s.m_ungrouped.map Prod.snd).Nodup := by
  have hkeys : (s.m_ungrouped.map Prod.fst).Nodup := h.ukeys_nodup
  have hnd : s.m_ungrouped.Nodup := List.Nodup.of_map _ hkeys
  refine List.Nodup.map_on ?_ hnd
  intro a ha b hb hab
  have hla : s.m_ungrouped.lookup a.1 = some a.2 := lookup_eq_some_of_mem hkeys ha
  have hlb : s.m_ungrouped.lookup b.1 = some b.2 := lookup_eq_some_of_mem hkeys hb
  have hia : (s.m_widgets a.2).id = a.1 := h.ungrouped_id a.1 a.2 hla
  have hib : (s.m_widgets b.2).id = b.1 := h.ungrouped_id b.1 b.2 hlb
  have h1 : a.1 = b.1 := by rw [← hia, ← hib, hab]
  exact Prod.ext h1 hab

theorem places_of_inv (s : State) (reg : List Ptr) (h : s.shape.Inv reg) (w : Ptr) :
    places s w = if w ∈ reg then 1 else 0 := by
  have hkeys : (s.m_groups.map Prod.fst).Nodup := h.keys_nodup
  have hg := mem_allFilters_iff s hkeys w
  have hu := mem_ungrouped_values_iff s reg h w
  have hreg := h.registered w
  unfold places
  by_cases hw : w ∈ reg
  · simp only [hw, if_true]
    rcases hreg.mp hw with hin | hin
    · have h1 : (allFilters s).count w = 1 :=
        List.count_eq_one_of_mem (nodup_allFilters s reg h) (hg.mpr hin)
      have h2 : (s.m_ungrouped.map Prod.snd).count w = 0 := by
        rw [List.count_eq_zero, hu]
        intro hl
        obtain ⟨k, fs, hk, hwf⟩ := hin
        exact h.ungrouped_not_grouped _ w hl k fs hk hwf
      rw [h1, h2]
    · have hin' : s.m_ungrouped.lookup (s.m_widgets w).id = some w := hin
      have h1 : (allFilters s).count w = 0 := by
        rw [List.count_eq_zero, hg]
        rintro ⟨k, fs, hk, hwf⟩
        exact h.ungrouped_not_grouped _ w hin k fs hk hwf
      have h2 : (s.m_ungrouped.map Prod.snd).count w = 1 :=
        List.count_eq_one_of_mem (nodup_ungrouped_values s reg h) (hu.mpr hin')
      rw [h1, h2]
  · simp only [hw, if_false]
    have h1 : (allFilters s).count w = 0 := by
      rw [List.count_eq_zero, hg]
      intro hin
      exact hw (hreg.mpr (Or.inl hin))
    have h2 : (s.m_ungrouped.map Prod.snd).count w = 0 := by
      rw [List.count_eq_zero, hu]
      intro hl
      exact hw (hreg.mpr (Or.inr hl))
    rw [h1, h2]

/-- C8, as amended: in every state reachable through `createFilter`,
`addFilterToGroup` of a node that is not registered, `removeFilter` and
`handleFilterUpdated`, every registered node (created or added, and not
removed since) occupies exactly one place, one position of one group's
sequence or the ungrouped mapping, and every other node occupies none. -/
theorem registered_node_in_exactly_one_place (m : Track → String → Bool) (library : TrackList)
    (defaultId : Id) (keepIndex : Bool) (hd : defaultId ≠ 0) (s : State) (reg : List Ptr)
    (h : Reach m library defaultId keepIndex s reg) (w : Ptr) :
    places s w = if w ∈ reg then 1 else 0 :=
  places_of_inv s reg (h.inv hd) w

/-- The C8 theorem applied to the state after two `createFilter` calls and the
move of the first node to the ungrouped mapping. -/
theorem registered_node_in_exactly_one_place_witness :
    places (handleFilterUpdated matchesAll
      (requestGroup (createFilter matchesAll (createFilter matchesAll
        (State.init [] 7) 100).2 101).2 0 0 5) 0) 0 = 1 :=
  registered_node_in_exactly_one_place matchesAll [] 7 false (by decide) _ _
    (Reach.filterUpdated _ _ 0 0 5
      (Reach.createFilter _ _ 101
        (Reach.createFilter _ _ 100 Reach.init (by decide)) (by decide))
      (by decide) (by decide)) 0

/-- C8, counterexample: after `createFilter`, `addFilterToGroup` of the new node
to another group `9` leaves it in the default group and in group `9`. -/
theorem node_in_two_groups :
    places (addFilterToGroup (createFilter matchesAll (State.init [] 7) 100).2 0 9) 0 = 2
      ∧ filtersOf (addFilterToGroup (createFilter matchesAll (State.init [] 7) 100).2 0 9) 7
          = some [0]
      ∧ filtersOf (addFilterToGroup (createFilter matchesAll (State.init [] 7) 100).2 0 9) 9
          = some [0] := by
  decide

/-! ## Removing a filter -/

theorem lookup_invalid_of_keysValid (s : State) (hk : KeysValid s) :
    s.m_groups.lookup 0 = none := by
  cases hl : s.m_groups.lookup 0 with
  | none => rfl
  | some group => exact absurd rfl (hk (0, group) (mem_of_lookup_eq_some hl))

/-- C9: `removeFilter` returns true exactly when the node is found, in the
ungrouped mapping (by its identity) when its group id is invalid and in the
member sequence of the group named by its group id otherwise; when it returns
false the whole state is unchanged. -/
theorem removeFilter_true_iff_found (s : State) (w : Ptr) (hk : KeysValid s) :
    ((removeFilter s w).1 = true ↔
        ((s.m_widgets w).group.isValid = false
            ∧ s.m_ungrouped.contains (s.m_widgets w).id = true)
          ∨ ((s.m_widgets w).group.isValid = true
            ∧ ∃ group, s.m_groups.lookup (s.m_widgets w).group = some group
                ∧ w ∈ group.filters))
      ∧ ((removeFilter s w).1 = false → (removeFilter s w).2 = s) := by
  have hvalid : ∀ g : Id, (g.isValid = false ↔ g = 0) := by
    intro g
    simp [Id.isValid]
  have hcontains : s.m_ungrouped.contains (s.m_widgets w).id = true
      ↔ s.m_ungrouped.lookup (s.m_widgets w).id ≠ none := by
    unfold UngroupedFilters.contains
    exact Option.isSome_iff_ne_none
  by_cases hu : (s.m_widgets w).group = 0 ∧ s.m_ungrouped.lookup (s.m_widgets w).id ≠ none
  · rw [removeFilter_ungrouped s w hu.1 hu.2]
    refine ⟨⟨fun _ => Or.inl ⟨(hvalid _).mpr hu.1, hcontains.mpr hu.2⟩, fun _ => rfl⟩, ?_⟩
    intro h
    exact absurd h (by simp)
  · have hnot1 : ¬ ((s.m_widgets w).group.isValid = false
        ∧ s.m_ungrouped.contains (s.m_widgets w).id = true) :=
      fun h => hu ⟨(hvalid _).mp h.1, hcontains.mp h.2⟩
    cases hl : s.m_groups.lookup (s.m_widgets w).group with
    | none =>
      rw [removeFilter_not_found s w hu (by intro fs hf; simp [filtersOf, hl] at hf)]
      refine ⟨⟨fun h => absurd h (by simp), ?_⟩, fun _ => rfl⟩
      rintro (h | ⟨_, group, hg, _⟩)
      · exact absurd h hnot1
      · simp at hg
    | some group =>
      by_cases hw : w ∈ group.filters
      · obtain ⟨h1, _, _, _⟩ := removeFilter_grouped s w group hu hl hw
        refine ⟨⟨fun _ => Or.inr ⟨?_, group, rfl, hw⟩, fun _ => h1⟩, ?_⟩
        · by_contra hv
          have h0 : (s.m_widgets w).group = 0 :=
            (hvalid _).mp (by simpa using hv)
          rw [h0, lookup_invalid_of_keysValid s hk] at hl
          simp at hl
        · intro h
          rw [h1] at h
          exact absurd h (by simp)
      · rw [removeFilter_not_found s w hu (by
          intro fs hf
          simp only [filtersOf, hl, Option.map_some', Option.some.injEq] at hf
          rw [← hf]; exact hw)]
        refine ⟨⟨fun h => absurd h (by simp), ?_⟩, fun _ => rfl⟩
        rintro (h | ⟨_, group', hg, hw'⟩)
        · exact absurd h hnot1
        · simp only [Option.some.injEq] at hg
          exact absurd (hg ▸ hw') hw

/-- The C9 theorem applied to the state after one `createFilter` and the node
at address 0. -/
theorem removeFilter_true_iff_found_witness :
    ((removeFilter (createFilter matchesAll (State.init [] 7) 100).2 0).1 = true ↔
        (((createFilter matchesAll (State.init [] 7) 100).2.m_widgets 0).group.isValid = false
            ∧ (createFilter matchesAll (State.init [] 7) 100).2.m_ungrouped.contains
                ((createFilter matchesAll (State.init [] 7) 100).2.m_widgets 0).id = true)
          ∨ (((createFilter matchesAll (State.init [] 7) 100).2.m_widgets 0).group.isValid = true
            ∧ ∃ group, (createFilter matchesAll (State.init [] 7) 100).2.m_groups.lookup
                  ((createFilter matchesAll (State.init [] 7) 100).2.m_widgets 0).group
                  = some group
                ∧ 0 ∈ group.filters))
      ∧ ((removeFilter (createFilter matchesAll (State.init [] 7) 100).2 0).1 = false →
          (removeFilter (createFilter matchesAll (State.init [] 7) 100).2 0).2
            = (createFilter matchesAll (State.init [] 7) 100).2) :=
  removeFilter_true_iff_found (createFilter matchesAll (State.init [] 7) 100).2 0 (by decide)

theorem length_eraseWidget (fs : List Ptr) (w : Ptr) (hnd : fs.Nodup) (hw : w ∈ fs) :
    (eraseWidget fs w).length + 1 = fs.length := by
  unfold eraseWidget
  have h1 : fs.erase w = fs.filter (fun x => x ≠ w) := by
    rw [List.Nodup.erase_eq_filter hnd]
    apply List.filter_congr
    intro x _
    by_cases hx : x = w <;> simp [hx]
  rw [← h1, List.length_erase_of_mem hw]
  have : 0 < fs.length := List.length_pos_of_mem hw
  exact Nat.succ_pred_eq_of_pos this

/-- C10: when `removeFilter` succeeds on a grouped node, the node is gone from
its group's sequence, the remaining members keep their order and are
renumbered from 0, the group is erased exactly when no member is left, and no
group with an empty member list remains. -/
theorem removeFilter_grouped_success (s : State) (w : Ptr) (group : FilterGroup)
    (hvalid : (s.m_widgets w).group ≠ 0)
    (hl : s.m_groups.lookup (s.m_widgets w).group = some group) (hw : w ∈ group.filters)
    (hnd : group.filters.Nodup) (hne : NoEmptyGroup s) :
    (removeFilter s w).1 = true
      ∧ filtersOf (removeFilter s w).2 (s.m_widgets w).group
          = (if eraseWidget group.filters w = [] then none
             else some (eraseWidget group.filters w))
      ∧ w ∉ eraseWidget group.filters w
      ∧ (eraseWidget group.filters w).Sublist group.filters
      ∧ (∀ p, p ∈ group.filters → p ≠ w → p ∈ eraseWidget group.filters w)
      ∧ (eraseWidget group.filters w).length + 1 = group.filters.length
      ∧ (∀ i : Fin (eraseWidget group.filters w).length,
          ((removeFilter s w).2.m_widgets ((eraseWidget group.filters w).get i)).index
            = (i.val : Int))
      ∧ ((removeFilter s w).2.m_groups.lookup (s.m_widgets w).group = none
          ↔ eraseWidget group.filters w = [])
      ∧ NoEmptyGroup (removeFilter s w).2 := by
  have hu : ¬ ((s.m_widgets w).group = 0 ∧ s.m_ungrouped.lookup (s.m_widgets w).id ≠ none) :=
    fun h => hvalid h.1
  obtain ⟨h1, h2, h3, h4⟩ := removeFilter_grouped s w group hu hl hw
  have hf : filtersOf (removeFilter s w).2 (s.m_widgets w).group
      = (if eraseWidget group.filters w = [] then none
         else some (eraseWidget group.filters w)) := by
    show (removeFilter s w).2.shape.filters _ = _
    rw [h2, Shape.filters_setFilters]
    simp
  refine ⟨h1, hf, ?_, ?_, ?_, length_eraseWidget _ _ hnd hw, ?_, ?_, h4 hne⟩
  · simp [eraseWidget]
  · exact List.filter_sublist _
  · intro p hp hpw
    simp [eraseWidget, hp, hpw]
  · intro i
    have hnd' : (eraseWidget group.filters w).Nodup := hnd.filter _
    rw [h3, setIndexes_get _ _ 0 hnd' i]
    simp
  · unfold filtersOf at hf
    by_cases he : eraseWidget group.filters w = []
    · simp only [he, if_true, Option.map_eq_none'] at hf
      simp [hf, he]
    · simp only [he, if_false] at hf
      constructor
      · intro hn
        rw [hn] at hf
        simp at hf
      · intro h
        exact absurd h he

/-- The C10 theorem applied to the state after two `createFilter` calls and the
node at address 0. -/
theorem removeFilter_grouped_success_witness :
    filtersOf (removeFilter
      (createFilter matchesAll (createFilter matchesAll (State.init [] 7) 100).2 101).2 0).2 7
      = some [1] :=
  (removeFilter_grouped_success
    (createFilter matchesAll (createFilter matchesAll (State.init [] 7) 100).2 101).2 0
    { id := 7, filters := [0, 1], filteredTracks := [], updateCount := 0 }
    (by decide) (by decide) (by decide) (by decide) (by decide)).2.1

/-! ## Combination of the matched sets of the active members -/

theorem combineActive_eq_combineSets (widgets : Ptr → FilterWidget) (l : List Ptr) :
    combineActive widgets l = combineSets (l.map (fun p => (widgets p).filteredTracks)) := by
  unfold combineActive combineSets
  rw [List.foldl_map]

theorem activeSets_eq_activeSetsOn (s : State) (group : FilterGroup) :
    activeSets s group = activeSetsOn s.m_widgets group.filters := rfl

theorem combineActive_activeFilters (s : State) (group : FilterGroup) :
    combineActive s.m_widgets (activeFilters s group)
      = combineSets (activeSetsOn s.m_widgets group.filters) := by
  rw [combineActive_eq_combineSets]
  rfl

theorem foldl_combine_eq_foldl_intersect (rest : List TrackList) (acc : TrackList)
    (h : ∀ j, j < rest.length →
      (rest.take j).foldl (fun acc next => trackIntersection next acc) acc ≠ []) :
    rest.foldl
        (fun filteredTracks set =>
          if filteredTracks.isEmpty then filteredTracks ++ set
          else trackIntersection set filteredTracks) acc
      = rest.foldl (fun acc next => trackIntersection next acc) acc := by
  induction rest generalizing acc with
  | nil => rfl
  | cons S rest ih =>
    have h0 : acc ≠ [] := by
      have := h 0 (by simp)
      simpa using this
    have hne : acc.isEmpty = false := by simpa using h0
    simp only [List.foldl_cons, hne, Bool.false_eq_true, if_false]
    apply ih
    intro j hj
    have := h (j + 1) (by simpa using hj)
    simpa using this

/-- The loop of `getFilteredTracks` yields the left-to-right intersection when
no running intersection of a proper prefix is empty. -/
theorem combineSets_eq_intersectAll (sets : List TrackList) (h : NoEmptyPrefix sets) :
    combineSets sets = intersectAll sets := by
  cases sets with
  | nil => rfl
  | cons first rest =>
    unfold combineSets intersectAll
    simp only [List.foldl_cons, List.isEmpty_nil, if_true, List.nil_append]
    apply foldl_combine_eq_foldl_intersect
    intro j hj
    have := h (j + 1) (Nat.succ_pos j) (by simpa using hj)
    simpa [intersectAll] using this

theorem activeSetsOn_congr (widgets widgets' : Ptr → FilterWidget) (fs : List Ptr)
    (h : ∀ p, p ∈ fs →
      ((widgets' p).isActive = false ∧ (widgets p).isActive = false)
        ∨ ((widgets' p).isActive = (widgets p).isActive
          ∧ (widgets' p).filteredTracks = (widgets p).filteredTracks)) :
    activeSetsOn widgets' fs = activeSetsOn widgets fs := by
  unfold activeSetsOn
  induction fs with
  | nil => rfl
  | cons q fs ih =>
    have ih' := ih (fun p hp => h p (List.mem_cons_of_mem q hp))
    rcases h q (List.mem_cons_self q fs) with ⟨h1, h2⟩ | ⟨h1, h2⟩
    · simp only [List.filter_cons, h1, h2, Bool.false_eq_true, if_false]
      exact ih'
    · simp only [List.filter_cons, h1]
      by_cases ha : (widgets q).isActive = true
      · simp only [ha, if_true, List.map_cons, h2, ih']
      · simp only [ha, if_false]
        exact ih'

theorem activeSetsOn_append_inactive (widgets : Ptr → FilterWidget) (fs : List Ptr) (w : Ptr)
    (hw : (widgets w).isActive = false) :
    activeSetsOn widgets (fs ++ [w]) = activeSetsOn widgets fs := by
  unfold activeSetsOn
  simp [List.filter_append, hw]

theorem activeSetsOn_erase_inactive (widgets : Ptr → FilterWidget) (fs : List Ptr) (w : Ptr)
    (hw : (widgets w).isActive = false) :
    activeSetsOn widgets (eraseWidget fs w) = activeSetsOn widgets fs := by
  unfold activeSetsOn eraseWidget
  rw [List.filter_filter]
  congr 1
  apply List.filter_congr
  intro p _
  by_cases hp : p = w
  · simp [hp, hw]
  · simp [hp]

theorem getD_empty_filteredTracks (o : Option FilterGroup) :
    (o.getD FilterGroup.empty).filteredTracks = (o.map FilterGroup.filteredTracks).getD [] := by
  cases o <;> rfl

/-- The caches and the widgets after `createFilter`. -/
theorem createFilter_frame (m : Track → String → Bool) (s : State) (id : Id) :
    (∀ k, cachedTracks (createFilter m s id).2 k
        = if k = s.vdefaultId then some ((cachedTracks s s.vdefaultId).getD [])
          else cachedTracks s k)
      ∧ (∀ p, p ≠ s.nextWidget → (createFilter m s id).2.m_widgets p = s.m_widgets p)
      ∧ ((createFilter m s id).2.m_widgets s.nextWidget).isActive = false
      ∧ ((createFilter m s id).2.m_widgets s.nextWidget).group = s.vdefaultId := by
  have hl := FilterGroups.lookup_index s.m_groups s.vdefaultId s.vdefaultId
  simp only [if_true] at hl
  simp only [createFilter, hl]
  refine ⟨?_, ?_, ?_, ?_⟩
  · intro k
    simp only [cachedTracks, State.modifyWidget, FilterGroups.lookup_index_assign]
    by_cases hk : k = s.vdefaultId
    · simp [hk, getD_empty_filteredTracks]
    · simp [hk]
  · intro p hp
    simp [State.modifyWidget, Function.update_apply, hp]
  · simp [State.modifyWidget, FilterWidget.reset, FilterWidget.isActive]
  · simp [State.modifyWidget, FilterWidget.reset, FilterWidget.setGroup, FilterWidget.setIndex]

/-- The caches and the widgets after `addFilterToGroup`. -/
theorem addFilterToGroup_frame (s : State) (w : Ptr) (g : Id) :
    (∀ k, cachedTracks (addFilterToGroup s w g) k
        = if k = g ∧ g ≠ 0 then some ((cachedTracks s g).getD []) else cachedTracks s k)
      ∧ (∀ p, ((addFilterToGroup s w g).m_widgets p).isActive = (s.m_widgets p).isActive
          ∧ ((addFilterToGroup s w g).m_widgets p).filteredTracks
              = (s.m_widgets p).filteredTracks)
      ∧ (∀ p, p ≠ w → ((addFilterToGroup s w g).m_widgets p).group = (s.m_widgets p).group)
      ∧ ((addFilterToGroup s w g).m_widgets w).group = g := by
  unfold addFilterToGroup
  by_cases hg : g = 0
  · have hv : (!Id.isValid g) = true := (Id.isValid_eq_false_iff g).mpr hg
    rw [if_pos hv]
    refine ⟨?_, ?_, ?_, ?_⟩
    · intro k
      simp [cachedTracks, State.modifyWidget, hg]
    · intro p
      simp only [State.modifyWidget, Function.update_apply]
      by_cases hp : p = w
      · simp [hp, FilterWidget.setGroup, FilterWidget.setIndex, FilterWidget.isActive]
      · simp [hp]
    · intro p hp
      simp [State.modifyWidget, Function.update_apply, hp]
    · simp [State.modifyWidget, FilterWidget.setGroup, FilterWidget.setIndex, hg]
  · have hv : ¬ ((!Id.isValid g) = true) := fun h => hg ((Id.isValid_eq_false_iff g).mp h)
    have hl := FilterGroups.lookup_index s.m_groups g g
    simp only [if_true] at hl
    rw [if_neg hv]
    simp only [hl]
    refine ⟨?_, ?_, ?_, ?_⟩
    · intro k
      simp only [cachedTracks, State.modifyWidget, FilterGroups.lookup_index_assign]
      by_cases hk : k = g
      · simp [hk, hg, getD_empty_filteredTracks]
      · simp [hk]
    · intro p
      simp only [State.modifyWidget, Function.update_apply]
      by_cases hp : p = w
      · simp [hp, FilterWidget.setGroup, FilterWidget.setIndex, FilterWidget.isActive]
      · simp [hp]
    · intro p hp
      simp [State.modifyWidget, Function.update_apply, hp]
    · simp [State.modifyWidget, FilterWidget.setGroup, FilterWidget.setIndex]

theorem setIndexes_isActive (h : Ptr → FilterWidget) (fs : List Ptr) (i : Int) (p : Ptr) :
    (setIndexes h fs i p).isActive = (h p).isActive :=
  setIndexes_proj FilterWidget.isActive (fun _ _ => rfl) h fs i p

theorem setIndexes_filteredTracks (h : Ptr → FilterWidget) (fs : List Ptr) (i : Int) (p : Ptr) :
    (setIndexes h fs i p).filteredTracks = (h p).filteredTracks :=
  setIndexes_proj FilterWidget.filteredTracks (fun _ _ => rfl) h fs i p

/-- The caches after the member sequence of group `k` was replaced by `rest`
and the group erased when `rest` is empty. -/
theorem cachedTracks_after_erase (s : State) (k : Id) (group : FilterGroup) (rest : List Ptr)
    (hk : s.m_groups.lookup k = some group) (s' : State)
    (hg : s'.m_groups
      = if rest.isEmpty then (s.m_groups.assign k { group with filters := rest }).erase k
        else s.m_groups.assign k { group with filters := rest }) (k' : Id) :
    cachedTracks s' k'
      = if k' = k then (if rest = [] then none else cachedTracks s k) else cachedTracks s k' := by
  simp only [cachedTracks, hg]
  by_cases he : rest = []
  · simp only [he, List.isEmpty_nil, if_true, FilterGroups.lookup_erase,
      FilterGroups.lookup_assign_of_some _ _ _ _ _ hk]
    by_cases hkk : k' = k <;> simp [hkk]
  · have he' : rest.isEmpty = false := by simpa using he
    simp only [he, he', if_false, Bool.false_eq_true,
      FilterGroups.lookup_assign_of_some _ _ _ _ _ hk]
    by_cases hkk : k' = k <;> simp [hkk, hk]

/-- A loop that calls a method on one widget per step leaves the registry alone
and only touches the widgets it visits. -/
theorem foldl_step_frame (step : State → Ptr → State)
    (hG : ∀ st p, (step st p).m_groups = st.m_groups)
    (hW : ∀ st p q, q ≠ p → (step st p).m_widgets q = st.m_widgets q) (l : List Ptr)
    (s : State) :
    (l.foldl step s).m_groups = s.m_groups
      ∧ ∀ q, q ∉ l → (l.foldl step s).m_widgets q = s.m_widgets q := by
  induction l generalizing s with
  | nil => exact ⟨rfl, fun _ _ => rfl⟩
  | cons p l ih =>
    obtain ⟨h1, h2⟩ := ih (step s p)
    refine ⟨h1.trans (hG s p), ?_⟩
    intro q hq
    simp only [List.mem_cons, not_or] at hq
    rw [List.foldl_cons, h2 q hq.2, hW s p q hq.1]

/-- The loops of `clearActiveFilters` and `selectionChanged`: the widgets with
an index above `resetIndex` get a method called that leaves them inactive, all
others are untouched. -/
theorem guardedLoop_frame (f : State → FilterWidget → FilterWidget) (resetIndex : Int)
    (hidx : ∀ st x, (f st x).index = x.index) (hina : ∀ st x, (f st x).isActive = false)
    (l : List Ptr) (s : State) :
    (l.foldl (fun st p =>
        if (st.m_widgets p).index > resetIndex then st.modifyWidget p (f st) else st) s).m_groups
        = s.m_groups
      ∧ (∀ q, ((l.foldl (fun st p =>
            if (st.m_widgets p).index > resetIndex then st.modifyWidget p (f st) else st)
            s).m_widgets q).index = (s.m_widgets q).index)
      ∧ (∀ q, (q ∉ l ∨ ¬ (s.m_widgets q).index > resetIndex) →
          (l.foldl (fun st p =>
            if (st.m_widgets p).index > resetIndex then st.modifyWidget p (f st) else st)
            s).m_widgets q = s.m_widgets q)
      ∧ (∀ q, q ∈ l → (s.m_widgets q).index > resetIndex →
          ((l.foldl (fun st p =>
            if (st.m_widgets p).index > resetIndex then st.modifyWidget p (f st) else st)
            s).m_widgets q).isActive = false) := by
  induction l generalizing s with
  | nil =>
    refine ⟨rfl, fun _ => rfl, fun _ _ => rfl, ?_⟩
    intro q hq
    exact absurd hq (List.not_mem_nil q)
  | cons p l ih =>
    rw [List.foldl_cons]
    generalize hs1 : (if (s.m_widgets p).index > resetIndex then s.modifyWidget p (f s) else s)
      = s1
    have hg1 : s1.m_groups = s.m_groups := by
      rw [← hs1]; split <;> rfl
    have hi1 : ∀ q, (s1.m_widgets q).index = (s.m_widgets q).index := by
      intro q
      rw [← hs1]
      split
      · simp only [State.modifyWidget, Function.update_apply]
        by_cases hq : q = p
        · simp [hq, hidx]
        · simp [hq]
      · rfl
    have hw1 : ∀ q, (q ≠ p ∨ ¬ (s.m_widgets q).index > resetIndex) →
        s1.m_widgets q = s.m_widgets q := by
      intro q hq
      rw [← hs1]
      split
      · rename_i hc
        simp only [State.modifyWidget, Function.update_apply]
        by_cases hqp : q = p
        · rcases hq with hq | hq
          · exact absurd hqp hq
          · rw [hqp] at hq; exact absurd hc hq
        · simp [hqp]
      · rfl
    have ha1 : (s.m_widgets p).index > resetIndex → (s1.m_widgets p).isActive = false := by
      intro hc
      rw [← hs1]
      simp [hc, State.modifyWidget, hina]
    obtain ⟨ih1, ih2, ih3, ih4⟩ := ih s1
    refine ⟨ih1.trans hg1, fun q => (ih2 q).trans (hi1 q), ?_, ?_⟩
    · intro q hq
      have hq1 : q ∉ l ∨ ¬ (s1.m_widgets q).index > resetIndex := by
        rcases hq with hq | hq
        · exact Or.inl (fun h => hq (List.mem_cons_of_mem p h))
        · exact Or.inr (by rw [hi1]; exact hq)
      rw [ih3 q hq1]
      apply hw1
      rcases hq with hq | hq
      · exact Or.inl (fun h => hq (h ▸ List.mem_cons_self p l))
      · exact Or.inr hq
    · intro q hq hc
      by_cases hql : q ∈ l
      · exact ih4 q hql (by rw [hi1]; exact hc)
      · have hqp : q = p := by
          rcases List.mem_cons.mp hq with h | h
          · exact h
          · exact absurd h hql
        rw [ih3 q (Or.inl hql), hqp]
        exact ha1 (hqp ▸ hc)

/-- After a loop that resets every widget of a list, every widget of the list is
inactive. -/
theorem foldl_reset_inactive (m : Track → String → Bool) (g : Id) (q : Ptr) (l : List Ptr)
    (st : State) (h : q ∈ l) :
    ((l.foldl (fun st filterWidget =>
      st.modifyWidget filterWidget (fun w => w.reset m (tracks st g))) st).m_widgets
      q).isActive = false := by
  induction l generalizing st with
  | nil => exact absurd h (List.not_mem_nil q)
  | cons p l ih =>
    rw [List.foldl_cons]
    by_cases hql : q ∈ l
    · exact ih _ hql
    · have hqp : q = p := by
        rcases List.mem_cons.mp h with h | h
        · exact h
        · exact absurd h hql
      have hf := foldl_step_frame
        (fun st filterWidget =>
          st.modifyWidget filterWidget (fun w => w.reset m (tracks st g)))
        (fun _ _ => rfl)
        (fun st p q hq => by simp [State.modifyWidget, Function.update_apply, hq])
        l (st.modifyWidget p (fun w => w.reset m (tracks st g)))
      rw [hf.2 q hql, hqp]
      simp [State.modifyWidget, FilterWidget.reset, FilterWidget.isActive]

/-- The caches and the widgets after `resetGroup`. -/
theorem resetGroup_frame (m : Track → String → Bool) (s : State) (g : Id) :
    (∀ k, cachedTracks (resetGroup m s g) k
        = if k = g then (cachedTracks s g).map (fun _ => []) else cachedTracks s k)
      ∧ (∀ q, q ∉ (filtersOf s g).getD [] → (resetGroup m s g).m_widgets q = s.m_widgets q)
      ∧ (∀ q, q ∈ (filtersOf s g).getD [] →
          ((resetGroup m s g).m_widgets q).isActive = false) := by
  unfold resetGroup
  cases hl : s.m_groups.lookup g with
  | none =>
    refine ⟨?_, fun _ _ => rfl, ?_⟩
    · intro k
      by_cases hk : k = g
      · simp [hk, cachedTracks, hl]
      · simp [hk]
    · intro q hq
      simp [filtersOf, hl] at hq
  | some group =>
    simp only
    generalize hgr : ({ group with filteredTracks := [] } : FilterGroup) = newGroup
    have hnew : newGroup.filteredTracks = [] := by rw [← hgr]
    generalize hs1 : ({ s with m_groups := s.m_groups.assign g newGroup } : State) = s1
    have hs1g : s1.m_groups = s.m_groups.assign g newGroup := by rw [← hs1]
    have hs1w : s1.m_widgets = s.m_widgets := by rw [← hs1]
    have hframe := foldl_step_frame
      (fun st filterWidget => st.modifyWidget filterWidget (fun w => w.reset m (tracks st g)))
      (fun _ _ => rfl)
      (fun st p q hq => by simp [State.modifyWidget, Function.update_apply, hq])
      group.filters s1
    refine ⟨?_, ?_, ?_⟩
    · intro k
      simp only [cachedTracks, hframe.1, hs1g, FilterGroups.lookup_assign_of_some _ _ _ _ _ hl]
      by_cases hk : k = g
      · simp [hk, hl, hnew]
      · simp [hk]
    · intro q hq
      have hq' : q ∉ group.filters := by simpa [filtersOf, hl] using hq
      rw [hframe.2 q hq', hs1w]
    · intro q hq
      have hq' : q ∈ group.filters := by simpa [filtersOf, hl] using hq
      exact foldl_reset_inactive m g q group.filters s1 hq'

/-! ## The cascade invariant along the operations -/

/-- The cache condition of one group carries over when its sequence and cache
are the same and every member kept its activation and matched set, or was and
is inactive. -/
theorem CacheCombined.transfer {s s' : State} (h : CacheCombined s) (k : Id)
    (hf : filtersOf s' k = filtersOf s k) (hc : cachedTracks s' k = cachedTracks s k)
    (hsel : ∀ fs, filtersOf s k = some fs → ∀ p, p ∈ fs →
      ((s'.m_widgets p).isActive = false ∧ (s.m_widgets p).isActive = false)
        ∨ ((s'.m_widgets p).isActive = (s.m_widgets p).isActive
          ∧ (s'.m_widgets p).filteredTracks = (s.m_widgets p).filteredTracks))
    (fs : List Ptr) (cache : TrackList) (hfs : filtersOf s' k = some fs)
    (hcache : cachedTracks s' k = some cache) :
    cache = [] ∨ cache = combineSets (activeSetsOn s'.m_widgets fs) := by
  rw [hf] at hfs
  rw [hc] at hcache
  rw [activeSetsOn_congr s.m_widgets s'.m_widgets fs (hsel fs hfs)]
  exact h k fs cache hfs hcache

theorem sel_of_eq {w w' : FilterWidget} (h : w' = w) :
    (w'.isActive = false ∧ w.isActive = false)
      ∨ (w'.isActive = w.isActive ∧ w'.filteredTracks = w.filteredTracks) :=
  Or.inr ⟨by rw [h], by rw [h]⟩

theorem cached_none_of_filters_none (s : State) (k : Id) (h : filtersOf s k = none) :
    cachedTracks s k = none := by
  unfold filtersOf at h
  unfold cachedTracks
  cases hl : s.m_groups.lookup k with
  | none => rfl
  | some g => simp [hl] at h

theorem filtersOf_createFilter (m : Track → String → Bool) (s : State) (id : Id) :
    filtersOf (createFilter m s id).2
      = Function.update (filtersOf s) s.vdefaultId
          (some ((filtersOf s s.vdefaultId).getD [] ++ [s.nextWidget])) := by
  show (createFilter m s id).2.shape.filters = _
  rw [shape_createFilter, filters_setFilters_of_ne_nil _ _ _ (by simp)]
  rfl

theorem filtersOf_addFilterToGroup (s : State) (w : Ptr) (g : Id) :
    filtersOf (addFilterToGroup s w g)
      = if g = 0 then filtersOf s
        else Function.update (filtersOf s) g (some ((filtersOf s g).getD [] ++ [w])) := by
  show (addFilterToGroup s w g).shape.filters = _
  rw [shape_addFilterToGroup]
  by_cases hg : g = 0
  · simp only [Shape.attach, hg, if_true, Shape.setUngrouped]
    rfl
  · simp only [Shape.attach, hg, if_false, placeWidget_neg_one]
    rw [filters_setFilters_of_ne_nil _ _ _ (by simp)]
    rfl

theorem cascade_init (library : TrackList) (defaultId : Id) (hd : defaultId ≠ 0) :
    CascadeInv (State.init library defaultId) [] := by
  refine ⟨inv_init library defaultId hd, ?_, ?_⟩
  · intro k fs hk
    simp [filtersOf, State.init] at hk
  · intro k fs c hk
    simp [filtersOf, State.init] at hk

theorem cascade_createFilter (m : Track → String → Bool) (s : State) (reg : List Ptr) (id : Id)
    (h : CascadeInv s reg) (hfresh : ∀ p, p < s.nextWidget → (s.m_widgets p).id ≠ id) :
    CascadeInv (createFilter m s id).2 (s.nextWidget :: reg) := by
  obtain ⟨hc, hw, hact, hgrp⟩ := createFilter_frame m s id
  have hnot : s.nextWidget ∉ reg := fun hr => absurd (h.inv.allocated _ hr) (Nat.lt_irrefl _)
  have hmem : ∀ k fs p, filtersOf s k = some fs → p ∈ fs → p ≠ s.nextWidget :=
    fun k fs p hk hp he => h.inv.not_grouped_of_not_reg hnot k fs hk (he ▸ hp)
  refine ⟨inv_createFilter m s reg id h.inv hfresh, ?_, ?_⟩
  · intro k fs hk p hp
    rw [filtersOf_createFilter, Function.update_apply] at hk
    by_cases hkd : k = s.vdefaultId
    · simp only [hkd, if_true, Option.some.injEq] at hk
      rw [← hk, List.mem_append, List.mem_singleton] at hp
      rcases hp with hp | hp
      · cases hgs : filtersOf s s.vdefaultId with
        | none => simp [hgs] at hp
        | some old =>
          rw [hgs] at hp
          rw [hw p (hmem _ old p hgs hp), hkd]
          exact h.groupField _ old hgs p hp
      · rw [hp, hgrp, hkd]
    · simp only [hkd, if_false] at hk
      rw [hw p (hmem k fs p hk hp)]
      exact h.groupField k fs hk p hp
  · intro k fs c hk hcache
    by_cases hkd : k = s.vdefaultId
    · rw [filtersOf_createFilter, Function.update_apply] at hk
      simp only [hkd, if_true, Option.some.injEq] at hk
      rw [hc] at hcache
      simp only [hkd, if_true, Option.some.injEq] at hcache
      cases hgs : filtersOf s s.vdefaultId with
      | none =>
        rw [cached_none_of_filters_none s _ hgs] at hcache
        exact Or.inl hcache.symm
      | some old =>
        rw [hgs] at hk
        simp only [Option.getD_some] at hk
        cases hcs : cachedTracks s s.vdefaultId with
        | none =>
          rw [hcs] at hcache
          exact Or.inl hcache.symm
        | some c0 =>
          rw [hcs] at hcache
          simp only [Option.getD_some] at hcache
          rcases h.cache _ old c0 hgs hcs with h0 | h0
          · exact Or.inl (hcache ▸ h0)
          · right
            rw [← hcache, h0, ← hk, activeSetsOn_append_inactive _ _ _ hact]
            congr 1
            apply (activeSetsOn_congr _ _ old _).symm
            intro p hp
            exact sel_of_eq (hw p (hmem _ old p hgs hp))
    · apply h.cache.transfer k _ _ _ fs c hk hcache
      · rw [filtersOf_createFilter, Function.update_apply]
        simp [hkd]
      · rw [hc]; simp [hkd]
      · intro fs' hk' p hp
        exact sel_of_eq (hw p (hmem k fs' p hk' hp))

theorem cascade_addFilterToGroup (s : State) (reg : List Ptr) (w : Ptr) (g : Id)
    (h : CascadeInv s reg) (halloc : w < s.nextWidget) (hw : w ∉ reg)
    (hina : (s.m_widgets w).isActive = false) :
    CascadeInv (addFilterToGroup s w g) (w :: reg) := by
  obtain ⟨hc, hsel, hgo, hgw⟩ := addFilterToGroup_frame s w g
  have hmem : ∀ k fs p, filtersOf s k = some fs → p ∈ fs → p ≠ w :=
    fun k fs p hk hp he => h.inv.not_grouped_of_not_reg hw k fs hk (he ▸ hp)
  have hsel' : ∀ p,
      (((addFilterToGroup s w g).m_widgets p).isActive = false ∧ (s.m_widgets p).isActive = false)
        ∨ (((addFilterToGroup s w g).m_widgets p).isActive = (s.m_widgets p).isActive
          ∧ ((addFilterToGroup s w g).m_widgets p).filteredTracks
              = (s.m_widgets p).filteredTracks) :=
    fun p => Or.inr (hsel p)
  refine ⟨inv_addFilterToGroup s reg w g h.inv halloc hw, ?_, ?_⟩
  · intro k fs hk p hp
    rw [filtersOf_addFilterToGroup] at hk
    by_cases hg : g = 0
    · simp only [hg, if_true] at hk
      rw [hgo p (hmem k fs p hk hp)]
      exact h.groupField k fs hk p hp
    · simp only [hg, if_false, Function.update_apply] at hk
      by_cases hkg : k = g
      · simp only [hkg, if_true, Option.some.injEq] at hk
        rw [← hk, List.mem_append, List.mem_singleton] at hp
        rcases hp with hp | hp
        · cases hgs : filtersOf s g with
          | none => simp [hgs] at hp
          | some old =>
            rw [hgs] at hp
            rw [hgo p (hmem _ old p hgs hp), hkg]
            exact h.groupField _ old hgs p hp
        · rw [hp, hgw, hkg]
      · simp only [hkg, if_false] at hk
        rw [hgo p (hmem k fs p hk hp)]
        exact h.groupField k fs hk p hp
  · intro k fs c hk hcache
    by_cases hkg : k = g ∧ g ≠ 0
    · obtain ⟨hkg, hg⟩ := hkg
      rw [filtersOf_addFilterToGroup] at hk
      simp only [hg, if_false, Function.update_apply, hkg, if_true, Option.some.injEq] at hk
      rw [hc] at hcache
      simp only [hkg, hg, ne_eq, not_false_eq_true, and_self, if_true, Option.some.injEq]
        at hcache
      cases hgs : filtersOf s g with
      | none =>
        rw [cached_none_of_filters_none s _ hgs] at hcache
        exact Or.inl hcache.symm
      | some old =>
        rw [hgs] at hk
        simp only [Option.getD_some] at hk
        cases hcs : cachedTracks s g with
        | none =>
          rw [hcs] at hcache
          exact Or.inl hcache.symm
        | some c0 =>
          rw [hcs] at hcache
          simp only [Option.getD_some] at hcache
          rcases h.cache _ old c0 hgs hcs with h0 | h0
          · exact Or.inl (hcache ▸ h0)
          · right
            have hina' : ((addFilterToGroup s w g).m_widgets w).isActive = false := by
              rw [(hsel w).1]; exact hina
            rw [← hcache, h0, ← hk, activeSetsOn_append_inactive _ _ _ hina']
            congr 1
            exact (activeSetsOn_congr _ _ old (fun p _ => hsel' p)).symm
    · apply h.cache.transfer k _ _ _ fs c hk hcache
      · rw [filtersOf_addFilterToGroup]
        by_cases hg : g = 0
        · simp [hg]
        · have : k ≠ g := fun he => hkg ⟨he, hg⟩
          simp [hg, Function.update_apply, this]
      · rw [hc]; simp [hkg]
      · intro fs' _ p _
        exact hsel' p

theorem removeFilter_grouped_cache (s : State) (w : Ptr) (group : FilterGroup)
    (h : ¬ ((s.m_widgets w).group = 0 ∧ s.m_ungrouped.lookup (s.m_widgets w).id ≠ none))
    (hl : s.m_groups.lookup (s.m_widgets w).group = some group) (hw : w ∈ group.filters)
    (k : Id) :
    cachedTracks (removeFilter s w).2 k
      = if k = (s.m_widgets w).group then
          (if eraseWidget group.filters w = [] then none
           else cachedTracks s (s.m_widgets w).group)
        else cachedTracks s k := by
  rw [removeFilter_not_ungrouped s w h]
  have hc : group.filters.contains w = true := by simpa using hw
  simp only [hl, hc, if_true]
  apply cachedTracks_after_erase s _ group (eraseWidget group.filters w) hl
  by_cases he : (eraseWidget group.filters w).isEmpty = true
  · simp only [he, if_true, m_groups_recalculateIndexesOfGroup]
  · have he' : (eraseWidget group.filters w).isEmpty = false := by simpa using he
    simp only [he', Bool.false_eq_true, if_false, m_groups_recalculateIndexesOfGroup]

theorem filtersOf_removeFilter_grouped (s : State) (w : Ptr) (group : FilterGroup)
    (h : ¬ ((s.m_widgets w).group = 0 ∧ s.m_ungrouped.lookup (s.m_widgets w).id ≠ none))
    (hl : s.m_groups.lookup (s.m_widgets w).group = some group) (hw : w ∈ group.filters) :
    filtersOf (removeFilter s w).2
      = Function.update (filtersOf s) (s.m_widgets w).group
          (if eraseWidget group.filters w = [] then none
           else some (eraseWidget group.filters w)) := by
  show (removeFilter s w).2.shape.filters = _
  rw [(removeFilter_grouped s w group h hl hw).2.1]
  rfl

theorem cascade_removeFilter (s : State) (reg : List Ptr) (w : Ptr) (h : CascadeInv s reg)
    (halloc : w < s.nextWidget) (hina : (s.m_widgets w).isActive = false) :
    CascadeInv (removeFilter s w).2
      (if (removeFilter s w).1 then reg.filter (fun x => x ≠ w) else reg) := by
  suffices hrest : GroupField (removeFilter s w).2 ∧ CacheCombined (removeFilter s w).2 from
    ⟨inv_removeFilter s reg w h.inv halloc, hrest.1, hrest.2⟩
  by_cases hu : (s.m_widgets w).group = 0 ∧ s.m_ungrouped.lookup (s.m_widgets w).id ≠ none
  · rw [removeFilter_ungrouped s w hu.1 hu.2]
    exact ⟨h.groupField, h.cache⟩
  · cases hl : s.m_groups.lookup (s.m_widgets w).group with
    | none =>
      rw [removeFilter_not_found s w hu (by intro fs hf; simp [filtersOf, hl] at hf)]
      exact ⟨h.groupField, h.cache⟩
    | some group =>
      by_cases hw : w ∈ group.filters
      · have hgs : filtersOf s (s.m_widgets w).group = some group.filters := by
          simp [filtersOf, hl]
        have hcs : cachedTracks s (s.m_widgets w).group = some group.filteredTracks := by
          simp [cachedTracks, hl]
        have hf := filtersOf_removeFilter_grouped s w group hu hl hw
        have hc := removeFilter_grouped_cache s w group hu hl hw
        have hwid := (removeFilter_grouped s w group hu hl hw).2.2.1
        have hsel : ∀ p,
            (((removeFilter s w).2.m_widgets p).isActive = false
                ∧ (s.m_widgets p).isActive = false)
              ∨ (((removeFilter s w).2.m_widgets p).isActive = (s.m_widgets p).isActive
                ∧ ((removeFilter s w).2.m_widgets p).filteredTracks
                    = (s.m_widgets p).filteredTracks) := by
          intro p
          rw [hwid]
          exact Or.inr ⟨setIndexes_isActive _ _ _ p, setIndexes_filteredTracks _ _ _ p⟩
        refine ⟨?_, ?_⟩
        · intro k fs hk p hp
          rw [hwid, setIndexes_group]
          rw [hf, Function.update_apply] at hk
          by_cases hkg : k = (s.m_widgets w).group
          · simp only [hkg, if_true] at hk
            by_cases he : eraseWidget group.filters w = []
            · simp [he] at hk
            · simp only [he, if_false, Option.some.injEq] at hk
              rw [← hk] at hp
              rw [hkg]
              exact h.groupField _ _ hgs p (List.mem_filter.mp hp).1
          · simp only [hkg, if_false] at hk
            exact h.groupField k fs hk p hp
        · intro k fs c hk hcache
          by_cases hkg : k = (s.m_widgets w).group
          · rw [hf, Function.update_apply] at hk
            rw [hc] at hcache
            simp only [hkg, if_true] at hk hcache
            by_cases he : eraseWidget group.filters w = []
            · simp [he] at hk
            · simp only [he, if_false, Option.some.injEq] at hk
              simp only [he, if_false, hcs, Option.some.injEq] at hcache
              rcases h.cache _ _ _ hgs hcs with h0 | h0
              · exact Or.inl (hcache ▸ h0)
              · right
                rw [← hcache, h0, ← hk]
                congr 1
                rw [activeSetsOn_congr s.m_widgets _ _ (fun p _ => hsel p)]
                exact (activeSetsOn_erase_inactive s.m_widgets group.filters w hina).symm
          · apply h.cache.transfer k _ _ _ fs c hk hcache
            · rw [hf, Function.update_apply]; simp [hkg]
            · rw [hc]; simp [hkg]
            · intro fs' _ p _
              exact hsel p
      · rw [removeFilter_not_found s w hu (by
          intro fs hf
          simp only [filtersOf, hl, Option.map_some', Option.some.injEq] at hf
          rw [← hf]; exact hw)]
        exact ⟨h.groupField, h.cache⟩

theorem CascadeInv.of_contentOnly {s s' : State} {reg : List Ptr} (h : CascadeInv s reg)
    (hco : ContentOnly s s') (hcache : CacheCombined s') : CascadeInv s' reg := by
  refine ⟨by rw [hco.shape_eq]; exact h.inv, ?_, hcache⟩
  intro k fs hk p hp
  rw [hco.filters] at hk
  rw [hco.group]
  exact h.groupField k fs hk p hp

theorem cascade_resetGroup (m : Track → String → Bool) (s : State) (reg : List Ptr) (g : Id)
    (h : CascadeInv s reg) : CascadeInv (resetGroup m s g) reg := by
  have hco := ContentOnly.resetGroup m s g
  obtain ⟨hc, hw, _⟩ := resetGroup_frame m s g
  apply h.of_contentOnly hco
  intro k fs c hk hcache
  by_cases hkg : k = g
  · rw [hc] at hcache
    simp only [hkg, if_true] at hcache
    cases hcs : cachedTracks s g with
    | none => simp [hcs] at hcache
    | some c0 =>
      simp only [hcs, Option.map_some', Option.some.injEq] at hcache
      exact Or.inl hcache.symm
  · apply h.cache.transfer k (hco.filters k) _ _ fs c hk hcache
    · rw [hc]; simp [hkg]
    · intro fs' hk' p hp
      apply sel_of_eq
      apply hw
      cases hgs : filtersOf s g with
      | none => simp
      | some fsg =>
        simp only [Option.getD_some]
        intro hpg
        exact hkg (h.inv.disjoint k fs' g fsg p hk' hgs hp hpg)

/-- A method that is called on a widget outside every group, and keeps its
identity, index and group, keeps the cascade invariant. -/
theorem cascade_modify_outside (s : State) (reg : List Ptr) (w : Ptr)
    (f : FilterWidget → FilterWidget) (h : CascadeInv s reg)
    (hid : ∀ x, (f x).id = x.id) (hindex : ∀ x, (f x).index = x.index)
    (hgroup : ∀ x, (f x).group = x.group)
    (hout : ∀ k fs, filtersOf s k = some fs → w ∉ fs) :
    CascadeInv (s.modifyWidget w f) reg := by
  have hco := ContentOnly.modifyWidget s w f hid hindex hgroup
  apply h.of_contentOnly hco
  intro k fs c hk hcache
  apply h.cache.transfer k (hco.filters k) rfl _ fs c hk hcache
  intro fs' hk' p hp
  apply sel_of_eq
  have hpw : p ≠ w := fun he => hout k fs' hk' (he ▸ hp)
  simp [State.modifyWidget, Function.update_apply, hpw]

theorem cascade_resetAll (m : Track → String → Bool) (s : State) (reg : List Ptr)
    (h : CascadeInv s reg) : CascadeInv (resetAll m s) reg := by
  unfold resetAll
  simp only
  have h1 : ∀ (l : List Id) (st : State), CascadeInv st reg →
      CascadeInv (l.foldl (resetGroup m) st) reg := by
    intro l
    induction l with
    | nil => intro st hst; exact hst
    | cons k l ih => intro st hst; exact ih _ (cascade_resetGroup m st reg k hst)
  have hs1 := h1 (s.m_groups.map Prod.fst) s h
  generalize (s.m_groups.map Prod.fst).foldl (resetGroup m) s = s1 at hs1 ⊢
  have h2 : ∀ (l : List Ptr) (st : State), CascadeInv st reg →
      (∀ p, p ∈ l → p ∈ st.m_ungrouped.map Prod.snd) →
      CascadeInv (l.foldl (fun st filterWidget =>
        st.modifyWidget filterWidget (fun w => w.reset m st.m_library)) st) reg := by
    intro l
    induction l with
    | nil => intro st hst _; exact hst
    | cons p l ih =>
      intro st hst hl
      rw [List.foldl_cons]
      apply ih
      · apply cascade_modify_outside st reg p (fun w => w.reset m st.m_library) hst
          (fun _ => rfl) (fun _ => rfl) (fun _ => rfl)
        intro k fs hk
        have hp := hl p (List.mem_cons_self p l)
        have hlk := (mem_ungrouped_values_iff st reg hst.inv p).mp hp
        exact hst.inv.ungrouped_not_grouped _ p hlk k fs hk
      · intro q hq
        exact hl q (List.mem_cons_of_mem p hq)
  exact h2 _ s1 hs1 (fun p hp => hp)

/-- The caches and the widgets after `selectionChanged`: only the cache of the
widget's group is written, and it holds the combination of the matched sets of
the members that are active afterwards. -/
theorem selectionChanged_frame (m : Track → String → Bool) (s : State) (w : Ptr) :
    (∀ k, k ≠ (s.m_widgets w).group →
        cachedTracks (selectionChanged m s w) k = cachedTracks s k)
      ∧ (∀ fs c, filtersOf s (s.m_widgets w).group = some fs →
          cachedTracks (selectionChanged m s w) (s.m_widgets w).group = some c →
          c = combineSets (activeSetsOn (selectionChanged m s w).m_widgets fs))
      ∧ (∀ q, (∀ fs, filtersOf s (s.m_widgets w).group = some fs → q ∉ fs) →
          (selectionChanged m s w).m_widgets q = s.m_widgets q) := by
  unfold selectionChanged
  simp only
  cases hl : s.m_groups.lookup (s.m_widgets w).group with
  | none =>
    have h1 : clearActiveFilters s (s.m_widgets w).group (s.m_widgets w).index = s := by
      unfold clearActiveFilters
      rw [hl]
    have h2 : getFilteredTracks s (s.m_widgets w).group = s := by
      unfold getFilteredTracks
      rw [hl]
    rw [h1, h2, hl]
    refine ⟨fun _ _ => rfl, ?_, fun _ _ => rfl⟩
    intro fs c hfs
    simp [filtersOf, hl] at hfs
  | some group =>
    have hclear := guardedLoop_frame (fun _ x => x.clearFilteredTracks) (s.m_widgets w).index
      (fun _ _ => rfl) (fun _ _ => rfl) group.filters s
    have h1 : clearActiveFilters s (s.m_widgets w).group (s.m_widgets w).index
        = group.filters.foldl (fun st p =>
            if (st.m_widgets p).index > (s.m_widgets w).index
            then st.modifyWidget p (fun x => x.clearFilteredTracks) else st) s := by
      unfold clearActiveFilters
      rw [hl]
    rw [h1]
    generalize group.filters.foldl (fun st p =>
        if (st.m_widgets p).index > (s.m_widgets w).index
        then st.modifyWidget p (fun x => x.clearFilteredTracks) else st) s = s1 at hclear ⊢
    obtain ⟨hc1, hc2, hc3, hc4⟩ := hclear
    have hl1 : s1.m_groups.lookup (s.m_widgets w).group = some group := by rw [hc1]; exact hl
    have hl2 := lookup_getFilteredTracks s1 (s.m_widgets w).group
    have hw2 := m_widgets_getFilteredTracks s1 (s.m_widgets w).group
    generalize getFilteredTracks s1 (s.m_widgets w).group = s2 at hl2 hw2 ⊢
    have hl2g := hl2 (s.m_widgets w).group
    simp only [if_true, hl1, Option.map_some'] at hl2g
    rw [hl2g]
    simp only
    have hreset := guardedLoop_frame (fun st x => x.reset m (tracks st (s.m_widgets w).group))
      (s.m_widgets w).index (fun _ _ => rfl) (fun _ _ => rfl) group.filters s2
    generalize group.filters.foldl (fun st p =>
        if (st.m_widgets p).index > (s.m_widgets w).index
        then st.modifyWidget p (fun x => x.reset m (tracks st (s.m_widgets w).group))
        else st) s2 = r at hreset ⊢
    obtain ⟨hr1, hr2, hr3, hr4⟩ := hreset
    have hfs : filtersOf s (s.m_widgets w).group = some group.filters := by
      simp [filtersOf, hl]
    refine ⟨?_, ?_, ?_⟩
    · intro k hk
      simp only [cachedTracks, hr1, hl2 k, hk, if_false, hc1]
    · intro fs c hfs' hc
      rw [hfs] at hfs'
      simp only [Option.some.injEq] at hfs'
      subst hfs'
      simp only [cachedTracks, hr1, hl2g, Option.map_some', Option.some.injEq] at hc
      rw [← hc, combineActive_activeFilters]
      congr 1
      apply (activeSetsOn_congr _ _ _ _).symm
      intro p hp
      by_cases hidx : (s.m_widgets p).index > (s.m_widgets w).index
      · left
        refine ⟨?_, ?_⟩
        · apply hr4 p hp
          rw [hw2, hc2]
          exact hidx
        · exact hc4 p hp hidx
      · apply sel_of_eq
        rw [hr3 p (Or.inr (by rw [hw2, hc2]; exact hidx)), hw2]
    · intro q hq
      have hq' : q ∉ group.filters := hq group.filters hfs
      rw [hr3 q (Or.inl hq'), hw2, hc3 q (Or.inl hq')]

theorem cascade_selectionChanged (m : Track → String → Bool) (s : State) (reg : List Ptr)
    (w : Ptr) (selected : TrackList) (active : Bool) (h : CascadeInv s reg) :
    CascadeInv (selectionChanged m (select s w selected active) w) reg := by
  have hco1 := ContentOnly.select s w selected active
  have hco2 := ContentOnly.selectionChanged m (select s w selected active) w
  have hco := hco1.trans hco2
  have hgrp : ((select s w selected active).m_widgets w).group = (s.m_widgets w).group :=
    hco1.group w
  obtain ⟨hf1, hf2, hf3⟩ := selectionChanged_frame m (select s w selected active) w
  rw [hgrp] at hf1 hf2 hf3
  apply h.of_contentOnly hco
  intro k fs c hk hcache
  by_cases hkg : k = (s.m_widgets w).group
  · right
    rw [hkg] at hk hcache
    rw [hco2.filters] at hk
    exact hf2 fs c hk hcache
  · apply h.cache.transfer k (hco.filters k) (hf1 k hkg) _ fs c hk hcache
    intro fs' hk' p hp
    apply sel_of_eq
    have hpw : p ≠ w := by
      intro he
      exact hkg (h.groupField k fs' hk' w (he ▸ hp)).symm
    have hout : ∀ fsg, filtersOf (select s w selected active) (s.m_widgets w).group = some fsg →
        p ∉ fsg := by
      intro fsg hg hpg
      exact hkg (h.inv.disjoint k fs' _ fsg p hk' hg hp hpg)
    rw [hf3 p hout]
    simp [select, State.modifyWidget, Function.update_apply, hpw]

/-- The block "Remove from old group" changes no field of a widget but the
index. -/
theorem removeFromOldGroup_proj {α : Type} (proj : FilterWidget → α)
    (hproj : ∀ x j, proj (x.setIndex j) = proj x) (s : State) (w : Ptr) (old : Id) (p : Ptr) :
    proj ((removeFromOldGroup s w old).m_widgets p) = proj (s.m_widgets p) := by
  rw [(removeFromOldGroup_spec s w old).2]
  split
  · rfl
  · cases filtersOf s old with
    | none => rfl
    | some fs =>
      simp only
      split
      · exact setIndexes_proj proj hproj _ _ _ _
      · rfl

/-- The block "Add to new group" changes no field of a widget but the index. -/
theorem addToNewGroup_proj {α : Type} (proj : FilterWidget → α)
    (hproj : ∀ x j, proj (x.setIndex j) = proj x) (s : State) (w : Ptr) (g : Id) (p : Ptr) :
    proj ((addToNewGroup s w g).m_widgets p) = proj (s.m_widgets p) := by
  rw [(addToNewGroup_spec s w g).2]
  split
  · rfl
  · exact setIndexes_proj proj hproj _ _ _ _

theorem cachedTracks_removeFromOldGroup (s : State) (w : Ptr) (old k : Id) (hk : k ≠ old) :
    cachedTracks (removeFromOldGroup s w old) k = cachedTracks s k := by
  unfold removeFromOldGroup
  split
  · rfl
  · cases hl : s.m_groups.lookup old with
    | none => rfl
    | some group =>
      simp only
      split
      · rw [cachedTracks_after_erase s old group (eraseWidget group.filters w) hl _ _ k]
        · rw [if_neg hk]
        · rw [m_groups_recalculateIndexesOfGroup]
          split <;> rfl
      · rfl

theorem cachedTracks_addToNewGroup (s : State) (w : Ptr) (g k : Id) (hk : k ≠ g) :
    cachedTracks (addToNewGroup s w g) k = cachedTracks s k := by
  unfold addToNewGroup
  split
  · rfl
  · have hl := FilterGroups.lookup_index s.m_groups g g
    simp only [if_true] at hl
    simp only [hl]
    simp only [cachedTracks, m_groups_recalculateIndexesOfGroup,
      FilterGroups.lookup_index_assign, hk, if_false]

namespace Shape

theorem filters_detach_ne (sh : Shape) (w : Ptr) (old k : Id) (hk : k ≠ old) :
    (sh.detach w old).filters k = sh.filters k := by
  unfold detach
  split
  · rfl
  · split
    · rfl
    · split
      · rw [filters_setFilters, if_neg hk]
      · rfl

theorem filters_attach_ne (sh : Shape) (w : Ptr) (g k : Id) (i : Int) (hk : k ≠ g) :
    (sh.attach w g i).filters k = sh.filters k := by
  unfold attach
  split
  · rfl
  · rw [filters_setFilters, if_neg hk]

/-- A member after the removal step was a member before, and is not the removed
node when the key is the valid old group. -/
theorem mem_filters_detach (sh : Shape) (w : Ptr) (old k : Id) (fs : List Ptr) (p : Ptr)
    (h : (sh.detach w old).filters k = some fs) (hp : p ∈ fs) :
    (∃ fs0, sh.filters k = some fs0 ∧ p ∈ fs0) ∧ (k = old → old ≠ 0 → p ≠ w) := by
  unfold detach at h
  by_cases ho : old = 0
  · rw [if_pos ho] at h
    exact ⟨⟨fs, h, hp⟩, fun _ hne => absurd ho hne⟩
  · rw [if_neg ho] at h
    cases hf : sh.filters old with
    | none =>
      simp only [hf] at h
      refine ⟨⟨fs, h, hp⟩, ?_⟩
      intro hko
      rw [hko, hf] at h
      cases h
    | some fs0 =>
      simp only [hf] at h
      by_cases hw : w ∈ fs0
      · rw [if_pos hw, filters_setFilters] at h
        by_cases hko : k = old
        · rw [if_pos hko] at h
          by_cases he : eraseWidget fs0 w = []
          · rw [if_pos he] at h
            cases h
          · rw [if_neg he] at h
            cases h
            have hmem := List.mem_filter.mp hp
            refine ⟨⟨fs0, hko ▸ hf, hmem.1⟩, fun _ _ => ?_⟩
            simpa using hmem.2
        · rw [if_neg hko] at h
          exact ⟨⟨fs, h, hp⟩, fun he => absurd he hko⟩
      · rw [if_neg hw] at h
        refine ⟨⟨fs, h, hp⟩, ?_⟩
        intro hko _ hpw
        rw [hko, hf] at h
        cases h
        exact hw (hpw ▸ hp)

/-- A member after the insertion step is the inserted node, in the requested
group, or was a member before. -/
theorem mem_filters_attach (sh : Shape) (w : Ptr) (g k : Id) (i : Int) (fs : List Ptr) (p : Ptr)
    (h : (sh.attach w g i).filters k = some fs) (hp : p ∈ fs) :
    (p = w ∧ k = g) ∨ (∃ fs0, sh.filters k = some fs0 ∧ p ∈ fs0) := by
  unfold attach at h
  by_cases hg : g = 0
  · rw [if_pos hg] at h
    exact Or.inr ⟨fs, h, hp⟩
  · rw [if_neg hg, filters_setFilters] at h
    by_cases hkg : k = g
    · rw [if_pos hkg, if_neg (placeWidget_ne_nil _ _ _)] at h
      cases h
      rcases (mem_placeWidget _ _ _ _).mp hp with hpw | hpm
      · exact Or.inl ⟨hpw, hkg⟩
      · right
        cases hf : sh.filters g with
        | none => simp [hf] at hpm
        | some fs0 =>
          simp only [hf, Option.getD_some] at hpm
          exact ⟨fs0, hkg ▸ hf, hpm⟩
    · rw [if_neg hkg] at h
      exact Or.inr ⟨fs, h, hp⟩

end Shape

/-- The step `resetGroup` adds its group to the groups whose cache is the
combination of the active members. -/
theorem cascade_resetGroup_on (m : Track → String → Bool) (s : State) (reg : List Ptr) (g : Id)
    (P : Id → Prop) (hinv : s.shape.Inv reg) (hgf : GroupField s)
    (hcache : ∀ k fs c, P k → filtersOf s k = some fs → cachedTracks s k = some c →
      c = [] ∨ c = combineSets (activeSetsOn s.m_widgets fs)) :
    (resetGroup m s g).shape.Inv reg ∧ GroupField (resetGroup m s g)
      ∧ (∀ k fs c, (P k ∨ k = g) → filtersOf (resetGroup m s g) k = some fs →
          cachedTracks (resetGroup m s g) k = some c →
          c = [] ∨ c = combineSets (activeSetsOn (resetGroup m s g).m_widgets fs)) := by
  have hco := ContentOnly.resetGroup m s g
  obtain ⟨hc, hw, _⟩ := resetGroup_frame m s g
  refine ⟨by rw [hco.shape_eq]; exact hinv, ?_, ?_⟩
  · intro k fs hk p hp
    rw [hco.filters] at hk
    rw [hco.group]
    exact hgf k fs hk p hp
  · intro k fs c hP hk hcc
    by_cases hkg : k = g
    · rw [hc] at hcc
      simp only [hkg, if_true] at hcc
      cases hcs : cachedTracks s g with
      | none => simp [hcs] at hcc
      | some c0 =>
        simp only [hcs, Option.map_some', Option.some.injEq] at hcc
        exact Or.inl hcc.symm
    · have hPk : P k := hP.resolve_right hkg
      rw [hco.filters] at hk
      rw [hc, if_neg hkg] at hcc
      have hsame : activeSetsOn (resetGroup m s g).m_widgets fs = activeSetsOn s.m_widgets fs := by
        apply activeSetsOn_congr
        intro p hp
        apply sel_of_eq
        apply hw
        cases hgs : filtersOf s g with
        | none => simp
        | some fsg =>
          simp only [Option.getD_some]
          intro hpg
          exact hkg (hinv.disjoint k fs g fsg p hk hgs hp hpg)
      rw [hsame]
      exact hcache k fs c hPk hk hcc

/-! ## The cascade invariant after a change of group -/

/-- The handler `handleFilterUpdated` keeps the cascade invariant, when the
group field of every member other than the updated node names its group. -/
theorem cascade_handleFilterUpdated (m : Track → String → Bool) (s : State) (reg : List Ptr)
    (w : Ptr) (hinv : s.shape.Inv reg) (hw : w ∈ reg)
    (hgf : ∀ k fs, filtersOf s k = some fs → ∀ p, p ∈ fs → p ≠ w → (s.m_widgets p).group = k)
    (hcache : CacheCombined s) :
    CascadeInv (handleFilterUpdated m s w) reg := by
  have hfind := findContainingGroup_spec s reg hinv w
  by_cases hsame : (s.m_widgets w).group = findContainingGroup s w
  · have hcas : CascadeInv s reg := by
      refine ⟨hinv, ?_, hcache⟩
      intro k fs hk p hp
      by_cases hpw : p = w
      · rw [hpw, hsame]
        exact hfind.1 k fs hk (hpw ▸ hp)
      · exact hgf k fs hk p hp hpw
    unfold handleFilterUpdated
    simp only [hsame, if_true]
    split
    · rename_i hv
      have h0 : findContainingGroup s w = 0 := (Id.isValid_eq_false_iff _).mp hv
      apply cascade_modify_outside s reg w (fun x => x.reset m s.m_library) hcas
        (fun _ => rfl) (fun _ => rfl) (fun _ => rfl)
      intro k fs hk hwf
      have hk0 : findContainingGroup s w = k := hfind.1 k fs hk hwf
      exact hinv.keys_valid k fs hk (hk0 ▸ h0)
    · exact cascade_resetGroup m s reg _ hcas
  · have hinv2 := inv_handleFilterUpdated m s reg w hinv hw
    rw [(handleFilterUpdated_move m s w hsame).shape_eq] at hinv2
    have hres : handleFilterUpdated m s w
        = resetGroup m (resetGroup m
            (addToNewGroup (removeFromOldGroup s w (findContainingGroup s w)) w
              (s.m_widgets w).group) (findContainingGroup s w)) (s.m_widgets w).group := by
      unfold handleFilterUpdated
      simp only [hsame, if_false]
    rw [hres]
    generalize hold : findContainingGroup s w = old at *
    generalize hg : (s.m_widgets w).group = g at *
    have hs1 : ∀ k, filtersOf (removeFromOldGroup s w old) k = (s.shape.detach w old).filters k := by
      intro k
      rw [← (removeFromOldGroup_spec s w old).1]
      rfl
    have hs2 : ∀ k, filtersOf (addToNewGroup (removeFromOldGroup s w old) w g) k
        = ((s.shape.detach w old).attach w g
            ((removeFromOldGroup s w old).m_widgets w).index).filters k := by
      intro k
      rw [← (removeFromOldGroup_spec s w old).1, ← (addToNewGroup_spec _ w g).1]
      rfl
    have hgf2 : GroupField (addToNewGroup (removeFromOldGroup s w old) w g) := by
      intro k fs hk p hp
      rw [addToNewGroup_proj FilterWidget.group (fun _ _ => rfl),
        removeFromOldGroup_proj FilterWidget.group (fun _ _ => rfl)]
      rw [hs2] at hk
      rcases Shape.mem_filters_attach _ _ _ _ _ _ _ hk hp with ⟨hpw, hkg⟩ | ⟨fs1, hk1, hp1⟩
      · rw [hpw, hg, hkg]
      · obtain ⟨⟨fs0, hk0, hp0⟩, hne⟩ := Shape.mem_filters_detach _ _ _ _ _ _ hk1 hp1
        have hpw : p ≠ w := by
          intro he
          have hko : old = k := hfind.1 k fs0 hk0 (he ▸ hp0)
          exact hne hko.symm (hko ▸ hinv.keys_valid k fs0 hk0) he
        exact hgf k fs0 hk0 p hp0 hpw
    have hc2 : ∀ k fs c, (k ≠ old ∧ k ≠ g) →
        filtersOf (addToNewGroup (removeFromOldGroup s w old) w g) k = some fs →
        cachedTracks (addToNewGroup (removeFromOldGroup s w old) w g) k = some c →
        c = [] ∨ c = combineSets
          (activeSetsOn (addToNewGroup (removeFromOldGroup s w old) w g).m_widgets fs) := by
      intro k fs c hk hfs hcc
      apply hcache.transfer k _ _ _ fs c hfs hcc
      · rw [hs2, Shape.filters_attach_ne _ _ _ _ _ hk.2, Shape.filters_detach_ne _ _ _ _ hk.1]
        rfl
      · rw [cachedTracks_addToNewGroup _ _ _ _ hk.2, cachedTracks_removeFromOldGroup _ _ _ _ hk.1]
      · intro fs' _ p _
        right
        refine ⟨?_, ?_⟩
        · rw [addToNewGroup_proj FilterWidget.isActive (fun _ _ => rfl),
            removeFromOldGroup_proj FilterWidget.isActive (fun _ _ => rfl)]
        · rw [addToNewGroup_proj FilterWidget.filteredTracks (fun _ _ => rfl),
            removeFromOldGroup_proj FilterWidget.filteredTracks (fun _ _ => rfl)]
    obtain ⟨hi3, hgf3, hc3⟩ := cascade_resetGroup_on m _ reg old (fun k => k ≠ old ∧ k ≠ g)
      hinv2 hgf2 hc2
    obtain ⟨hi4, hgf4, hc4⟩ := cascade_resetGroup_on m _ reg g
      (fun k => (k ≠ old ∧ k ≠ g) ∨ k = old) hi3 hgf3 hc3
    refine ⟨hi4, hgf4, ?_⟩
    intro k fs c hk hcc
    apply hc4 k fs c _ hk hcc
    by_cases hkg : k = g
    · exact Or.inr hkg
    · by_cases hko : k = old
      · exact Or.inl (Or.inr hko)
      · exact Or.inl (Or.inl ⟨hko, hkg⟩)

/-- A node that records a requested group and index and raises `filterUpdated`
keeps the cascade invariant. -/
theorem cascade_filterUpdated (m : Track → String → Bool) (s : State) (reg : List Ptr)
    (w : Ptr) (g : Id) (i : Int) (h : CascadeInv s reg) (hw : w ∈ reg) :
    CascadeInv (handleFilterUpdated m (requestGroup s w g i) w) reg := by
  have hne : ∀ p, p ≠ w → (requestGroup s w g i).m_widgets p = s.m_widgets p := by
    intro p hp
    simp [requestGroup, State.modifyWidget, Function.update_apply, hp]
  apply cascade_handleFilterUpdated
  · rw [shape_requestGroup]; exact h.inv
  · exact hw
  · intro k fs hk p hp hpw
    rw [hne p hpw]
    exact h.groupField k fs hk p hp
  · intro k fs c hk hcc
    refine @CacheCombined.transfer s (requestGroup s w g i) h.cache k rfl rfl ?_ fs c hk hcc
    intro fs' _ p _
    by_cases hpw : p = w
    · right
      rw [hpw]
      simp [requestGroup, State.modifyWidget, FilterWidget.setGroup, FilterWidget.setIndex,
        FilterWidget.isActive]
    · exact sel_of_eq (hne p hpw)

/-- Every state reachable through the cascade operations satisfies the cascade
invariant. -/
theorem ReachCascade.cascadeInv {m : Track → String → Bool} {library : TrackList}
    {defaultId : Id} {s : State} {reg : List Ptr} (hd : defaultId ≠ 0)
    (h : ReachCascade m library defaultId s reg) : CascadeInv s reg := by
  induction h with
  | init => exact cascade_init library defaultId hd
  | createFilter s reg id _ hfresh ih => exact cascade_createFilter m s reg id ih hfresh
  | addFilterToGroup s reg w g _ halloc hw hina ih =>
    exact cascade_addFilterToGroup s reg w g ih halloc hw hina
  | removeFilter s reg w _ halloc hina ih => exact cascade_removeFilter s reg w ih halloc hina
  | filterUpdated s reg w g i _ hw ih => exact cascade_filterUpdated m s reg w g i ih hw
  | selectionChanged s reg w sel act _ _ ih => exact cascade_selectionChanged m s reg w sel act ih
  | resetGroup s reg g _ ih => exact cascade_resetGroup m s reg g ih
  | resetAll s reg _ ih => exact cascade_resetAll m s reg ih

/-! ## The cached combined set -/

/-- C6, as amended: in every state reachable through `createFilter`,
`addFilterToGroup` of an inactive node that is not registered, `removeFilter`
of an inactive node, `handleFilterUpdated`, `selectionChanged`, `resetGroup`
and `resetAll`, the cached combined set of every group is empty or equal to
the combination that `getFilteredTracks` computes over the matched sets of the
currently active members, which is their intersection in index order whenever
no intersection of a proper non-empty prefix of these sets is empty. -/
theorem cache_is_combination_of_active_sets (m : Track → String → Bool) (library : TrackList)
    (defaultId : Id) (hd : defaultId ≠ 0) (s : State) (reg : List Ptr)
    (h : ReachCascade m library defaultId s reg) :
    ∀ kv ∈ s.m_groups,
      kv.2.filteredTracks = []
        ∨ (kv.2.filteredTracks = combineActive s.m_widgets (activeFilters s kv.2)
            ∧ (NoEmptyPrefix (activeSets s kv.2) →
                kv.2.filteredTracks = intersectAll (activeSets s kv.2))) := by
  intro kv hkv
  have hc := h.cascadeInv hd
  have hl : s.m_groups.lookup kv.1 = some kv.2 := lookup_eq_some_of_mem hc.inv.keys_nodup hkv
  have hfs : filtersOf s kv.1 = some kv.2.filters := by simp [filtersOf, hl]
  have hcs : cachedTracks s kv.1 = some kv.2.filteredTracks := by simp [cachedTracks, hl]
  rcases hc.cache kv.1 _ _ hfs hcs with h0 | h0
  · exact Or.inl h0
  · right
    refine ⟨?_, ?_⟩
    · rw [combineActive_activeFilters]
      exact h0
    · intro hne
      rw [h0, activeSets_eq_activeSetsOn]
      exact combineSets_eq_intersectAll _ hne

/-- The C6 theorem applied to the state after `createFilter` and the selection
of both tracks of the library in the new node, at the group `7` of that state,
whose cache holds both tracks. -/
theorem cache_is_combination_of_active_sets_witness :
    (7, FilterGroup.mk 7 [0] twoLibraries 0) ∈ selectedState.m_groups
      ∧ (twoLibraries = []
          ∨ (twoLibraries = combineActive selectedState.m_widgets
                (activeFilters selectedState (FilterGroup.mk 7 [0] twoLibraries 0))
              ∧ (NoEmptyPrefix (activeSets selectedState (FilterGroup.mk 7 [0] twoLibraries 0)) →
                  twoLibraries
                    = intersectAll
                        (activeSets selectedState (FilterGroup.mk 7 [0] twoLibraries 0))))) :=
  ⟨by decide,
    cache_is_combination_of_active_sets matchesAll twoLibraries 7 (by decide) _ _
      (ReachCascade.selectionChanged _ _ 0 twoLibraries true
        (ReachCascade.createFilter _ _ 100 ReachCascade.init (by decide)) (by decide))
      (7, FilterGroup.mk 7 [0] twoLibraries 0) (by decide)⟩

/-- C6, counterexample: each of these steps leads from a state in which every
cache is empty or the intersection of the active matched sets to a state in
which one is neither.  `removeLibraryTracks` prunes the matched set of the
active node and leaves the cache; `removeFilter` of the active node leaves its
matched set in the cache; `addFilterToGroup` of an active node leaves the cache
of the group it joins; a selection in a node that `addFilterToGroup` left in two
groups recomputes one cache only; and a selection after two disjoint ones
makes `getFilteredTracks` store the third set where the intersection is
empty. -/
theorem cache_not_intersection_of_active_sets :
    (CacheConsistent selectedState ∧ ¬ CacheConsistent (removeLibraryTracks selectedState 1))
      ∧ (CacheConsistent secondSelectedState
          ∧ ¬ CacheConsistent (removeFilter secondSelectedState 1).2)
      ∧ (CacheConsistent removedActiveState
          ∧ ¬ CacheConsistent (addFilterToGroup removedActiveState 0 7))
      ∧ (CacheConsistent addedTwiceState
          ∧ ¬ CacheConsistent (selectionChanged matchesAll
              (select addedTwiceState 1 [libraryTrack 1 1] true) 1))
      ∧ (CacheConsistent twoDisjointSelections
          ∧ ¬ CacheConsistent (selectionChanged matchesAll
              (select twoDisjointSelections 2 [sampleTrack 3] true) 2)) := by
  decide

/-! ## Moving a node to another group -/

theorem not_mem_eraseWidget (fs : List Ptr) (w : Ptr) : w ∉ eraseWidget fs w := by
  unfold eraseWidget
  simp

theorem index_removeFromOldGroup_self (s : State) (w : Ptr) (old : Id) :
    ((removeFromOldGroup s w old).m_widgets w).index = (s.m_widgets w).index := by
  rw [(removeFromOldGroup_spec s w old).2]
  split
  · rfl
  · cases filtersOf s old with
    | none => rfl
    | some fs =>
      simp only
      split
      · rw [setIndexes_of_not_mem _ _ _ _ (not_mem_eraseWidget fs w)]
      · rfl

/-- The member sequences after a move, by key. -/
theorem filtersOf_handleFilterUpdated_move (m : Track → String → Bool) (s : State) (w : Ptr)
    (h : (s.m_widgets w).group ≠ findContainingGroup s w) (k : Id) :
    filtersOf (handleFilterUpdated m s w) k
      = ((s.shape.detach w (findContainingGroup s w)).attach w (s.m_widgets w).group
          (s.m_widgets w).index).filters k := by
  rw [(handleFilterUpdated_move m s w h).filters k]
  have h2 := (addToNewGroup_spec (removeFromOldGroup s w (findContainingGroup s w)) w
    (s.m_widgets w).group).1
  rw [(removeFromOldGroup_spec s w (findContainingGroup s w)).1,
    index_removeFromOldGroup_self] at h2
  rw [← h2]
  rfl

theorem sublist_placeWidget (fs : List Ptr) (k : Int) (w : Ptr) :
    fs.Sublist (placeWidget fs k w) := by
  unfold placeWidget insertWidget
  split
  · exact List.sublist_append_left fs [w]
  · rename_i hk
    have h1 : (fs.take k.toNat ++ fs.drop k.toNat).Sublist
        (fs.take k.toNat ++ w :: fs.drop k.toNat) :=
      List.Sublist.append (List.Sublist.refl _) (List.sublist_cons_self w _)
    rwa [List.take_append_drop] at h1
/-- C11: when `handleFilterUpdated` moves node `w` to a different valid group
`g` whose sequence is `fs`, the new sequence of `g` is `fs` with `w` inserted at
the requested index `k` when `0 ≤ k ≤ |fs|` and appended when `k < 0` or
`k > |fs|`; `fs` keeps its order in it; and the old group, which held `w`, keeps
the other members and is erased exactly when no member is left. -/
theorem handleFilterUpdated_places_node (m : Track → String → Bool) (s : State) (w : Ptr)
    (g : Id) (k : Int) (fs : List Ptr)
    (hg : (s.m_widgets w).group = g) (hk : (s.m_widgets w).index = k)
    (hfs : (filtersOf s g).getD [] = fs)
    (hvalid : g ≠ 0) (hmove : g ≠ findContainingGroup s w) :
    filtersOf (handleFilterUpdated m s w) g = some (placeWidget fs k w)
      ∧ (0 ≤ k → k ≤ (fs.length : Int) →
          placeWidget fs k w = fs.take k.toNat ++ w :: fs.drop k.toNat)
      ∧ (k < 0 ∨ k > (fs.length : Int) → placeWidget fs k w = fs ++ [w])
      ∧ fs.Sublist (placeWidget fs k w)
      ∧ (∀ group, findContainingGroup s w ≠ 0 →
          s.m_groups.lookup (findContainingGroup s w) = some group → w ∈ group.filters →
          filtersOf (handleFilterUpdated m s w) (findContainingGroup s w)
              = (if eraseWidget group.filters w = [] then none
                 else some (eraseWidget group.filters w))
            ∧ ((handleFilterUpdated m s w).m_groups.lookup (findContainingGroup s w) = none
                ↔ eraseWidget group.filters w = [])) := by
  subst hg hk hfs
  have hf := filtersOf_handleFilterUpdated_move m s w hmove
  refine ⟨?_, ?_, ?_, sublist_placeWidget _ _ _, ?_⟩
  · rw [hf]
    unfold Shape.attach
    rw [if_neg hvalid, Shape.filters_setFilters, if_pos rfl, if_neg (placeWidget_ne_nil _ _ _),
      Shape.filters_detach_ne _ _ _ _ hmove]
    rfl
  · intro h0 hle
    unfold placeWidget insertWidget
    rw [if_neg]
    intro hc
    rcases hc with hc | hc
    · exact absurd h0 (not_le.mpr hc)
    · exact absurd hle (not_le.mpr hc)
  · intro hc
    unfold placeWidget
    rw [if_pos hc]
  · intro group hold hl hw
    have hfo : filtersOf s (findContainingGroup s w) = some group.filters := by
      simp [filtersOf, hl]
    have hres : filtersOf (handleFilterUpdated m s w) (findContainingGroup s w)
        = (if eraseWidget group.filters w = [] then none
           else some (eraseWidget group.filters w)) := by
      rw [hf, Shape.filters_attach_ne _ _ _ _ _ (Ne.symm hmove)]
      unfold Shape.detach
      rw [if_neg hold]
      have hsf : s.shape.filters (findContainingGroup s w) = some group.filters := hfo
      simp only [hsf]
      rw [if_pos hw, Shape.filters_setFilters, if_pos rfl]
    refine ⟨hres, ?_⟩
    have hnone : (handleFilterUpdated m s w).m_groups.lookup (findContainingGroup s w) = none
        ↔ filtersOf (handleFilterUpdated m s w) (findContainingGroup s w) = none := by
      unfold filtersOf
      cases (handleFilterUpdated m s w).m_groups.lookup (findContainingGroup s w) <;> simp
    rw [hnone, hres]
    by_cases he : eraseWidget group.filters w = [] <;> simp [he]

/-- The C11 theorem applied to three nodes created in the default group `7`,
of which the last asks for index `0` in the new group `9` and, after that, the
second asks for index `0` in group `9`. -/
theorem handleFilterUpdated_places_node_witness :
    filtersOf (handleFilterUpdated matchesAll (requestGroup movedState 1 9 0) 1) 9
      = some [1, 2] :=
  (handleFilterUpdated_places_node matchesAll (requestGroup movedState 1 9 0) 1 9 0 [2]
    (by decide) (by decide) (by decide) (by decide) (by decide)).1

/-! ## Full reset of a group -/

theorem FilterWidget.reset_reset (m : Track → String → Bool) (w : FilterWidget)
    (b : TrackList) : (w.reset m b).reset m b = w.reset m b := rfl

/-- The loop of `resetGroup`: the cascade input is the same at every iteration,
every widget of the list ends as its reset against that input, and no other
widget changes. -/
theorem foldl_reset_spec (m : Track → String → Bool) (g : Id) (l : List Ptr) (st : State) :
    (l.foldl (fun st filterWidget =>
        st.modifyWidget filterWidget (fun w => w.reset m (tracks st g))) st).m_groups
        = st.m_groups
      ∧ ∀ q, (l.foldl (fun st filterWidget =>
          st.modifyWidget filterWidget (fun w => w.reset m (tracks st g))) st).m_widgets q
        = if q ∈ l then (st.m_widgets q).reset m (tracks st g) else st.m_widgets q := by
  induction l generalizing st with
  | nil => exact ⟨rfl, fun q => by simp⟩
  | cons p l ih =>
    simp only [List.foldl_cons]
    obtain ⟨ihg, ihw⟩ := ih (st.modifyWidget p (fun w => w.reset m (tracks st g)))
    refine ⟨ihg, ?_⟩
    intro q
    rw [ihw q]
    have ht : tracks (st.modifyWidget p (fun w => w.reset m (tracks st g))) g = tracks st g := rfl
    rw [ht]
    by_cases hqp : q = p
    · subst hqp
      simp [State.modifyWidget, FilterWidget.reset_reset]
    · by_cases hql : q ∈ l
      · simp [State.modifyWidget, Function.update_apply, hqp, hql]
      · simp [State.modifyWidget, Function.update_apply, hqp, hql]

theorem tracks_of_empty_cache (s : State) (g : Id) (h : cachedTracks s g = some []) :
    tracks s g = s.m_library := by
  unfold tracks
  unfold cachedTracks at h
  cases hl : s.m_groups.lookup g with
  | none => rfl
  | some group =>
    simp only [hl, Option.map_some', Option.some.injEq] at h
    simp [h]

/-- The effect of `resetGroup` on an existing group, widget by widget. -/
theorem resetGroup_members (m : Track → String → Bool) (s : State) (g : Id)
    (group : FilterGroup) (hl : s.m_groups.lookup g = some group) :
    tracks { s with m_groups := s.m_groups.assign g { group with filteredTracks := [] } } g
        = s.m_library
      ∧ (∀ p, p ∈ group.filters →
          (resetGroup m s g).m_widgets p = (s.m_widgets p).reset m s.m_library)
      ∧ (∀ p, p ∉ group.filters → (resetGroup m s g).m_widgets p = s.m_widgets p)
      ∧ cachedTracks (resetGroup m s g) g = some []
      ∧ tracks (resetGroup m s g) g = s.m_library
      ∧ (resetGroup m s g).m_groups.map Prod.fst = s.m_groups.map Prod.fst
      ∧ (∀ k, filtersOf (resetGroup m s g) k = filtersOf s k)
      ∧ (resetGroup m s g).m_ungrouped = s.m_ungrouped
      ∧ (∀ p, ((resetGroup m s g).m_widgets p).index = (s.m_widgets p).index) := by
  have hco := ContentOnly.resetGroup m s g
  have hc : cachedTracks (resetGroup m s g) g = some [] := by
    rw [(resetGroup_frame m s g).1 g, if_pos rfl]
    simp [cachedTracks, hl]
  have hcleared : cachedTracks
      { s with m_groups := s.m_groups.assign g { group with filteredTracks := [] } } g
      = some [] := by
    simp [cachedTracks, FilterGroups.lookup_assign, hl]
  have hbase := tracks_of_empty_cache _ g hcleared
  have hlib : (resetGroup m s g).m_library = s.m_library := hco.library
  have hloop := foldl_reset_spec m g group.filters
    { s with m_groups := s.m_groups.assign g { group with filteredTracks := [] } }
  have hres : resetGroup m s g
      = group.filters.foldl (fun st filterWidget =>
          st.modifyWidget filterWidget (fun w => w.reset m (tracks st g)))
          { s with m_groups := s.m_groups.assign g { group with filteredTracks := [] } } := by
    unfold resetGroup
    rw [hl]
  refine ⟨hbase, ?_, ?_, hc, ?_, hco.keys, hco.filters, hco.ungrouped, hco.index⟩
  · intro p hp
    rw [hres, hloop.2 p, if_pos hp, hbase]
  · intro p hp
    rw [hres, hloop.2 p, if_neg hp]
  · rw [tracks_of_empty_cache _ g hc, hlib]


/-- C18: `resetGroup g` on an existing group clears the cache, so that the
cascade input of `g` is the whole library, and every member is reset against
that one base set; afterwards the cache is empty, no other widget has changed,
and the keys, the member sequences, the ungrouped map and every index are the
same. -/
theorem resetGroup_resets_every_member (m : Track → String → Bool) (s : State) (g : Id)
    (group : FilterGroup) (hl : s.m_groups.lookup g = some group) :
    tracks { s with m_groups := s.m_groups.assign g { group with filteredTracks := [] } } g
        = s.m_library
      ∧ (∀ p, p ∈ group.filters →
          (resetGroup m s g).m_widgets p = (s.m_widgets p).reset m s.m_library)
      ∧ (∀ p, p ∉ group.filters → (resetGroup m s g).m_widgets p = s.m_widgets p)
      ∧ cachedTracks (resetGroup m s g) g = some []
      ∧ tracks (resetGroup m s g) g = s.m_library
      ∧ (resetGroup m s g).m_groups.map Prod.fst = s.m_groups.map Prod.fst
      ∧ (∀ k, filtersOf (resetGroup m s g) k = filtersOf s k)
      ∧ (resetGroup m s g).m_ungrouped = s.m_ungrouped
      ∧ (∀ p, ((resetGroup m s g).m_widgets p).index = (s.m_widgets p).index) :=
  resetGroup_members m s g group hl

/-- The C18 theorem applied to the group `7` of the state in which its one
node has both tracks selected: the cache is emptied and the node is reset
against the library. -/
theorem resetGroup_resets_every_member_witness :
    cachedTracks (resetGroup matchesAll selectedState 7) 7 = some []
      ∧ (resetGroup matchesAll selectedState 7).m_widgets 0
          = (selectedState.m_widgets 0).reset matchesAll twoLibraries :=
  ⟨(resetGroup_resets_every_member matchesAll selectedState 7
      (FilterGroup.mk 7 [0] twoLibraries 0) (by decide)).2.2.2.1,
    (resetGroup_resets_every_member matchesAll selectedState 7
      (FilterGroup.mk 7 [0] twoLibraries 0) (by decide)).2.1 0 (by decide)⟩

/-! ## A request that names the current group -/

theorem handleFilterUpdated_same_eq (m : Track → String → Bool) (s : State) (w : Ptr)
    (h : (s.m_widgets w).group = findContainingGroup s w) :
    handleFilterUpdated m s w
      = if (s.m_widgets w).group = 0
        then s.modifyWidget w (fun x => x.reset m s.m_library)
        else resetGroup m s (s.m_widgets w).group := by
  unfold handleFilterUpdated
  simp only [h, if_true]
  by_cases h0 : findContainingGroup s w = 0
  · have hv : (!Id.isValid (findContainingGroup s w)) = true :=
      (Id.isValid_eq_false_iff _).mpr h0
    rw [if_pos hv, if_pos h0]
  · have hv : ¬ ((!Id.isValid (findContainingGroup s w)) = true) :=
      fun hc => h0 ((Id.isValid_eq_false_iff _).mp hc)
    rw [if_neg hv, if_neg h0]

/-- C12, as amended: when the target group of the node equals the group that
contains it, `handleFilterUpdated` leaves the keys, every member sequence, the
ungrouped map and every index as they are; an ungrouped node is reset against
the library and no other widget changes; for a grouped node the cache of the
group is cleared and every member of the group, the other members included,
is reset against the library, while no widget outside the group changes. -/
theorem handleFilterUpdated_same_group (m : Track → String → Bool) (s : State) (w : Ptr)
    (h : (s.m_widgets w).group = findContainingGroup s w) :
    ((handleFilterUpdated m s w).m_groups.map Prod.fst = s.m_groups.map Prod.fst
        ∧ (∀ k, filtersOf (handleFilterUpdated m s w) k = filtersOf s k)
        ∧ (handleFilterUpdated m s w).m_ungrouped = s.m_ungrouped
        ∧ (∀ p, ((handleFilterUpdated m s w).m_widgets p).index = (s.m_widgets p).index))
      ∧ ((s.m_widgets w).group = 0 →
          (handleFilterUpdated m s w).m_widgets w = (s.m_widgets w).reset m s.m_library
            ∧ (∀ p, p ≠ w → (handleFilterUpdated m s w).m_widgets p = s.m_widgets p)
            ∧ (∀ k, cachedTracks (handleFilterUpdated m s w) k = cachedTracks s k))
      ∧ (∀ group, (s.m_widgets w).group ≠ 0 →
          s.m_groups.lookup (s.m_widgets w).group = some group →
          (∀ p, p ∈ group.filters →
              (handleFilterUpdated m s w).m_widgets p = (s.m_widgets p).reset m s.m_library)
            ∧ (∀ p, p ∉ group.filters → (handleFilterUpdated m s w).m_widgets p = s.m_widgets p)
            ∧ cachedTracks (handleFilterUpdated m s w) (s.m_widgets w).group = some []) := by
  have hco := handleFilterUpdated_same m s w h
  refine ⟨⟨hco.keys, hco.filters, hco.ungrouped, hco.index⟩, ?_, ?_⟩
  · intro h0
    rw [handleFilterUpdated_same_eq m s w h, if_pos h0]
    refine ⟨?_, ?_, fun _ => rfl⟩
    · simp [State.modifyWidget]
    · intro p hp
      simp [State.modifyWidget, Function.update_apply, hp]
  · intro group h0 hl
    rw [handleFilterUpdated_same_eq m s w h, if_neg h0]
    have hr := resetGroup_members m s _ group hl
    exact ⟨hr.2.1, hr.2.2.1, hr.2.2.2.1⟩

/-- The C12 theorem applied to the first of two nodes of the group `7`, when
it names the group `7` it is in: the keys of the registry stay `[7]`. -/
theorem handleFilterUpdated_same_group_witness :
    (handleFilterUpdated matchesAll secondSelectedState 0).m_groups.map Prod.fst = [7] :=
  (handleFilterUpdated_same_group matchesAll secondSelectedState 0 (by decide)).1.1

/-- C12, counterexample: in the group `7` with the nodes `0` and `1`, node `1`
is active with the matched set `[t1]`; after `handleFilterUpdated` of node `0`,
whose target group is the group `7` it is in, node `1` is inactive and its
matched set is the whole library. -/
theorem handleFilterUpdated_same_group_resets_others :
    (secondSelectedState.m_widgets 0).group = findContainingGroup secondSelectedState 0
      ∧ findContainingGroup secondSelectedState 1 = 7
      ∧ (secondSelectedState.m_widgets 1).isActive = true
      ∧ (secondSelectedState.m_widgets 1).filteredTracks = [libraryTrack 1 1]
      ∧ ((handleFilterUpdated matchesAll secondSelectedState 0).m_widgets 1).isActive = false
      ∧ ((handleFilterUpdated matchesAll secondSelectedState 0).m_widgets 1).filteredTracks
          = [libraryTrack 1 1, libraryTrack 2 2] := by
  decide

/-! ## The cascade after a selection -/

/-- A loop that calls `f` on every widget of the list whose index exceeds
`resetIndex`, where `f` keeps the index, does not depend on the widgets and is
idempotent: such a widget ends as `f` of what it was, every other widget is
unchanged, and the registry and the library are untouched. -/
theorem guardedLoop_spec (f : State → FilterWidget → FilterWidget) (resetIndex : Int)
    (hidx : ∀ st x, (f st x).index = x.index)
    (hconst : ∀ st p g x, f (st.modifyWidget p g) x = f st x)
    (hidem : ∀ st x, f st (f st x) = f st x) (l : List Ptr) (s : State) :
    (l.foldl (fun st p =>
        if (st.m_widgets p).index > resetIndex then st.modifyWidget p (f st) else st) s).m_groups
        = s.m_groups
      ∧ (l.foldl (fun st p =>
        if (st.m_widgets p).index > resetIndex then st.modifyWidget p (f st) else st) s).m_library
        = s.m_library
      ∧ (∀ x, f (l.foldl (fun st p =>
          if (st.m_widgets p).index > resetIndex then st.modifyWidget p (f st) else st) s) x
        = f s x)
      ∧ ∀ q, (l.foldl (fun st p =>
          if (st.m_widgets p).index > resetIndex then st.modifyWidget p (f st) else st)
          s).m_widgets q
        = if q ∈ l ∧ (s.m_widgets q).index > resetIndex then f s (s.m_widgets q)
          else s.m_widgets q := by
  induction l generalizing s with
  | nil => exact ⟨rfl, rfl, fun _ => rfl, fun q => by simp⟩
  | cons p l ih =>
    simp only [List.foldl_cons]
    by_cases hp : (s.m_widgets p).index > resetIndex
    · rw [if_pos hp]
      obtain ⟨ihg, ihl, ihf, ihw⟩ := ih (s.modifyWidget p (f s))
      refine ⟨ihg, ihl, fun x => by rw [ihf x, hconst], ?_⟩
      intro q
      rw [ihw q]
      by_cases hqp : q = p
      · subst hqp
        have hi : ((s.modifyWidget q (f s)).m_widgets q).index > resetIndex := by
          simp only [State.modifyWidget, Function.update_same, hidx]
          exact hp
        by_cases hql : q ∈ l
        · rw [if_pos ⟨hql, hi⟩, if_pos ⟨List.mem_cons_self q l, hp⟩, hconst]
          simp only [State.modifyWidget, Function.update_same, hidem]
        · rw [if_neg (fun hc => hql hc.1), if_pos ⟨List.mem_cons_self q l, hp⟩]
          simp only [State.modifyWidget, Function.update_same]
      · have hw : (s.modifyWidget p (f s)).m_widgets q = s.m_widgets q := by
          simp [State.modifyWidget, Function.update_apply, hqp]
        rw [hw, hconst]
        by_cases hc : q ∈ l ∧ (s.m_widgets q).index > resetIndex
        · rw [if_pos hc, if_pos ⟨List.mem_cons_of_mem p hc.1, hc.2⟩]
        · rw [if_neg hc, if_neg]
          intro hc'
          rcases List.mem_cons.mp hc'.1 with h1 | h1
          · exact hqp h1
          · exact hc ⟨h1, hc'.2⟩
    · rw [if_neg hp]
      obtain ⟨ihg, ihl, ihf, ihw⟩ := ih s
      refine ⟨ihg, ihl, ihf, ?_⟩
      intro q
      rw [ihw q]
      by_cases hc : q ∈ l ∧ (s.m_widgets q).index > resetIndex
      · rw [if_pos hc, if_pos ⟨List.mem_cons_of_mem p hc.1, hc.2⟩]
      · rw [if_neg hc, if_neg]
        intro hc'
        rcases List.mem_cons.mp hc'.1 with h1 | h1
        · exact hp (h1 ▸ hc'.2)
        · exact hc ⟨h1, hc'.2⟩

theorem FilterWidget.reset_clearFilteredTracks (m : Track → String → Bool) (w : FilterWidget)
    (b : TrackList) : (w.clearFilteredTracks).reset m b = w.reset m b := rfl

/-- The three steps of `selectionChanged` on an existing group, widget by
widget. -/
theorem selectionChanged_spec (m : Track → String → Bool) (s : State) (w : Ptr)
    (group : FilterGroup) (hl : s.m_groups.lookup (s.m_widgets w).group = some group) :
    (clearActiveFilters s (s.m_widgets w).group (s.m_widgets w).index).m_groups = s.m_groups
      ∧ (∀ q, (clearActiveFilters s (s.m_widgets w).group (s.m_widgets w).index).m_widgets q
          = if q ∈ group.filters ∧ (s.m_widgets q).index > (s.m_widgets w).index
            then (s.m_widgets q).clearFilteredTracks else s.m_widgets q)
      ∧ (selectionChanged m s w).m_groups
          = (getFilteredTracks
              (clearActiveFilters s (s.m_widgets w).group (s.m_widgets w).index)
              (s.m_widgets w).group).m_groups
      ∧ (selectionChanged m s w).m_library = s.m_library
      ∧ (∀ q, (selectionChanged m s w).m_widgets q
          = if q ∈ group.filters ∧ (s.m_widgets q).index > (s.m_widgets w).index
            then (s.m_widgets q).reset m (tracks (selectionChanged m s w) (s.m_widgets w).group)
            else s.m_widgets q) := by
  have hclear := guardedLoop_spec (fun _ x => x.clearFilteredTracks) (s.m_widgets w).index
    (fun _ _ => rfl) (fun _ _ _ _ => rfl) (fun _ _ => rfl) group.filters s
  have h1 : clearActiveFilters s (s.m_widgets w).group (s.m_widgets w).index
      = group.filters.foldl (fun st p =>
          if (st.m_widgets p).index > (s.m_widgets w).index
          then st.modifyWidget p (fun x => x.clearFilteredTracks) else st) s := by
    unfold clearActiveFilters
    rw [hl]
  rw [← h1] at hclear
  obtain ⟨hc1, hc2, _, hc4⟩ := hclear
  refine ⟨hc1, hc4, ?_⟩
  unfold selectionChanged
  simp only
  generalize clearActiveFilters s (s.m_widgets w).group (s.m_widgets w).index = s1 at hc1 hc2 hc4 ⊢
  have hl1 : s1.m_groups.lookup (s.m_widgets w).group = some group := by rw [hc1]; exact hl
  have hl2 := lookup_getFilteredTracks s1 (s.m_widgets w).group (s.m_widgets w).group
  have hw2 := m_widgets_getFilteredTracks s1 (s.m_widgets w).group
  have hlib2 := m_library_getFilteredTracks s1 (s.m_widgets w).group
  generalize getFilteredTracks s1 (s.m_widgets w).group = s2 at hl2 hw2 hlib2 ⊢
  simp only [if_true, hl1, Option.map_some'] at hl2
  rw [hl2]
  simp only
  have hreset := guardedLoop_spec
    (fun st x => x.reset m (tracks st (s.m_widgets w).group)) (s.m_widgets w).index
    (fun _ _ => rfl) (fun _ _ _ _ => rfl) (fun _ _ => rfl) group.filters s2
  generalize group.filters.foldl (fun st p =>
      if (st.m_widgets p).index > (s.m_widgets w).index
      then st.modifyWidget p (fun x => x.reset m (tracks st (s.m_widgets w).group))
      else st) s2 = r at hreset ⊢
  obtain ⟨hr1, hr2, hr3, hr4⟩ := hreset
  refine ⟨hr1, by rw [hr2, hlib2, hc2], ?_⟩
  intro q
  have ht : tracks r (s.m_widgets w).group = tracks s2 (s.m_widgets w).group := by
    unfold tracks
    rw [hr1, hr2]
  rw [hr4 q, hw2, hc4 q, ht]
  by_cases hq : q ∈ group.filters ∧ (s.m_widgets q).index > (s.m_widgets w).index
  · have hq' : q ∈ group.filters
        ∧ ((s.m_widgets q).clearFilteredTracks).index > (s.m_widgets w).index := hq
    rw [if_pos hq, if_pos hq', FilterWidget.reset_clearFilteredTracks, if_pos hq]
  · rw [if_neg hq, if_neg hq]

/-- The effect of `selectionChanged` on the cache and on every widget. -/
theorem selectionChanged_members (m : Track → String → Bool) (s : State) (w : Ptr)
    (group : FilterGroup) (hl : s.m_groups.lookup (s.m_widgets w).group = some group) :
    cachedTracks (selectionChanged m s w) (s.m_widgets w).group
        = cachedTracks (getFilteredTracks
            (clearActiveFilters s (s.m_widgets w).group (s.m_widgets w).index)
            (s.m_widgets w).group) (s.m_widgets w).group
      ∧ cachedTracks (selectionChanged m s w) (s.m_widgets w).group
        = some (combineActive
            (clearActiveFilters s (s.m_widgets w).group (s.m_widgets w).index).m_widgets
            (activeFilters (clearActiveFilters s (s.m_widgets w).group (s.m_widgets w).index)
              group))
      ∧ (∀ p, p ∈ group.filters → (s.m_widgets p).index > (s.m_widgets w).index →
          (selectionChanged m s w).m_widgets p
            = (s.m_widgets p).reset m (tracks (selectionChanged m s w) (s.m_widgets w).group))
      ∧ (∀ p, p ∈ group.filters → (s.m_widgets p).index ≤ (s.m_widgets w).index →
          (selectionChanged m s w).m_widgets p = s.m_widgets p)
      ∧ (∀ p, p ∉ group.filters → (selectionChanged m s w).m_widgets p = s.m_widgets p) := by
  obtain ⟨hc1, _, hg, _, hw⟩ := selectionChanged_spec m s w group hl
  have hcache : cachedTracks (selectionChanged m s w) (s.m_widgets w).group
      = cachedTracks (getFilteredTracks
          (clearActiveFilters s (s.m_widgets w).group (s.m_widgets w).index)
          (s.m_widgets w).group) (s.m_widgets w).group := by
    unfold cachedTracks
    rw [hg]
  refine ⟨hcache, ?_, ?_, ?_, ?_⟩
  · rw [hcache]
    unfold cachedTracks
    rw [lookup_getFilteredTracks, if_pos rfl, hc1, hl]
    rfl
  · intro p hp hi
    rw [hw p, if_pos ⟨hp, hi⟩]
  · intro p _ hi
    rw [hw p, if_neg (fun hc => absurd hi (not_le.mpr hc.2))]
  · intro p hp
    rw [hw p, if_neg (fun hc => hp hc.1)]


/-- C14: after `selectionChanged` of a node with index `i` whose group exists,
the cache of the group is the one `getFilteredTracks` computed after the later
nodes were cleared; every member with an index above `i` is its reset against
the resulting cascade input `tracks g`; and every member with an index up to
`i`, like every widget outside the group, is as it was. -/
theorem selectionChanged_cascade (m : Track → String → Bool) (s : State) (w : Ptr)
    (group : FilterGroup) (hl : s.m_groups.lookup (s.m_widgets w).group = some group) :
    cachedTracks (selectionChanged m s w) (s.m_widgets w).group
        = cachedTracks (getFilteredTracks
            (clearActiveFilters s (s.m_widgets w).group (s.m_widgets w).index)
            (s.m_widgets w).group) (s.m_widgets w).group
      ∧ cachedTracks (selectionChanged m s w) (s.m_widgets w).group
        = some (combineActive
            (clearActiveFilters s (s.m_widgets w).group (s.m_widgets w).index).m_widgets
            (activeFilters (clearActiveFilters s (s.m_widgets w).group (s.m_widgets w).index)
              group))
      ∧ (∀ p, p ∈ group.filters → (s.m_widgets p).index > (s.m_widgets w).index →
          (selectionChanged m s w).m_widgets p
            = (s.m_widgets p).reset m (tracks (selectionChanged m s w) (s.m_widgets w).group))
      ∧ (∀ p, p ∈ group.filters → (s.m_widgets p).index ≤ (s.m_widgets w).index →
          (selectionChanged m s w).m_widgets p = s.m_widgets p)
      ∧ (∀ p, p ∉ group.filters → (selectionChanged m s w).m_widgets p = s.m_widgets p) :=
  selectionChanged_members m s w group hl

/-- The C14 theorem applied to the selection of the first track in the first of
two nodes of the group `7`: the second node is reset against the new cascade
input. -/
theorem selectionChanged_cascade_witness :
    (selectionChanged matchesAll (select twoNodesState 0 [libraryTrack 1 1] true) 0).m_widgets 1
      = ((select twoNodesState 0 [libraryTrack 1 1] true).m_widgets 1).reset matchesAll
          (tracks (selectionChanged matchesAll
            (select twoNodesState 0 [libraryTrack 1 1] true) 0) 7) :=
  (selectionChanged_cascade matchesAll (select twoNodesState 0 [libraryTrack 1 1] true) 0
    (FilterGroup.mk 7 [0, 1] [] 0) (by decide)).2.2.1 1 (by decide) (by decide)

/-- C15: `selectionChanged` of a node whose group is `A` leaves every other
group `B` as it is, its member sequence, its cache and every one of its
members, widget for widget; the indices, the ungrouped map and every ungrouped
node are unchanged as well. -/
theorem selectionChanged_group_isolation (m : Track → String → Bool) (s : State)
    (reg : List Ptr) (hinv : s.shape.Inv reg) (w : Ptr) (B : Id)
    (hB : B ≠ (s.m_widgets w).group) :
    filtersOf (selectionChanged m s w) B = filtersOf s B
      ∧ cachedTracks (selectionChanged m s w) B = cachedTracks s B
      ∧ (∀ fs, filtersOf s B = some fs → ∀ p, p ∈ fs →
          (selectionChanged m s w).m_widgets p = s.m_widgets p)
      ∧ (∀ p, ((selectionChanged m s w).m_widgets p).index = (s.m_widgets p).index)
      ∧ (selectionChanged m s w).m_ungrouped = s.m_ungrouped
      ∧ (∀ i p, s.m_ungrouped.lookup i = some p →
          (selectionChanged m s w).m_widgets p = s.m_widgets p) := by
  have hco := ContentOnly.selectionChanged m s w
  obtain ⟨hf1, _, hf3⟩ := selectionChanged_frame m s w
  refine ⟨hco.filters B, hf1 B hB, ?_, hco.index, hco.ungrouped, ?_⟩
  · intro fs hfs p hp
    apply hf3
    intro fsA hA hpA
    exact hB (hinv.disjoint B fs _ fsA p hfs hA hp hpA)
  · intro i p hip
    apply hf3
    intro fsA hA
    exact hinv.ungrouped_not_grouped i p hip _ fsA hA

/-- The C15 theorem applied to the state with node `0` in group `7`, the nodes
`1` and `2` in group `9`, and a selection in node `0`: node `2` is as it was. -/
theorem selectionChanged_group_isolation_witness :
    (selectionChanged matchesAll
        (select (handleFilterUpdated matchesAll (requestGroup movedState 1 9 0) 1) 0
          twoLibraries true) 0).m_widgets 2
      = (select (handleFilterUpdated matchesAll (requestGroup movedState 1 9 0) 1) 0
          twoLibraries true).m_widgets 2 :=
  (selectionChanged_group_isolation matchesAll
    (select (handleFilterUpdated matchesAll (requestGroup movedState 1 9 0) 1) 0
      twoLibraries true) [2, 1, 0]
    (by
      rw [(ContentOnly.select _ 0 twoLibraries true).shape_eq]
      exact @Reach.inv matchesAll twoLibraries 7 false _ [2, 1, 0] (by decide)
        (Reach.filterUpdated _ _ 1 9 0
          (Reach.filterUpdated _ _ 2 9 0
            (Reach.createFilter _ _ 102
              (Reach.createFilter _ _ 101
                (Reach.createFilter _ _ 100 Reach.init (by decide)) (by decide)) (by decide))
            (by decide) (by decide))
          (by decide) (by decide)))
    0 9 (by decide)).2.2.1 [1, 2] (by decide) 2 (by decide)

/-! ## Scenario 1 -/

/-- C16: in Scenario 1, whatever the Artist node had matched before and
whatever the free-text predicate, `selectionChanged` of Genre makes `[t1, t3]`
the combined set of the group and resets the Artist node against `[t1, t3]`:
its base set and, as it has no predicate, its matched set are `[t1, t3]`, not
the library; the Genre node is as it was. -/
theorem scenario_one_selection (m : Track → String → Bool) (artist : TrackList) :
    cachedTracks (selectionChanged m (scenarioOne artist) 0) 1
        = some [sampleTrack 1, sampleTrack 3]
      ∧ tracks (selectionChanged m (scenarioOne artist) 0) 1 = [sampleTrack 1, sampleTrack 3]
      ∧ (selectionChanged m (scenarioOne artist) 0).m_widgets 1
          = ((scenarioOne artist).m_widgets 1).reset m [sampleTrack 1, sampleTrack 3]
      ∧ ((selectionChanged m (scenarioOne artist) 0).m_widgets 1).tracks
          = [sampleTrack 1, sampleTrack 3]
      ∧ ((selectionChanged m (scenarioOne artist) 0).m_widgets 1).filteredTracks
          = [sampleTrack 1, sampleTrack 3]
      ∧ (selectionChanged m (scenarioOne artist) 0).m_widgets 0
          = (scenarioOne artist).m_widgets 0 := by
  refine ⟨rfl, rfl, rfl, rfl, rfl, rfl⟩

/-! ## Narrowing a selection -/

theorem combineSets_append_singleton (sets : List TrackList) (set : TrackList) :
    combineSets (sets ++ [set])
      = if (combineSets sets).isEmpty then combineSets sets ++ set
        else trackIntersection set (combineSets sets) := by
  unfold combineSets
  rw [List.foldl_append]
  rfl

/-- One step of the loop of `getFilteredTracks` is monotone in the set of the
filter. -/
theorem combineStep_sublist (acc set set' : TrackList) (h : set'.Sublist set) :
    (if acc.isEmpty then acc ++ set' else trackIntersection set' acc).Sublist
      (if acc.isEmpty then acc ++ set else trackIntersection set acc) := by
  by_cases he : acc.isEmpty = true
  · rw [if_pos he, if_pos he]
    exact List.Sublist.append (List.Sublist.refl acc) h
  · rw [if_neg he, if_neg he, trackIntersection_eq_filter, trackIntersection_eq_filter]
    apply List.monotone_filter_right
    intro t ht
    have ht' : t.id ∈ set'.map Track.id := by simpa using ht
    have hsub : (set'.map Track.id).Sublist (set.map Track.id) := h.map Track.id
    simpa using hsub.subset ht'

theorem activeSetsOn_append (widgets : Ptr → FilterWidget) (a b : List Ptr) :
    activeSetsOn widgets (a ++ b) = activeSetsOn widgets a ++ activeSetsOn widgets b := by
  unfold activeSetsOn
  simp [List.filter_append]

theorem activeSetsOn_cons (widgets : Ptr → FilterWidget) (p : Ptr) (l : List Ptr) :
    activeSetsOn widgets (p :: l)
      = (if (widgets p).isActive then [(widgets p).filteredTracks] else [])
          ++ activeSetsOn widgets l := by
  unfold activeSetsOn
  by_cases h : (widgets p).isActive = true
  · simp [List.filter_cons, h]
  · simp [List.filter_cons, h]

theorem activeSetsOn_of_inactive (widgets : Ptr → FilterWidget) (l : List Ptr)
    (h : ∀ p, p ∈ l → (widgets p).isActive = false) : activeSetsOn widgets l = [] := by
  unfold activeSetsOn
  rw [List.map_eq_nil_iff, List.filter_eq_nil_iff]
  intro p hp
  simp [h p hp]

theorem tracks_of_cache (s : State) (g : Id) (c : TrackList) (h : cachedTracks s g = some c) :
    tracks s g = if c.isEmpty then s.m_library else c := by
  unfold tracks
  unfold cachedTracks at h
  cases hl : s.m_groups.lookup g with
  | none => simp [hl] at h
  | some group =>
    simp only [hl, Option.map_some', Option.some.injEq] at h
    simp only [h]

/-- In a sequence of distinct members indexed by position, the members placed
after a member have a larger index. -/
theorem split_of_dense (index : Ptr → Int) (fs : List Ptr) (w : Ptr) (hnd : fs.Nodup)
    (hd : ∀ j : Fin fs.length, index (fs.get j) = (j.val : Int)) (hw : w ∈ fs) :
    ∃ pre post, fs = pre ++ w :: post ∧ w ∉ pre
      ∧ ∀ p, p ∈ post → p ≠ w ∧ index p > index w := by
  obtain ⟨pre, post, hsplit⟩ := List.append_of_mem hw
  subst hsplit
  have hnd' := List.nodup_append.mp hnd
  have hwpre : w ∉ pre := fun hc => hnd'.2.2 hc (List.mem_cons_self w post)
  have hwpost : w ∉ post := (List.nodup_cons.mp hnd'.2.1).1
  refine ⟨pre, post, rfl, hwpre, ?_⟩
  intro p hp
  refine ⟨fun hc => hwpost (hc ▸ hp), ?_⟩
  obtain ⟨n, hn⟩ := List.mem_iff_get.mp hp
  have hlen : (pre ++ w :: post).length = pre.length + (post.length + 1) := by simp
  have h1 : pre.length + 1 + n.val < (pre ++ w :: post).length := by
    rw [hlen]; have := n.isLt; omega
  have h0 : pre.length < (pre ++ w :: post).length := by rw [hlen]; omega
  have e1 : (pre ++ w :: post).get ⟨pre.length + 1 + n.val, h1⟩ = p := by
    rw [← hn]
    simp only [List.get_eq_getElem]
    rw [List.getElem_append_right (by omega)]
    simp [Nat.add_sub_cancel_left, show pre.length + 1 + n.val - pre.length = n.val + 1 by omega]
  have e0 : (pre ++ w :: post).get ⟨pre.length, h0⟩ = w := by
    simp only [List.get_eq_getElem]
    rw [List.getElem_append_right (le_refl _)]
    simp
  have i1 := hd ⟨pre.length + 1 + n.val, h1⟩
  have i0 := hd ⟨pre.length, h0⟩
  rw [e1] at i1
  rw [e0] at i0
  rw [i1, i0]
  simp only [gt_iff_lt]
  push_cast
  omega

/-- The cache after `selectionChanged`, when every member placed after the node
has a larger index: the combination of the active sets of the members before
the node, followed by the set of the node when it is active. -/
theorem cachedTracks_selectionChanged_split (m : Track → String → Bool) (s : State) (w : Ptr)
    (group : FilterGroup) (pre post : List Ptr)
    (hl : s.m_groups.lookup (s.m_widgets w).group = some group)
    (hsplit : group.filters = pre ++ w :: post)
    (hpost : ∀ p, p ∈ post → (s.m_widgets p).index > (s.m_widgets w).index) :
    cachedTracks (selectionChanged m s w) (s.m_widgets w).group
      = some (combineSets
          (activeSetsOn
              (clearActiveFilters s (s.m_widgets w).group (s.m_widgets w).index).m_widgets pre
            ++ (if (s.m_widgets w).isActive then [(s.m_widgets w).filteredTracks] else []))) := by
  have hcl := (selectionChanged_spec m s w group hl).2.1
  rw [(selectionChanged_members m s w group hl).2.1, combineActive_activeFilters, hsplit,
    activeSetsOn_append, activeSetsOn_cons]
  have hpost0 : activeSetsOn
      (clearActiveFilters s (s.m_widgets w).group (s.m_widgets w).index).m_widgets post = [] := by
    apply activeSetsOn_of_inactive
    intro p hp
    have hmem : p ∈ group.filters := by
      rw [hsplit]
      exact List.mem_append_right _ (List.mem_cons_of_mem _ hp)
    rw [hcl p, if_pos ⟨hmem, hpost p hp⟩]
    rfl
  have hw : (clearActiveFilters s (s.m_widgets w).group (s.m_widgets w).index).m_widgets w
      = s.m_widgets w := by
    rw [hcl w, if_neg (fun hc => lt_irrefl _ hc.2)]
  rw [hpost0, hw, List.append_nil]

/-- Monotonicity of the cascade input in the matched set of the node, for a
state `s2` that differs from `s` in the matched set of the node only. -/
theorem tracks_selectionChanged_mono (m : Track → String → Bool) (s s2 : State) (w : Ptr)
    (group : FilterGroup) (narrower : TrackList)
    (hl : s.m_groups.lookup (s.m_widgets w).group = some group)
    (hnd : group.filters.Nodup) (hw : w ∈ group.filters)
    (hd : ∀ j : Fin group.filters.length,
      (s.m_widgets (group.filters.get j)).index = (j.val : Int))
    (hsub : narrower.Sublist (s.m_widgets w).filteredTracks)
    (hg : s2.m_groups = s.m_groups) (hlib : s2.m_library = s.m_library)
    (hWw : s2.m_widgets w = (s.m_widgets w).setFilteredTracks narrower)
    (hWo : ∀ q, q ≠ w → s2.m_widgets q = s.m_widgets q)
    (hne : cachedTracks (selectionChanged m s2 w) (s.m_widgets w).group = some [] →
      cachedTracks (selectionChanged m s w) (s.m_widgets w).group = some []) :
    (tracks (selectionChanged m s2 w) (s.m_widgets w).group).Sublist
        (tracks (selectionChanged m s w) (s.m_widgets w).group)
      ∧ ∀ p, p ∈ group.filters → (s.m_widgets p).index > (s.m_widgets w).index →
          ((selectionChanged m s2 w).m_widgets p).filteredTracks.Sublist
            ((selectionChanged m s w).m_widgets p).filteredTracks := by
  have hG : (s2.m_widgets w).group = (s.m_widgets w).group := by rw [hWw]; rfl
  have hI : (s2.m_widgets w).index = (s.m_widgets w).index := by rw [hWw]; rfl
  have hA : (s2.m_widgets w).isActive = (s.m_widgets w).isActive := by rw [hWw]; rfl
  have hF : (s2.m_widgets w).filteredTracks = narrower := by rw [hWw]; rfl
  have hl2 : s2.m_groups.lookup (s2.m_widgets w).group = some group := by
    rw [hG, hg]; exact hl
  obtain ⟨pre, post, hsplit, hwpre, hpost⟩ :=
    split_of_dense (fun p => (s.m_widgets p).index) group.filters w hnd hd hw
  have hpost2 : ∀ p, p ∈ post → (s2.m_widgets p).index > (s2.m_widgets w).index := by
    intro p hp
    rw [hWo p (hpost p hp).1, hI]
    exact (hpost p hp).2
  have hc := cachedTracks_selectionChanged_split m s w group pre post hl hsplit
    (fun p hp => (hpost p hp).2)
  have hc2 := cachedTracks_selectionChanged_split m s2 w group pre post hl2 hsplit hpost2
  rw [hG, hI, hA, hF] at hc2
  have hpre : activeSetsOn
      (clearActiveFilters s2 (s.m_widgets w).group (s.m_widgets w).index).m_widgets pre
      = activeSetsOn
          (clearActiveFilters s (s.m_widgets w).group (s.m_widgets w).index).m_widgets pre := by
    apply activeSetsOn_congr
    intro q hq
    apply sel_of_eq
    have hqw : q ≠ w := fun hc => hwpre (hc ▸ hq)
    have h1 := (selectionChanged_spec m s w group hl).2.1 q
    have h2 := (selectionChanged_spec m s2 w group hl2).2.1 q
    rw [hG, hI, hWo q hqw] at h2
    rw [h1, h2]
  rw [hpre] at hc2
  generalize activeSetsOn
    (clearActiveFilters s (s.m_widgets w).group (s.m_widgets w).index).m_widgets pre = A
    at hc hc2
  have hsubC : ∀ c c2, cachedTracks (selectionChanged m s w) (s.m_widgets w).group = some c →
      cachedTracks (selectionChanged m s2 w) (s.m_widgets w).group = some c2 →
      c2.Sublist c := by
    intro c c2 h1 h2
    rw [hc] at h1
    rw [hc2] at h2
    simp only [Option.some.injEq] at h1 h2
    rw [← h1, ← h2]
    by_cases ha : (s.m_widgets w).isActive = true
    · rw [if_pos ha, if_pos ha, combineSets_append_singleton, combineSets_append_singleton]
      exact combineStep_sublist _ _ _ hsub
    · rw [if_neg ha, if_neg ha]
  have hlibr : (selectionChanged m s w).m_library = s.m_library :=
    (selectionChanged_spec m s w group hl).2.2.2.1
  have hlibr2 : (selectionChanged m s2 w).m_library = s.m_library := by
    rw [(selectionChanged_spec m s2 w group hl2).2.2.2.1, hlib]
  have hbase : (tracks (selectionChanged m s2 w) (s.m_widgets w).group).Sublist
      (tracks (selectionChanged m s w) (s.m_widgets w).group) := by
    have hcs := hsubC _ _ hc hc2
    rw [tracks_of_cache _ _ _ hc, tracks_of_cache _ _ _ hc2, hlibr, hlibr2]
    generalize combineSets (A ++ if (s.m_widgets w).isActive = true then
      [(s.m_widgets w).filteredTracks] else []) = c at hc hcs ⊢
    generalize combineSets (A ++ if (s.m_widgets w).isActive = true then [narrower] else [])
      = c2 at hc2 hcs ⊢
    by_cases h2 : c2 = []
    · have h1 : c = [] := by
        have := hne (by rw [hc2, h2])
        rw [hc] at this
        simpa using this
      rw [h1, h2]
    · have h1 : c ≠ [] := by
        intro h1
        rw [h1] at hcs
        exact h2 (List.sublist_nil.mp hcs)
      have e1 : c.isEmpty = false := by simpa using h1
      have e2 : c2.isEmpty = false := by simpa using h2
      simp only [e1, e2, Bool.false_eq_true, if_false]
      exact hcs
  refine ⟨hbase, ?_⟩
  intro p hp hi
  have hpw : p ≠ w := by
    intro hc'
    rw [hc'] at hi
    exact lt_irrefl _ hi
  have hr := (selectionChanged_members m s w group hl).2.2.1 p hp hi
  have hr2 := (selectionChanged_members m s2 w group hl2).2.2.1 p hp
    (by rw [hWo p hpw, hI]; exact hi)
  rw [hG, hWo p hpw] at hr2
  rw [hr, hr2]
  unfold FilterWidget.reset
  simp only
  split
  · exact hbase
  · exact List.Sublist.filter _ hbase

/-- C17, as amended: in a group whose members are distinct and indexed by
position, if the matched set of the node `w` is replaced by a sub-sequence
`narrower` of itself before `selectionChanged` runs, and the combined set
recomputed from `narrower` is not empty unless the one recomputed from the
original set is empty too, then the base set that every later member is reset
against is a sub-sequence of the base set with the original matched set, and
the matched set of every later member, under its unchanged predicate, is a
sub-sequence as well, so its count is no larger. -/
theorem narrowing_keeps_later_nodes_within (m : Track → String → Bool) (s : State) (w : Ptr)
    (group : FilterGroup) (narrower : TrackList)
    (hl : s.m_groups.lookup (s.m_widgets w).group = some group)
    (hnd : group.filters.Nodup) (hw : w ∈ group.filters)
    (hd : ∀ j : Fin group.filters.length,
      (s.m_widgets (group.filters.get j)).index = (j.val : Int))
    (hsub : narrower.Sublist (s.m_widgets w).filteredTracks)
    (hne : cachedTracks (selectionChanged m
        (s.modifyWidget w (fun x => x.setFilteredTracks narrower)) w) (s.m_widgets w).group
          = some [] →
      cachedTracks (selectionChanged m s w) (s.m_widgets w).group = some []) :
    (tracks (selectionChanged m (s.modifyWidget w (fun x => x.setFilteredTracks narrower)) w)
        (s.m_widgets w).group).Sublist (tracks (selectionChanged m s w) (s.m_widgets w).group)
      ∧ ∀ p, p ∈ group.filters → (s.m_widgets p).index > (s.m_widgets w).index →
          ((selectionChanged m s w).m_widgets p).tracks
              = tracks (selectionChanged m s w) (s.m_widgets w).group
            ∧ ((selectionChanged m
                (s.modifyWidget w (fun x => x.setFilteredTracks narrower)) w).m_widgets p).tracks
              = tracks (selectionChanged m
                  (s.modifyWidget w (fun x => x.setFilteredTracks narrower)) w)
                  (s.m_widgets w).group
            ∧ ((selectionChanged m
                (s.modifyWidget w (fun x => x.setFilteredTracks narrower)) w).m_widgets
                  p).filteredTracks.Sublist ((selectionChanged m s w).m_widgets p).filteredTracks
            ∧ ((selectionChanged m
                (s.modifyWidget w (fun x => x.setFilteredTracks narrower)) w).m_widgets
                  p).filteredTracks.length
              ≤ ((selectionChanged m s w).m_widgets p).filteredTracks.length := by
  have hWw : (s.modifyWidget w (fun x => x.setFilteredTracks narrower)).m_widgets w
      = (s.m_widgets w).setFilteredTracks narrower := by
    simp [State.modifyWidget]
  have hWo : ∀ q, q ≠ w →
      (s.modifyWidget w (fun x => x.setFilteredTracks narrower)).m_widgets q = s.m_widgets q := by
    intro q hq
    simp [State.modifyWidget, Function.update_apply, hq]
  have hmono := tracks_selectionChanged_mono m s
    (s.modifyWidget w (fun x => x.setFilteredTracks narrower)) w group narrower hl hnd hw hd hsub
    rfl rfl hWw hWo hne
  have hg2 : (s.modifyWidget w (fun x => x.setFilteredTracks narrower)).m_groups = s.m_groups :=
    rfl
  generalize s.modifyWidget w (fun x => x.setFilteredTracks narrower) = s2
    at hWw hWo hmono hne hg2 ⊢
  have hG : (s2.m_widgets w).group = (s.m_widgets w).group := by rw [hWw]; rfl
  have hI : (s2.m_widgets w).index = (s.m_widgets w).index := by rw [hWw]; rfl
  refine ⟨hmono.1, ?_⟩
  intro p hp hi
  have hpw : p ≠ w := by
    intro hc
    rw [hc] at hi
    exact lt_irrefl _ hi
  have hr := (selectionChanged_members m s w group hl).2.2.1 p hp hi
  have hr2 := (selectionChanged_members m s2 w group (by rw [hG, hg2]; exact hl)).2.2.1 p hp
    (by rw [hWo p hpw, hI]; exact hi)
  rw [hG] at hr2
  refine ⟨?_, ?_, hmono.2 p hp hi, (hmono.2 p hp hi).length_le⟩
  · rw [hr]; rfl
  · rw [hr2]; rfl

/-- The C17 theorem applied to Scenario 1 with the selection of Genre narrowed
from `[t1, t3]` to `[t1]`: the cascade input of the Artist node becomes a
sub-sequence of what it was. -/
theorem narrowing_keeps_later_nodes_within_witness :
    (tracks (selectionChanged matchesAll
        ((scenarioOne []).modifyWidget 0 (fun x => x.setFilteredTracks [sampleTrack 1])) 0)
        1).Sublist (tracks (selectionChanged matchesAll (scenarioOne []) 0) 1) :=
  (narrowing_keeps_later_nodes_within matchesAll (scenarioOne []) 0
    (FilterGroup.mk 1 [0, 1] [] 0) [sampleTrack 1] (by decide) (by decide) (by decide)
    (by decide) (by decide) (by decide)).1

/-- C17, counterexample: in Scenario 1, the empty selection in Genre in place of
`[t1, t3]` raises the cascade input of the Artist node from two tracks to the
three of the library, and its matched set with it; and in a group whose first
two members share the index 0, the empty selection in the first in place of
`[t1]` raises the cascade input of the third from `[t1]` to `[t1, t2]`, while
the combined set is not empty. -/
theorem narrowing_to_empty_widens_later_nodes :
    (tracks (selectionChanged matchesAll (scenarioOne []) 0) 1 = [sampleTrack 1, sampleTrack 3]
        ∧ tracks (selectionChanged matchesAll
            ((scenarioOne []).modifyWidget 0 (fun x => x.setFilteredTracks [])) 0) 1
          = [sampleTrack 1, sampleTrack 2, sampleTrack 3]
        ∧ ((selectionChanged matchesAll (scenarioOne []) 0).m_widgets 1).filteredTracks.length = 2
        ∧ ((selectionChanged matchesAll
            ((scenarioOne []).modifyWidget 0 (fun x => x.setFilteredTracks [])) 0).m_widgets
              1).filteredTracks.length = 3)
      ∧ (tracks (selectionChanged matchesAll (sharedIndexState [sampleTrack 1]) 0) 1
          = [sampleTrack 1]
        ∧ cachedTracks (selectionChanged matchesAll
            ((sharedIndexState [sampleTrack 1]).modifyWidget 0
              (fun x => x.setFilteredTracks [])) 0) 1
          = some [sampleTrack 1, sampleTrack 2]
        ∧ ((selectionChanged matchesAll (sharedIndexState [sampleTrack 1]) 0).m_widgets
            2).filteredTracks.length = 1
        ∧ ((selectionChanged matchesAll
            ((sharedIndexState [sampleTrack 1]).modifyWidget 0
              (fun x => x.setFilteredTracks [])) 0).m_widgets 2).filteredTracks.length = 2) := by
  decide

/-! ## Moving a node away and back -/

theorem eraseWidget_of_not_mem (fs : List Ptr) (w : Ptr) (hw : w ∉ fs) :
    eraseWidget fs w = fs := by
  unfold eraseWidget
  rw [List.filter_eq_self]
  intro p hp
  have : p ≠ w := fun hc => hw (hc ▸ hp)
  simpa using this

theorem eraseWidget_placeWidget (fs : List Ptr) (k : Int) (w : Ptr) (hw : w ∉ fs) :
    eraseWidget (placeWidget fs k w) w = fs := by
  have h1 : ∀ a b : List Ptr, eraseWidget (a ++ w :: b) w = eraseWidget (a ++ b) w := by
    intro a b
    unfold eraseWidget
    simp [List.filter_append, List.filter_cons]
  unfold placeWidget insertWidget
  split
  · have h2 := h1 fs []
    rw [List.append_nil] at h2
    rw [h2, eraseWidget_of_not_mem fs w hw]
  · rw [h1, List.take_append_drop, eraseWidget_of_not_mem fs w hw]

theorem perm_placeWidget (fs : List Ptr) (k : Int) (w : Ptr) :
    (placeWidget fs k w).Perm (w :: fs) := by
  unfold placeWidget insertWidget
  split
  · exact List.perm_append_singleton w fs
  · have h := @List.perm_middle Ptr w (fs.take k.toNat) (fs.drop k.toNat)
    rwa [List.take_append_drop] at h

theorem perm_cons_eraseWidget (fs : List Ptr) (w : Ptr) (hnd : fs.Nodup) (hw : w ∈ fs) :
    (w :: eraseWidget fs w).Perm fs := by
  obtain ⟨pre, post, hsplit⟩ := List.append_of_mem hw
  subst hsplit
  have hnd' := List.nodup_append.mp hnd
  have hwpre : w ∉ pre := fun hc => hnd'.2.2 hc (List.mem_cons_self w post)
  have hwpost : w ∉ post := (List.nodup_cons.mp hnd'.2.1).1
  have he : eraseWidget (pre ++ w :: post) w = pre ++ post := by
    have h1 : eraseWidget (pre ++ w :: post) w = eraseWidget (pre ++ post) w := by
      unfold eraseWidget
      simp [List.filter_append, List.filter_cons]
    rw [h1]
    apply eraseWidget_of_not_mem
    intro hc
    rcases List.mem_append.mp hc with h | h
    · exact hwpre h
    · exact hwpost h
  rw [he]
  exact List.perm_middle.symm

/-- The member sequences after a registered member `w` of group `A` asked for
another valid group `B`. -/
theorem filtersOf_move (m : Track → String → Bool) (s : State) (reg : List Ptr) (w : Ptr)
    (A B : Id) (k : Int) (fsA : List Ptr) (hinv : s.shape.Inv reg)
    (hA : filtersOf s A = some fsA) (hw : w ∈ fsA) (hAB : B ≠ A) (hB : B ≠ 0) (k0 : Id) :
    filtersOf (handleFilterUpdated m (requestGroup s w B k) w) k0
      = if k0 = B then some (placeWidget ((filtersOf s B).getD []) k w)
        else if k0 = A then
          (if eraseWidget fsA w = [] then none else some (eraseWidget fsA w))
        else filtersOf s k0 := by
  have hfind : findContainingGroup (requestGroup s w B k) w = A := by
    rw [findContainingGroup_congr s (requestGroup s w B k) rfl w]
    exact (findContainingGroup_spec s reg hinv w).1 A fsA hA hw
  have hgrp := group_requestGroup s w B k
  have hidx : ((requestGroup s w B k).m_widgets w).index = k := by
    rw [index_requestGroup, if_pos rfl]
  have hmove : ((requestGroup s w B k).m_widgets w).group
      ≠ findContainingGroup (requestGroup s w B k) w := by
    rw [hgrp, hfind]; exact hAB
  rw [filtersOf_handleFilterUpdated_move m _ w hmove k0, hgrp, hfind, hidx, shape_requestGroup]
  have hA0 : A ≠ 0 := hinv.keys_valid A fsA hA
  have hsA : s.shape.filters A = some fsA := hA
  by_cases h1 : k0 = B
  · subst h1
    rw [if_pos rfl]
    unfold Shape.attach
    rw [if_neg hB, Shape.filters_setFilters, if_pos rfl, if_neg (placeWidget_ne_nil _ _ _),
      Shape.filters_detach_ne _ _ _ _ hAB]
    rfl
  · rw [if_neg h1, Shape.filters_attach_ne _ _ _ _ _ h1]
    by_cases h2 : k0 = A
    · subst h2
      rw [if_pos rfl]
      unfold Shape.detach
      rw [if_neg hA0]
      simp only [hsA]
      rw [if_pos hw, Shape.filters_setFilters, if_pos rfl]
    · rw [if_neg h2, Shape.filters_detach_ne _ _ _ _ h2]
      rfl
/-- C13: in a state with a well-formed registry and dense indices, let the
member `w` of group `A` move to another valid group `B` and back to `A`, at
any requested indices.  Then the sequence of `A` is a permutation of what it
was, namely the other members in their order with `w` placed among them; the
sequence of `B`, like that of every other group, is what it was (absent when
it was absent); and the member at position `i` of every group has index `i`. -/
theorem move_round_trip (m : Track → String → Bool) (s : State) (reg : List Ptr) (w : Ptr)
    (A B : Id) (k k2 : Int) (fsA : List Ptr) (hinv : s.shape.Inv reg)
    (hdense : DenseOn (filtersOf s) (fun p => (s.m_widgets p).index))
    (hA : filtersOf s A = some fsA) (hw : w ∈ fsA) (hAB : B ≠ A) (hB : B ≠ 0) :
    filtersOf (handleFilterUpdated m
        (requestGroup (handleFilterUpdated m (requestGroup s w B k) w) w A k2) w) A
        = some (placeWidget (eraseWidget fsA w) k2 w)
      ∧ (placeWidget (eraseWidget fsA w) k2 w).Perm fsA
      ∧ filtersOf (handleFilterUpdated m
          (requestGroup (handleFilterUpdated m (requestGroup s w B k) w) w A k2) w) B
          = filtersOf s B
      ∧ (∀ k0, k0 ≠ A → k0 ≠ B →
          filtersOf (handleFilterUpdated m
            (requestGroup (handleFilterUpdated m (requestGroup s w B k) w) w A k2) w) k0
            = filtersOf s k0)
      ∧ DenseOn
          (filtersOf (handleFilterUpdated m
            (requestGroup (handleFilterUpdated m (requestGroup s w B k) w) w A k2) w))
          (fun p => ((handleFilterUpdated m
            (requestGroup (handleFilterUpdated m (requestGroup s w B k) w) w A k2) w).m_widgets
              p).index) := by
  have hwreg : w ∈ reg := hinv.mem_reg_of_grouped hA hw
  have hA0 : A ≠ 0 := hinv.keys_valid A fsA hA
  have hfindA : findContainingGroup s w = A := (findContainingGroup_spec s reg hinv w).1 A fsA hA hw
  have hf1 := filtersOf_move m s reg w A B k fsA hinv hA hw hAB hB
  have hinv1 := inv_filterUpdated m s reg w B k hinv hwreg
  have hd1 := dense_filterUpdated m s reg w B k hinv hwreg hdense
    (fun _ hc => absurd (hc.trans hfindA) hAB)
  have hB1 : filtersOf (handleFilterUpdated m (requestGroup s w B k) w) B
      = some (placeWidget ((filtersOf s B).getD []) k w) := by
    rw [hf1 B, if_pos rfl]
  have hwB : w ∈ placeWidget ((filtersOf s B).getD []) k w :=
    (mem_placeWidget _ _ _ _).mpr (Or.inl rfl)
  have hfindB : findContainingGroup (handleFilterUpdated m (requestGroup s w B k) w) w = B :=
    (findContainingGroup_spec _ reg hinv1 w).1 B _ hB1 hwB
  have hf2 := filtersOf_move m (handleFilterUpdated m (requestGroup s w B k) w) reg w B A k2
    _ hinv1 hB1 hwB (Ne.symm hAB) hA0
  have hd2 := dense_filterUpdated m (handleFilterUpdated m (requestGroup s w B k) w) reg w A k2
    hinv1 hwreg hd1 (fun _ hc => absurd (hc.trans hfindB).symm hAB)
  have hA1 : (filtersOf (handleFilterUpdated m (requestGroup s w B k) w) A).getD []
      = eraseWidget fsA w := by
    rw [hf1 A, if_neg (Ne.symm hAB), if_pos rfl]
    by_cases he : eraseWidget fsA w = []
    · rw [if_pos he, he]; rfl
    · rw [if_neg he]; rfl
  have hwnB : w ∉ (filtersOf s B).getD [] := by
    cases hsB : filtersOf s B with
    | none => simp
    | some fsB =>
      simp only [Option.getD_some]
      intro hc
      exact hAB (hinv.disjoint B fsB A fsA w hsB hA hc hw)
  refine ⟨?_, ?_, ?_, ?_, hd2⟩
  · rw [hf2 A, if_pos rfl, hA1]
  · exact (perm_placeWidget _ _ _).trans (perm_cons_eraseWidget fsA w (hinv.nodup A fsA hA) hw)
  · rw [hf2 B, if_neg hAB, if_pos rfl, eraseWidget_placeWidget _ _ _ hwnB]
    cases hsB : filtersOf s B with
    | none => simp
    | some fsB =>
      have hne : fsB ≠ [] := hinv.nonempty B fsB hsB
      simp [hne]
  · intro k0 h1 h2
    rw [hf2 k0, if_neg h1, if_neg h2, hf1 k0, if_neg h2, if_neg h1]

/-- The C13 theorem applied to two nodes created in the default group `7`, of
which the second moves to the new group `9` and back to the end of group `7`:
group `7` is `[0, 1]` again and group `9` is absent again. -/
theorem move_round_trip_witness :
    filtersOf (handleFilterUpdated matchesAll
        (requestGroup (handleFilterUpdated matchesAll (requestGroup twoNodesState 1 9 0) 1)
          1 7 5) 1) 7 = some [0, 1]
      ∧ filtersOf (handleFilterUpdated matchesAll
        (requestGroup (handleFilterUpdated matchesAll (requestGroup twoNodesState 1 9 0) 1)
          1 7 5) 1) 9 = none :=
  ⟨(move_round_trip matchesAll twoNodesState [1, 0] 1 7 9 0 5 [0, 1]
      (@Reach.inv matchesAll twoLibraries 7 true _ [1, 0] (by decide)
        (Reach.createFilter _ _ 101
          (Reach.createFilter _ _ 100 Reach.init (by decide)) (by decide)))
      (Reach.dense (by decide)
        (Reach.createFilter _ _ 101
          (Reach.createFilter _ _ 100 Reach.init (by decide)) (by decide)))
      (by decide) (by decide) (by decide) (by decide)).1,
    (move_round_trip matchesAll twoNodesState [1, 0] 1 7 9 0 5 [0, 1]
      (@Reach.inv matchesAll twoLibraries 7 true _ [1, 0] (by decide)
        (Reach.createFilter _ _ 101
          (Reach.createFilter _ _ 100 Reach.init (by decide)) (by decide)))
      (Reach.dense (by decide)
        (Reach.createFilter _ _ 101
          (Reach.createFilter _ _ 100 Reach.init (by decide)) (by decide)))
      (by decide) (by decide) (by decide) (by decide)).2.2.1⟩

/-! ## Pairwise refresh -/

/-- With enough fuel, the loop of `refreshFilters` from the even counter `2 j`
is the walk over the pairs of the rest of the sequence. -/
theorem refreshLoop_eq_pairs (refetch : FilterWidget → FilterWidget)
    (softReset : FilterWidget → TrackList → FilterWidget) (filters : List Ptr) (fuel : Nat) :
    ∀ (j : Nat) (s : State), filters.length ≤ 2 * j + 2 * fuel →
      refreshLoop refetch softReset filters (filters.length : Int) fuel ((2 * j : Nat) : Int) s
        = some (refreshPairsSpec refetch softReset (filters.drop (2 * j)) s) := by
  induction fuel with
  | zero =>
    intro j s h
    have hd : filters.drop (2 * j) = [] := List.drop_eq_nil_of_le (by omega)
    rw [hd]
    unfold refreshLoop
    rw [if_neg (by omega)]
    rfl
  | succ fuel ih =>
    intro j s h
    unfold refreshLoop
    by_cases hlt : ((2 * j : Nat) : Int) < (filters.length : Int) - 1
    · rw [if_pos hlt]
      have h1 : 2 * j + 1 < filters.length := by omega
      have e0 : (((2 * j : Nat) : Int)).toNat = 2 * j := Int.toNat_natCast _
      have e1 : (((2 * j : Nat) : Int) + 1).toNat = 2 * j + 1 := by omega
      have g0 : filters[2 * j]? = some (filters[2 * j]) := List.getElem?_eq_getElem (by omega)
      have g1 : filters[2 * j + 1]? = some (filters[2 * j + 1]) := List.getElem?_eq_getElem h1
      rw [e0, e1, g0, g1]
      simp only
      have e2 : ((2 * j : Nat) : Int) + 2 = ((2 * (j + 1) : Nat) : Int) := by push_cast; ring
      rw [e2, ih (j + 1) _ (by omega)]
      have hdrop : filters.drop (2 * j)
          = filters[2 * j] :: filters[2 * j + 1] :: filters.drop (2 * (j + 1)) := by
        rw [List.drop_eq_getElem_cons (by omega), List.drop_eq_getElem_cons h1]
        congr 2
      rw [hdrop]
      rfl
    · rw [if_neg hlt]
      have h1 : filters.length ≤ 2 * j + 1 := by omega
      by_cases h2 : filters.length ≤ 2 * j
      · rw [List.drop_eq_nil_of_le h2]
        rfl
      · have h3 : 2 * j < filters.length := by omega
        have hd : filters.drop (2 * j) = [filters[2 * j]] := by
          rw [List.drop_eq_getElem_cons h3, List.drop_eq_nil_of_le (by omega)]
        rw [hd]
        rfl
theorem refreshPair_frame (refetch : FilterWidget → FilterWidget)
    (softReset : FilterWidget → TrackList → FilterWidget) (s : State) (a b : Ptr) :
    (refreshPair refetch softReset s a b).m_groups = s.m_groups
      ∧ (∀ q, q ≠ a → q ≠ b → (refreshPair refetch softReset s a b).m_widgets q = s.m_widgets q)
      ∧ (a ≠ b → (refreshPair refetch softReset s a b).m_widgets a = s.m_widgets a
          ∨ (refreshPair refetch softReset s a b).m_widgets a = refetch (s.m_widgets a)) := by
  unfold refreshPair
  by_cases h : (s.m_widgets a).isActive = true
  · rw [if_pos h]
    refine ⟨rfl, ?_, ?_⟩
    · intro q ha hb
      simp [State.modifyWidget, Function.update_apply, ha, hb]
    · intro hab
      right
      simp [State.modifyWidget, Function.update_apply, hab]
  · rw [if_neg h]
    exact ⟨rfl, fun _ _ _ => rfl, fun _ => Or.inl rfl⟩

theorem list_nil_or_single_or_two_last (fs : List Ptr) :
    fs = [] ∨ (∃ a, fs = [a]) ∨ ∃ init before last, fs = init ++ [before, last] := by
  cases hrev : fs.reverse with
  | nil => exact Or.inl (List.reverse_eq_nil_iff.mp hrev)
  | cons last tl =>
    cases tl with
    | nil =>
      right; left
      refine ⟨last, ?_⟩
      have := congrArg List.reverse hrev
      simpa using this
    | cons before tl2 =>
      right; right
      refine ⟨tl2.reverse, before, last, ?_⟩
      have := congrArg List.reverse hrev
      simpa using this

theorem refreshFilters_eq_spec (refetch : FilterWidget → FilterWidget)
    (softReset : FilterWidget → TrackList → FilterWidget) (s : State) (g : Id) :
    refreshFilters refetch softReset s g = some (refreshFiltersSpec refetch softReset s g) := by
  unfold refreshFilters refreshFiltersSpec
  cases s.m_groups.lookup g with
  | none => rfl
  | some group =>
    simp only
    have hloop : refreshLoop refetch softReset group.filters (group.filters.length : Int)
        group.filters.length 0 s
        = some (refreshPairsSpec refetch softReset group.filters s) := by
      have h := refreshLoop_eq_pairs refetch softReset group.filters group.filters.length 0 s
        (by omega)
      simpa using h
    rw [hloop]
    simp only
    generalize refreshPairsSpec refetch softReset group.filters s = s1
    rcases list_nil_or_single_or_two_last group.filters with h | ⟨a, h⟩ | ⟨init, before, last, h⟩
    · rw [h]
      simp
    · rw [h]
      simp
    · rw [h]
      have e2 : ((((init ++ [before, last]).length : Nat) : Int) - 2).toNat = init.length := by
        simp
      have e1 : ((((init ++ [before, last]).length : Nat) : Int) - 1).toNat
          = init.length + 1 := by
        simp only [List.length_append, List.length_cons, List.length_nil]
        omega
      have g2 : (init ++ [before, last])[init.length]? = some before := by
        rw [List.getElem?_append_right (le_refl _)]
        simp
      have g1 : (init ++ [before, last])[init.length + 1]? = some last := by
        rw [List.getElem?_append_right (by omega)]
        simp
      have hrev : (init ++ [before, last]).reverse = last :: before :: init.reverse := by simp
      rw [e2, e1, g2, g1, hrev]
      simp only
      by_cases hodd : (init ++ [before, last]).length % 2 = 1
      · have hc : (((init ++ [before, last]).length : Nat) : Int) > 1
            ∧ (((init ++ [before, last]).length : Nat) : Int) % 2 = 1 := by
          simp only [List.length_append, List.length_cons, List.length_nil] at hodd ⊢
          omega
        rw [if_pos hc, if_pos hodd]
      · have hc : ¬ ((((init ++ [before, last]).length : Nat) : Int) > 1
            ∧ (((init ++ [before, last]).length : Nat) : Int) % 2 = 1) := by
          simp only [List.length_append, List.length_cons, List.length_nil] at hodd ⊢
          omega
        rw [if_neg hc, if_neg hodd]

theorem pushTracks_eq_step (m : Track → String → Bool)
    (tracksAdded tracksUpdated : FilterWidget → TrackList → FilterWidget) (tracks : TrackList)
    (updated : Bool) (s : State) (accumulator : TrackList) (node : Ptr) :
    pushTracks m tracksAdded tracksUpdated tracks updated (s, accumulator) node
      = (s.modifyWidget node (fun w =>
            if updated then tracksUpdated w (batchFor m tracks accumulator (s.m_widgets node))
            else tracksAdded w (batchFor m tracks accumulator (s.m_widgets node))),
          if ((s.modifyWidget node (fun w =>
            if updated then tracksUpdated w (batchFor m tracks accumulator (s.m_widgets node))
            else tracksAdded w (batchFor m tracks accumulator (s.m_widgets node)))).m_widgets
              node).isActive
          then ((s.modifyWidget node (fun w =>
            if updated then tracksUpdated w (batchFor m tracks accumulator (s.m_widgets node))
            else tracksAdded w (batchFor m tracks accumulator (s.m_widgets node)))).m_widgets
              node).filteredTracks
          else accumulator) := by
  unfold pushTracks batchFor
  cases updated <;>
    cases hp : (s.m_widgets node).searchFilter.isEmpty <;>
    cases ha : accumulator.isEmpty <;> simp [hp, ha] <;> split <;> rfl

theorem foldl_pushTracks_eq (m : Track → String → Bool)
    (tracksAdded tracksUpdated : FilterWidget → TrackList → FilterWidget) (tracks : TrackList)
    (updated : Bool) (fs : List Ptr) :
    ∀ (accumulator : TrackList) (s : State),
      (fs.foldl (pushTracks m tracksAdded tracksUpdated tracks updated) (s, accumulator)).1
        = pushBatches m tracksAdded tracksUpdated tracks updated fs accumulator s := by
  induction fs with
  | nil => intro accumulator s; rfl
  | cons node rest ih =>
    intro accumulator s
    rw [List.foldl_cons, pushTracks_eq_step, ih]
    rfl
/-- In a group where no node has a predicate and none is active, and for widget
methods that keep the predicate and the activation, the walk pushes the
incoming tracks to every node. -/
theorem pushBatches_idle (m : Track → String → Bool)
    (tracksAdded tracksUpdated : FilterWidget → TrackList → FilterWidget) (tracks : TrackList)
    (isUpdate : Bool)
    (hact : ∀ w t, (tracksAdded w t).isActive = w.isActive
      ∧ (tracksUpdated w t).isActive = w.isActive)
    (hpred : ∀ w t, (tracksAdded w t).searchFilter = w.searchFilter
      ∧ (tracksUpdated w t).searchFilter = w.searchFilter) (fs : List Ptr) :
    ∀ s : State,
      (∀ p, p ∈ fs → (s.m_widgets p).searchFilter.isEmpty = true
        ∧ (s.m_widgets p).isActive = false) →
      pushBatches m tracksAdded tracksUpdated tracks isUpdate fs [] s
        = fs.foldl (fun st p => st.modifyWidget p
            (fun w => if isUpdate then tracksUpdated w tracks else tracksAdded w tracks)) s := by
  induction fs with
  | nil => intro s _; rfl
  | cons node rest ih =>
    intro s h
    have hn := h node (List.mem_cons_self _ _)
    have hb : batchFor m tracks [] (s.m_widgets node) = tracks := by
      unfold batchFor
      rw [if_neg (by rw [hn.1]; simp)]
      rfl
    have hw : (s.modifyWidget node (fun w =>
        if isUpdate then tracksUpdated w tracks else tracksAdded w tracks)).m_widgets node
        = (if isUpdate then tracksUpdated (s.m_widgets node) tracks
           else tracksAdded (s.m_widgets node) tracks) := by
      simp [State.modifyWidget]
    have hina : ((s.modifyWidget node (fun w =>
        if isUpdate then tracksUpdated w tracks else tracksAdded w tracks)).m_widgets
          node).isActive = false := by
      rw [hw]
      cases isUpdate
      · simp only [Bool.false_eq_true, if_false]
        rw [(hact _ _).1]; exact hn.2
      · simp only [if_true]
        rw [(hact _ _).2]; exact hn.2
    unfold pushBatches
    simp only [hb, List.foldl_cons]
    rw [if_neg (by rw [hina]; exact Bool.false_ne_true)]
    apply ih
    intro p hp
    by_cases hpn : p = node
    · subst hpn
      rw [hw]
      cases isUpdate
      · simp only [Bool.false_eq_true, if_false]
        rw [(hact _ _).1, (hpred _ _).1]; exact hn
      · simp only [if_true]
        rw [(hact _ _).2, (hpred _ _).2]; exact hn
    · have : (s.modifyWidget node (fun w =>
          if isUpdate then tracksUpdated w tracks else tracksAdded w tracks)).m_widgets p
          = s.m_widgets p := by
        simp [State.modifyWidget, Function.update_apply, hpn]
      rw [this]
      exact h p (List.mem_cons_of_mem _ hp)

/-- C20: for any widget methods `tracksAdded` and `tracksUpdated`,
`handleTracksAddedUpdated` is the handling of the specification: for every
group the members are visited in order with an accumulator that starts empty;
the batch pushed to a node is the predicate applied to the incoming tracks if
the node has a predicate, else the incoming tracks if the accumulator is
empty, else `trackIntersection accumulator tracks`; and after the push the
accumulator becomes the matched set of the node if the node is active.  On
two members the second batch is computed from the accumulator the first left;
and in a group where no node has a predicate and none is active, with methods
that keep predicate and activation, every node receives the incoming tracks
unchanged. -/
theorem handleTracksAddedUpdated_batches (m : Track → String → Bool)
    (tracksAdded tracksUpdated : FilterWidget → TrackList → FilterWidget) (tracks : TrackList)
    (isUpdate : Bool) :
    (∀ s, handleTracksAddedUpdated m tracksAdded tracksUpdated s tracks isUpdate
        = handleTracksAddedUpdatedSpec m tracksAdded tracksUpdated s tracks isUpdate)
      ∧ (∀ (s s1 : State) (a b : Ptr) (accumulator : TrackList),
          s1 = s.modifyWidget a (fun w =>
              if isUpdate then tracksUpdated w (batchFor m tracks [] (s.m_widgets a))
              else tracksAdded w (batchFor m tracks [] (s.m_widgets a))) →
          accumulator
            = (if (s1.m_widgets a).isActive then (s1.m_widgets a).filteredTracks else []) →
          (([a, b] : List Ptr).foldl (pushTracks m tracksAdded tracksUpdated tracks isUpdate)
              (s, [])).1
            = s1.modifyWidget b (fun w =>
                if isUpdate
                then tracksUpdated w (batchFor m tracks accumulator (s1.m_widgets b))
                else tracksAdded w (batchFor m tracks accumulator (s1.m_widgets b))))
      ∧ ((∀ w t, (tracksAdded w t).isActive = w.isActive
            ∧ (tracksUpdated w t).isActive = w.isActive) →
          (∀ w t, (tracksAdded w t).searchFilter = w.searchFilter
            ∧ (tracksUpdated w t).searchFilter = w.searchFilter) →
          ∀ (fs : List Ptr) (s : State),
            (∀ p, p ∈ fs → (s.m_widgets p).searchFilter.isEmpty = true
              ∧ (s.m_widgets p).isActive = false) →
            (fs.foldl (pushTracks m tracksAdded tracksUpdated tracks isUpdate) (s, [])).1
              = fs.foldl (fun st p => st.modifyWidget p
                  (fun w => if isUpdate then tracksUpdated w tracks else tracksAdded w tracks))
                  s) := by
  refine ⟨?_, ?_, ?_⟩
  · intro s
    unfold handleTracksAddedUpdated handleTracksAddedUpdatedSpec
    congr 1
    funext st kv
    exact foldl_pushTracks_eq m tracksAdded tracksUpdated tracks isUpdate kv.2.filters [] st
  · intro s s1 a b accumulator hs1 hacc
    rw [foldl_pushTracks_eq, hacc, hs1]
    rfl
  · intro hact hpred fs s h
    rw [foldl_pushTracks_eq]
    exact pushBatches_idle m tracksAdded tracksUpdated tracks isUpdate hact hpred fs s h
/-- Scenario 4: the C20 theorem applied to the track `[t4]` added to a group of
three nodes without predicate, none of them active, for a widget that appends
the batch to its matched set: the walk pushes `[t4]` to every node. -/
theorem handleTracksAddedUpdated_batches_witness :
    (([0, 1, 2] : List Ptr).foldl
        (pushTracks matchesAll (fun w t => w.setFilteredTracks (w.filteredTracks ++ t))
          (fun w t => w.setFilteredTracks (w.filteredTracks ++ t)) [sampleTrack 4] false)
        (threeNodesState, [])).1
      = ([0, 1, 2] : List Ptr).foldl (fun st p => st.modifyWidget p
          (fun w => if false = true then w.setFilteredTracks (w.filteredTracks ++ [sampleTrack 4])
            else w.setFilteredTracks (w.filteredTracks ++ [sampleTrack 4]))) threeNodesState :=
  (handleTracksAddedUpdated_batches matchesAll
    (fun w t => w.setFilteredTracks (w.filteredTracks ++ t))
    (fun w t => w.setFilteredTracks (w.filteredTracks ++ t)) [sampleTrack 4] false).2.2
    (fun _ _ => ⟨rfl, rfl⟩) (fun _ _ => ⟨rfl, rfl⟩) [0, 1, 2] threeNodesState (by decide)

/-! ## Search -/

/-- C22: for a node whose group exists and a new text shorter than 2, no task
is dispatched; when the previous text has length 2 or more the node is reset
against the library and nothing else changes, and when the previous text is
shorter than 2 as well the state is unchanged.  The lengths are those of
`QString::length()`, in UTF-16 code units. -/
theorem searchChanged_short_text (m : Track → String → Bool) (s : State) (w : Ptr)
    (search : String) (group : FilterGroup)
    (hl : s.m_groups.lookup (s.m_widgets w).group = some group) (hs : QString.length search < 2) :
    (searchChanged m s w search).2 = none
      ∧ (QString.length (s.m_widgets w).searchFilter ≥ 2 →
          (searchChanged m s w search).1 = s.modifyWidget w (fun x => x.reset m s.m_library))
      ∧ (QString.length (s.m_widgets w).searchFilter < 2 → (searchChanged m s w search).1 = s) := by
  unfold searchChanged
  simp only [hl]
  by_cases hp : QString.length (s.m_widgets w).searchFilter ≥ 2
  · rw [if_pos ⟨hp, hs⟩]
    exact ⟨rfl, fun _ => rfl, fun hc => absurd hp (not_le.mpr hc)⟩
  · rw [if_neg (fun hc => hp hc.1), if_pos hs]
    exact ⟨rfl, fun hc => absurd hc hp, fun _ => rfl⟩

/-- Scenario 3: the C22 theorem applied to the new text "r" after "ro": no task,
and the node is reset against the library. -/
theorem searchChanged_short_text_witness :
    (searchChanged matchesAll (searchState "ro") 0 "r").2 = none
      ∧ (searchChanged matchesAll (searchState "ro") 0 "r").1
          = (searchState "ro").modifyWidget 0
              (fun x => x.reset matchesAll (searchState "ro").m_library) :=
  ⟨(searchChanged_short_text matchesAll (searchState "ro") 0 "r"
      (FilterGroup.mk 1 [0] [] 0) (by decide) (by decide)).1,
    (searchChanged_short_text matchesAll (searchState "ro") 0 "r"
      (FilterGroup.mk 1 [0] [] 0) (by decide) (by decide)).2.1 (by decide)⟩

/-- C23, as amended: for a node whose group exists and a new text of length 2
or more, the state is unchanged and one task is dispatched, for the new text,
on the library if the combined set of the group is not empty or the previous
text is longer than the new one, and on the node's own track set otherwise.
The lengths are those of `QString::length()`, in UTF-16 code units. -/
theorem searchChanged_base_set (m : Track → String → Bool) (s : State) (w : Ptr)
    (search : String) (group : FilterGroup)
    (hl : s.m_groups.lookup (s.m_widgets w).group = some group) (hs : QString.length search ≥ 2) :
    (searchChanged m s w search).1 = s
      ∧ ((group.filteredTracks ≠ [] ∨ QString.length (s.m_widgets w).searchFilter > QString.length search) →
          (searchChanged m s w search).2 = some (SearchTask.mk w search s.m_library))
      ∧ (group.filteredTracks = [] → QString.length (s.m_widgets w).searchFilter ≤ QString.length search →
          (searchChanged m s w search).2
            = some (SearchTask.mk w search (s.m_widgets w).tracks)) := by
  unfold searchChanged
  simp only [hl]
  have h1 : ¬ (QString.length (s.m_widgets w).searchFilter ≥ 2 ∧ QString.length search < 2) :=
    fun hc => absurd hs (not_le.mpr hc.2)
  have h2 : ¬ QString.length search < 2 := not_lt.mpr hs
  rw [if_neg h1, if_neg h2]
  refine ⟨rfl, ?_, ?_⟩
  · intro hc
    have hr : (!group.filteredTracks.isEmpty
        || decide (QString.length (s.m_widgets w).searchFilter > QString.length search)) = true := by
      rcases hc with hc | hc
      · have : group.filteredTracks.isEmpty = false := by simpa using hc
        simp [this]
      · simp [hc]
    simp only [hr, if_true]
  · intro he hle
    have hr : (!group.filteredTracks.isEmpty
        || decide (QString.length (s.m_widgets w).searchFilter > QString.length search)) = false := by
      have h3 : ¬ QString.length (s.m_widgets w).searchFilter > QString.length search := not_lt.mpr hle
      simp [he, h3]
    simp only [hr, Bool.false_eq_true, if_false]

/-- The C23 theorem applied, with an empty combined set, to the new text "ro"
after "roc": the search runs on the library.  Applied to texts with the
character U+1D11E, which takes two code units: the new text "abc" of length 3
after the two-character text of length 4 is searched in the library, and the
one-character new text has length 2 and is searched, in the node's own track
set. -/
theorem searchChanged_base_set_witness :
    (searchChanged matchesAll (searchState "roc") 0 "ro").2
        = some (SearchTask.mk 0 "ro" [sampleTrack 1, sampleTrack 2, sampleTrack 3])
      ∧ (searchChanged matchesAll
          (searchState (String.mk [Char.ofNat 119070, Char.ofNat 119070])) 0 "abc").2
        = some (SearchTask.mk 0 "abc" [sampleTrack 1, sampleTrack 2, sampleTrack 3])
      ∧ (searchChanged matchesAll (searchState "") 0 (String.mk [Char.ofNat 119070])).2
        = some (SearchTask.mk 0 (String.mk [Char.ofNat 119070])
            [sampleTrack 1, sampleTrack 3]) :=
  ⟨(searchChanged_base_set matchesAll (searchState "roc") 0 "ro"
      (FilterGroup.mk 1 [0] [] 0) (by decide) (by decide)).2.1 (Or.inr (by decide)),
    (searchChanged_base_set matchesAll
      (searchState (String.mk [Char.ofNat 119070, Char.ofNat 119070])) 0 "abc"
      (FilterGroup.mk 1 [0] [] 0) (by decide) (by decide)).2.1 (Or.inr (by decide)),
    (searchChanged_base_set matchesAll (searchState "") 0 (String.mk [Char.ofNat 119070])
      (FilterGroup.mk 1 [0] [] 0) (by decide) (by decide)).2.2 (by decide) (by decide)⟩

/-- C23, counterexample: with an empty combined set and the own track set
`[t1, t3]`, the longer text "roc" after "ro" is searched in `[t1, t3]`, not in
the library, and so is "ro" after the empty text (Scenario 2); the shorter text
"ro" after "roc" is searched in the library. -/
theorem searchChanged_narrowing_uses_own_tracks :
    (searchChanged matchesAll (searchState "ro") 0 "roc").2
        = some (SearchTask.mk 0 "roc" [sampleTrack 1, sampleTrack 3])
      ∧ (searchChanged matchesAll (searchState "") 0 "ro").2
        = some (SearchTask.mk 0 "ro" [sampleTrack 1, sampleTrack 3])
      ∧ (searchChanged matchesAll (searchState "roc") 0 "ro").2
        = some (SearchTask.mk 0 "ro" [sampleTrack 1, sampleTrack 2, sampleTrack 3])
      ∧ (searchState "ro").m_library = [sampleTrack 1, sampleTrack 2, sampleTrack 3] := by
  decide

/-- C27: a dispatched task holds the new text and a copy of the base set taken
from the state at dispatch, the library or the node's own track set; its
result is computed from these copies alone, so in whatever state `later` the
task finishes, the continuation resets the node against that one result and
changes nothing else.  Of two tasks for the same node, the one that finishes
last determines the node, in either order. -/
theorem search_last_completion_wins (m : Track → String → Bool) :
    (∀ (s : State) (w : Ptr) (search : String) (task : SearchTask),
        (searchChanged m s w search).2 = some task →
        task.filter = w ∧ task.search = search
          ∧ (task.tracksToFilter = s.m_library ∨ task.tracksToFilter = (s.m_widgets w).tracks)
          ∧ ∀ later : State,
              searchFinished m later task
                = later.modifyWidget w
                    (fun x => x.reset m (Filter.filterTracks m task.tracksToFilter search)))
      ∧ (∀ (s : State) (task : SearchTask),
          (searchFinished m s task).m_groups = s.m_groups
            ∧ (searchFinished m s task).m_ungrouped = s.m_ungrouped
            ∧ (searchFinished m s task).m_library = s.m_library
            ∧ (searchFinished m s task).m_widgets task.filter
                = (s.m_widgets task.filter).reset m (task.result m)
            ∧ ∀ p, p ≠ task.filter → (searchFinished m s task).m_widgets p = s.m_widgets p)
      ∧ (∀ (s : State) (first second : SearchTask), first.filter = second.filter →
          (searchFinished m (searchFinished m s first) second).m_widgets second.filter
              = (s.m_widgets second.filter).reset m (second.result m)
            ∧ (searchFinished m (searchFinished m s second) first).m_widgets second.filter
              = (s.m_widgets second.filter).reset m (first.result m)) := by
  refine ⟨?_, ?_, ?_⟩
  · intro s w search task h
    unfold searchChanged at h
    cases hl : s.m_groups.lookup (s.m_widgets w).group with
    | none => simp [hl] at h
    | some group =>
      simp only [hl] at h
      split at h
      · simp at h
      · split at h
        · simp at h
        · simp only [Option.some.injEq] at h
          subst h
          refine ⟨rfl, rfl, ?_, fun _ => rfl⟩
          simp only
          split
          · exact Or.inl rfl
          · exact Or.inr rfl
  · intro s task
    refine ⟨rfl, rfl, rfl, ?_, ?_⟩
    · simp [searchFinished, State.modifyWidget]
    · intro p hp
      simp [searchFinished, State.modifyWidget, Function.update_apply, hp]
  · intro s first second h
    refine ⟨?_, ?_⟩
    · simp [searchFinished, State.modifyWidget, h, FilterWidget.reset]
    · simp [searchFinished, State.modifyWidget, h, FilterWidget.reset]

/-! ## Operations addressed to an unknown group -/

/-- C24: for a group id that is not in the registry, `resetGroup`,
`getFilteredTracks`, `clearActiveFilters`, `recalculateIndexesOfGroup`,
`resetFiltersAfterFilter`, `refreshFilters` and `searchChanged` return the
state they were given, `searchChanged` dispatches no task, and `groupById`
returns no value; with valid registry keys this covers `searchChanged` on an
ungrouped node. -/
theorem unknown_group_is_noop (m : Track → String → Bool)
    (refetch : FilterWidget → FilterWidget)
    (softReset : FilterWidget → TrackList → FilterWidget) (s : State) (g : Id)
    (h : s.m_groups.lookup g = none) :
    resetGroup m s g = s
      ∧ getFilteredTracks s g = s
      ∧ (∀ i, clearActiveFilters s g i = s)
      ∧ recalculateIndexesOfGroup s g = s
      ∧ (∀ w, (s.m_widgets w).group = g → resetFiltersAfterFilter m s w = s)
      ∧ refreshFilters refetch softReset s g = some s
      ∧ (∀ w search, (s.m_widgets w).group = g → searchChanged m s w search = (s, none))
      ∧ groupById s g = none
      ∧ (KeysValid s → ∀ w search, (s.m_widgets w).group = 0 →
          searchChanged m s w search = (s, none)) := by
  refine ⟨?_, ?_, ?_, ?_, ?_, ?_, ?_, ?_, ?_⟩
  · unfold resetGroup; rw [h]
  · unfold getFilteredTracks; rw [h]
  · intro i; unfold clearActiveFilters; rw [h]
  · unfold recalculateIndexesOfGroup; rw [h]
  · intro w hw; unfold resetFiltersAfterFilter; simp only [hw, h]
  · unfold refreshFilters; rw [h]
  · intro w search hw; unfold searchChanged; simp only [hw, h]
  · unfold groupById FilterGroups.contains; simp [h]
  · intro hk w search hw
    unfold searchChanged
    simp only [hw, lookup_invalid_of_keysValid s hk]

/-- The C24 theorem applied to the group id `9`, which the state with one
group `7` does not know. -/
theorem unknown_group_is_noop_witness :
    resetGroup matchesAll selectedState 9 = selectedState
      ∧ groupById selectedState 9 = none :=
  ⟨(unknown_group_is_noop matchesAll (fun w => w) (fun w _ => w) selectedState 9
      (by decide)).1,
    (unknown_group_is_noop matchesAll (fun w => w) (fun w _ => w) selectedState 9
      (by decide)).2.2.2.2.2.2.2.1⟩

/-! ## Removal of the tracks of a library -/

/-- A loop that calls an idempotent method on every widget of a list. -/
theorem foldl_modify_idem (f : FilterWidget → FilterWidget) (hidem : ∀ x, f (f x) = f x)
    (l : List Ptr) (s : State) :
    (l.foldl (fun st p => st.modifyWidget p f) s).m_groups = s.m_groups
      ∧ (l.foldl (fun st p => st.modifyWidget p f) s).m_ungrouped = s.m_ungrouped
      ∧ (l.foldl (fun st p => st.modifyWidget p f) s).m_library = s.m_library
      ∧ ∀ q, (l.foldl (fun st p => st.modifyWidget p f) s).m_widgets q
          = if q ∈ l then f (s.m_widgets q) else s.m_widgets q := by
  induction l generalizing s with
  | nil => exact ⟨rfl, rfl, rfl, fun q => by simp⟩
  | cons p l ih =>
    simp only [List.foldl_cons]
    obtain ⟨h1, h2, h3, h4⟩ := ih (s.modifyWidget p f)
    refine ⟨h1, h2, h3, ?_⟩
    intro q
    rw [h4 q]
    by_cases hqp : q = p
    · subst hqp
      by_cases hql : q ∈ l
      · simp [State.modifyWidget, hql, hidem]
      · simp [State.modifyWidget, hql]
    · by_cases hql : q ∈ l
      · simp [State.modifyWidget, Function.update_apply, hqp, hql]
      · simp [State.modifyWidget, Function.update_apply, hqp, hql]

theorem foldl_groups_modify_idem (f : FilterWidget → FilterWidget)
    (hidem : ∀ x, f (f x) = f x) (gs : FilterGroups) (s : State) :
    (gs.foldl (fun st kv => kv.2.filters.foldl (fun st1 p => st1.modifyWidget p f) st)
        s).m_groups = s.m_groups
      ∧ (gs.foldl (fun st kv => kv.2.filters.foldl (fun st1 p => st1.modifyWidget p f) st)
        s).m_ungrouped = s.m_ungrouped
      ∧ (gs.foldl (fun st kv => kv.2.filters.foldl (fun st1 p => st1.modifyWidget p f) st)
        s).m_library = s.m_library
      ∧ ∀ q, (gs.foldl (fun st kv => kv.2.filters.foldl (fun st1 p => st1.modifyWidget p f) st)
          s).m_widgets q
          = if q ∈ gs.flatMap (fun kv => kv.2.filters) then f (s.m_widgets q)
            else s.m_widgets q := by
  induction gs generalizing s with
  | nil => exact ⟨rfl, rfl, rfl, fun q => by simp⟩
  | cons kv gs ih =>
    simp only [List.foldl_cons]
    obtain ⟨h1, h2, h3, h4⟩ := ih (kv.2.filters.foldl (fun st1 p => st1.modifyWidget p f) s)
    obtain ⟨g1, g2, g3, g4⟩ := foldl_modify_idem f hidem kv.2.filters s
    refine ⟨h1.trans g1, h2.trans g2, h3.trans g3, ?_⟩
    intro q
    rw [h4 q, g4 q]
    simp only [List.flatMap_cons, List.mem_append]
    by_cases hq1 : q ∈ kv.2.filters
    · by_cases hq2 : q ∈ gs.flatMap (fun kv => kv.2.filters)
      · simp [hq1, hq2, hidem]
      · simp [hq1, hq2]
    · by_cases hq2 : q ∈ gs.flatMap (fun kv => kv.2.filters)
      · simp [hq1, hq2]
      · simp [hq1, hq2]

/-- C28: `removeLibraryTracks libraryId` replaces the matched set of every
member of every group by the sub-sequence of its tracks whose library is not
`libraryId`, and nothing else: the registry with its member sequences, caches
and counters, the ungrouped map, the library, every index and every widget
outside the groups are as they were. -/
theorem removeLibraryTracks_prunes_matched_sets (s : State) (libraryId : Int) :
    (∀ p, p ∈ allFilters s →
        (removeLibraryTracks s libraryId).m_widgets p
            = (s.m_widgets p).setFilteredTracks
                ((s.m_widgets p).filteredTracks.filter
                  (fun track => track.libraryId ≠ libraryId))
          ∧ ((removeLibraryTracks s libraryId).m_widgets p).filteredTracks.Sublist
              (s.m_widgets p).filteredTracks
          ∧ (∀ track, track ∈ ((removeLibraryTracks s libraryId).m_widgets p).filteredTracks ↔
              track ∈ (s.m_widgets p).filteredTracks ∧ track.libraryId ≠ libraryId))
      ∧ (∀ p, p ∉ allFilters s → (removeLibraryTracks s libraryId).m_widgets p = s.m_widgets p)
      ∧ (removeLibraryTracks s libraryId).m_groups = s.m_groups
      ∧ (removeLibraryTracks s libraryId).m_ungrouped = s.m_ungrouped
      ∧ (removeLibraryTracks s libraryId).m_library = s.m_library
      ∧ (∀ p, ((removeLibraryTracks s libraryId).m_widgets p).index = (s.m_widgets p).index)
      ∧ (∀ k, cachedTracks (removeLibraryTracks s libraryId) k = cachedTracks s k) := by
  have hidem : ∀ x : FilterWidget,
      (x.setFilteredTracks
          (x.filteredTracks.filter (fun track => track.libraryId ≠ libraryId))).setFilteredTracks
        ((x.setFilteredTracks
          (x.filteredTracks.filter (fun track => track.libraryId ≠ libraryId))).filteredTracks.filter
            (fun track => track.libraryId ≠ libraryId))
      = x.setFilteredTracks
          (x.filteredTracks.filter (fun track => track.libraryId ≠ libraryId)) := by
    intro x
    simp [FilterWidget.setFilteredTracks, List.filter_filter]
  obtain ⟨h1, h2, h3, h4⟩ := foldl_groups_modify_idem
    (fun w : FilterWidget => w.setFilteredTracks
      (w.filteredTracks.filter (fun track => track.libraryId ≠ libraryId))) hidem s.m_groups s
  have hw : ∀ q, (removeLibraryTracks s libraryId).m_widgets q
      = if q ∈ allFilters s then (s.m_widgets q).setFilteredTracks
          ((s.m_widgets q).filteredTracks.filter (fun track => track.libraryId ≠ libraryId))
        else s.m_widgets q := h4
  have hg : (removeLibraryTracks s libraryId).m_groups = s.m_groups := h1
  refine ⟨?_, ?_, hg, h2, h3, (ContentOnly.removeLibraryTracks s libraryId).index, ?_⟩
  · intro p hp
    rw [hw p, if_pos hp]
    refine ⟨rfl, List.filter_sublist _, ?_⟩
    intro track
    simp [FilterWidget.setFilteredTracks, List.mem_filter]
  · intro p hp
    rw [hw p, if_neg hp]
  · intro k
    unfold cachedTracks
    rw [hg]

/-! ## Bounds of the accesses of the pairwise refresh -/

/-- C29: whatever the widget methods and the size of the group,
`refreshFilters` returns: in the pair loop, from `i < count - 1` with `i` not
negative, the positions `i` and `i + 1` are inside the sequence, and so are
`count - 2` and `count - 1` when `count > 1`; and on a group of at most one
member the state is returned as it is. -/
theorem refreshFilters_accesses_in_bounds (refetch : FilterWidget → FilterWidget)
    (softReset : FilterWidget → TrackList → FilterWidget) :
    (∀ s g, (refreshFilters refetch softReset s g).isSome = true)
      ∧ (∀ (filters : List Ptr) (fuel j : Nat) (s : State),
          filters.length ≤ 2 * j + 2 * fuel →
          (refreshLoop refetch softReset filters (filters.length : Int) fuel
            ((2 * j : Nat) : Int) s).isSome = true)
      ∧ (∀ (filters : List Ptr) (i : Int), 0 ≤ i → i < (filters.length : Int) - 1 →
          (filters[i.toNat]?).isSome = true ∧ (filters[(i + 1).toNat]?).isSome = true)
      ∧ (∀ filters : List Ptr, (filters.length : Int) > 1 →
          (filters[((filters.length : Int) - 2).toNat]?).isSome = true
            ∧ (filters[((filters.length : Int) - 1).toNat]?).isSome = true)
      ∧ (∀ s g group, s.m_groups.lookup g = some group → group.filters.length ≤ 1 →
          refreshFilters refetch softReset s g = some s) := by
  refine ⟨?_, ?_, ?_, ?_, ?_⟩
  · intro s g
    rw [refreshFilters_eq_spec]
    rfl
  · intro filters fuel j s h
    rw [refreshLoop_eq_pairs refetch softReset filters fuel j s h]
    rfl
  · intro filters i h0 h1
    have e0 : i.toNat < filters.length := by omega
    have e1 : (i + 1).toNat < filters.length := by omega
    rw [List.getElem?_eq_getElem e0, List.getElem?_eq_getElem e1]
    exact ⟨rfl, rfl⟩
  · intro filters h
    have e0 : ((filters.length : Int) - 2).toNat < filters.length := by omega
    have e1 : ((filters.length : Int) - 1).toNat < filters.length := by omega
    rw [List.getElem?_eq_getElem e0, List.getElem?_eq_getElem e1]
    exact ⟨rfl, rfl⟩
  · intro s g group hl hlen
    rw [refreshFilters_eq_spec]
    unfold refreshFiltersSpec
    rw [hl]
    simp only
    cases hf : group.filters with
    | nil => simp [refreshPairsSpec]
    | cons a t =>
      cases t with
      | nil => simp [refreshPairsSpec]
      | cons b t2 =>
        rw [hf] at hlen
        simp at hlen

/-! ## Resetting everything -/

/-- What `resetGroup` does to one widget. -/
theorem resetGroup_widget (m : Track → String → Bool) (s : State) (g : Id) (q : Ptr) :
    (resetGroup m s g).m_widgets q
      = if q ∈ (filtersOf s g).getD [] then (s.m_widgets q).reset m s.m_library
        else s.m_widgets q := by
  by_cases hq : q ∈ (filtersOf s g).getD []
  · rw [if_pos hq]
    cases hl : s.m_groups.lookup g with
    | none => simp [filtersOf, hl] at hq
    | some group =>
      have hq' : q ∈ group.filters := by simpa [filtersOf, hl] using hq
      exact (resetGroup_members m s g group hl).2.1 q hq'
  · rw [if_neg hq]
    exact (resetGroup_frame m s g).2.1 q hq

/-- The loop of `resetAll` over the groups: the cache of every visited key is
cleared and the members of the visited keys are reset against the library. -/
theorem foldl_resetGroup_spec (m : Track → String → Bool) (ks : List Id) :
    ∀ s : State,
      (∀ k, cachedTracks (ks.foldl (resetGroup m) s) k
          = if k ∈ ks then (cachedTracks s k).map (fun _ => []) else cachedTracks s k)
        ∧ (∀ q, (∃ k, k ∈ ks ∧ q ∈ (filtersOf s k).getD []) →
            (ks.foldl (resetGroup m) s).m_widgets q = (s.m_widgets q).reset m s.m_library)
        ∧ (∀ q, (∀ k, k ∈ ks → q ∉ (filtersOf s k).getD []) →
            (ks.foldl (resetGroup m) s).m_widgets q = s.m_widgets q) := by
  induction ks with
  | nil =>
    intro s
    refine ⟨fun k => by simp, ?_, fun q _ => rfl⟩
    rintro q ⟨k, hk, _⟩
    cases hk
  | cons g rest ih =>
    intro s
    obtain ⟨ihc, ihin, ihout⟩ := ih (resetGroup m s g)
    have hco := ContentOnly.resetGroup m s g
    have hcache := (resetGroup_frame m s g).1
    simp only [List.foldl_cons]
    refine ⟨?_, ?_, ?_⟩
    · intro k
      rw [ihc k, hcache k]
      by_cases hkg : k = g
      · subst hkg
        by_cases hkr : k ∈ rest
        · cases cachedTracks s k <;> simp [hkr]
        · simp [hkr]
      · by_cases hkr : k ∈ rest
        · simp [hkr, hkg]
        · simp [hkr, hkg]
    · rintro q ⟨k, hk, hq⟩
      by_cases hrest : ∃ k1, k1 ∈ rest ∧ q ∈ (filtersOf s k1).getD []
      · obtain ⟨k1, hk1, hq1⟩ := hrest
        rw [ihin q ⟨k1, hk1, by rw [hco.filters]; exact hq1⟩, hco.library, resetGroup_widget]
        split
        · rfl
        · rfl
      · have hall : ∀ k1, k1 ∈ rest → q ∉ (filtersOf (resetGroup m s g) k1).getD [] := by
          intro k1 hk1 hq1
          rw [hco.filters] at hq1
          exact hrest ⟨k1, hk1, hq1⟩
        rw [ihout q hall, resetGroup_widget]
        rcases List.mem_cons.mp hk with hkg | hkr
        · rw [if_pos (hkg ▸ hq)]
        · exact absurd ⟨k, hkr, hq⟩ hrest
    · intro q hq
      have hall : ∀ k1, k1 ∈ rest → q ∉ (filtersOf (resetGroup m s g) k1).getD [] := by
        intro k1 hk1 hq1
        rw [hco.filters] at hq1
        exact hq k1 (List.mem_cons_of_mem _ hk1) hq1
      rw [ihout q hall, resetGroup_widget, if_neg (hq g (List.mem_cons_self _ _))]

/-- The loop of `resetAll` over the ungrouped widgets resets against one base
set, the library of the state the loop starts in. -/
theorem foldl_reset_library (m : Track → String → Bool) (l : List Ptr) :
    ∀ s : State,
      l.foldl (fun st filterWidget =>
          st.modifyWidget filterWidget (fun w => w.reset m st.m_library)) s
        = l.foldl (fun st p => st.modifyWidget p (fun w => w.reset m s.m_library)) s := by
  induction l with
  | nil => intro s; rfl
  | cons p l ih =>
    intro s
    simp only [List.foldl_cons]
    exact ih _

/-- What `resetAll` does to the caches and to every widget, grouped by the
place of the widget. -/
theorem resetAll_spec (m : Track → String → Bool) (s : State) :
    (∀ k, cachedTracks (resetAll m s) k = (cachedTracks s k).map (fun _ => []))
      ∧ (∀ k fs q, filtersOf s k = some fs → q ∈ fs →
          (resetAll m s).m_widgets q = (s.m_widgets q).reset m s.m_library)
      ∧ (∀ q, q ∈ s.m_ungrouped.map Prod.snd →
          (resetAll m s).m_widgets q = (s.m_widgets q).reset m s.m_library)
      ∧ (∀ q, (∀ k fs, filtersOf s k = some fs → q ∉ fs) → q ∉ s.m_ungrouped.map Prod.snd →
          (resetAll m s).m_widgets q = s.m_widgets q) := by
  obtain ⟨hc, hin, hout⟩ := foldl_resetGroup_spec m (s.m_groups.map Prod.fst) s
  have hco : ContentOnly s ((s.m_groups.map Prod.fst).foldl (resetGroup m) s) :=
    ContentOnly.foldlKeys (resetGroup m) (fun st k => ContentOnly.resetGroup m st k) _ s
  have hkey : ∀ k fs, filtersOf s k = some fs → k ∈ s.m_groups.map Prod.fst := by
    intro k fs hk
    unfold filtersOf at hk
    cases hl : s.m_groups.lookup k with
    | none => simp [hl] at hk
    | some group => exact List.mem_map.mpr ⟨(k, group), mem_of_lookup_eq_some hl, rfl⟩
  have hloop := foldl_modify_idem
    (fun w => w.reset m ((s.m_groups.map Prod.fst).foldl (resetGroup m) s).m_library)
    (fun x => rfl) (s.m_ungrouped.map Prod.snd) ((s.m_groups.map Prod.fst).foldl (resetGroup m) s)
  have hres : resetAll m s
      = (s.m_ungrouped.map Prod.snd).foldl (fun st p => st.modifyWidget p
          (fun w => w.reset m ((s.m_groups.map Prod.fst).foldl (resetGroup m) s).m_library))
          ((s.m_groups.map Prod.fst).foldl (resetGroup m) s) := by
    unfold resetAll
    simp only [hco.ungrouped]
    exact foldl_reset_library m _ _
  have hgrouped : ∀ k fs q, filtersOf s k = some fs → q ∈ fs →
      ((s.m_groups.map Prod.fst).foldl (resetGroup m) s).m_widgets q
        = (s.m_widgets q).reset m s.m_library := by
    intro k fs q hk hq
    exact hin q ⟨k, hkey k fs hk, by rw [hk]; exact hq⟩
  have hnot : ∀ q, (∀ k fs, filtersOf s k = some fs → q ∉ fs) →
      ((s.m_groups.map Prod.fst).foldl (resetGroup m) s).m_widgets q = s.m_widgets q := by
    intro q hq
    apply hout
    intro k _ hmem
    cases hk : filtersOf s k with
    | none => simp [hk] at hmem
    | some fs =>
      rw [hk] at hmem
      exact hq k fs hk hmem
  refine ⟨?_, ?_, ?_, ?_⟩
  · intro k
    have hg : (resetAll m s).m_groups
        = ((s.m_groups.map Prod.fst).foldl (resetGroup m) s).m_groups := by
      rw [hres]
      exact hloop.1
    have : cachedTracks (resetAll m s) k
        = cachedTracks ((s.m_groups.map Prod.fst).foldl (resetGroup m) s) k := by
      unfold cachedTracks
      rw [hg]
    rw [this, hc k]
    by_cases hk : k ∈ s.m_groups.map Prod.fst
    · rw [if_pos hk]
    · rw [if_neg hk]
      cases hl : cachedTracks s k with
      | none => rfl
      | some c =>
        exfalso
        unfold cachedTracks at hl
        cases hl2 : s.m_groups.lookup k with
        | none => simp [hl2] at hl
        | some group => exact hk (List.mem_map.mpr ⟨(k, group), mem_of_lookup_eq_some hl2, rfl⟩)
  · intro k fs q hk hq
    rw [hres, hloop.2.2.2 q, hgrouped k fs q hk hq, hco.library]
    split
    · rfl
    · rfl
  · intro q hq
    rw [hres, hloop.2.2.2 q, if_pos hq, hco.library]
    by_cases hg : ∃ k fs, filtersOf s k = some fs ∧ q ∈ fs
    · obtain ⟨k, fs, hk, hqf⟩ := hg
      rw [hgrouped k fs q hk hqf]
      rfl
    · rw [hnot q (fun k fs hk hqf => hg ⟨k, fs, hk, hqf⟩)]
  · intro q hq hu
    rw [hres, hloop.2.2.2 q, if_neg hu]
    exact hnot q hq

/-- C25: `resetAll` in a state that satisfies the structural invariant for the
registered nodes `reg`.  The cached combined set of every group is cleared;
every registered node, grouped or ungrouped, is reset against the whole
library and stands exactly once in the sequence of nodes the two loops visit;
no other widget changes; the keys, the member sequences, the ungrouped
mapping and every index are unchanged. -/
theorem resetAll_resets_every_node (m : Track → String → Bool) (s : State) (reg : List Ptr)
    (h : s.shape.Inv reg) :
    (∀ k, cachedTracks (resetAll m s) k = (cachedTracks s k).map (fun _ => []))
      ∧ (∀ k, filtersOf s k ≠ none → cachedTracks (resetAll m s) k = some []
          ∧ tracks (resetAll m s) k = s.m_library)
      ∧ (∀ q, q ∈ reg → (resetAll m s).m_widgets q = (s.m_widgets q).reset m s.m_library)
      ∧ (∀ q, q ∈ reg → (allFilters s ++ s.m_ungrouped.map Prod.snd).count q = 1)
      ∧ (∀ q, q ∉ reg → (resetAll m s).m_widgets q = s.m_widgets q)
      ∧ (resetAll m s).m_groups.map Prod.fst = s.m_groups.map Prod.fst
      ∧ (∀ k, filtersOf (resetAll m s) k = filtersOf s k)
      ∧ (resetAll m s).m_ungrouped = s.m_ungrouped
      ∧ (resetAll m s).m_library = s.m_library
      ∧ (∀ q, ((resetAll m s).m_widgets q).index = (s.m_widgets q).index) := by
  obtain ⟨hc, hg, hu, hn⟩ := resetAll_spec m s
  have hco := ContentOnly.resetAll m s
  have hreg := h.registered
  have hval := mem_ungrouped_values_iff s reg h
  refine ⟨hc, ?_, ?_, ?_, ?_, hco.keys, hco.filters, hco.ungrouped, hco.library, hco.index⟩
  · intro k hk
    have hcache : cachedTracks (resetAll m s) k = some [] := by
      rw [hc k]
      unfold filtersOf at hk
      unfold cachedTracks
      cases hl : s.m_groups.lookup k with
      | none => simp [hl] at hk
      | some group => rfl
    exact ⟨hcache, by rw [tracks_of_empty_cache _ k hcache, hco.library]⟩
  · intro q hq
    rcases (hreg q).mp hq with ⟨k, fs, hk, hqf⟩ | hl
    · exact hg k fs q hk hqf
    · exact hu q ((hval q).mpr hl)
  · intro q hq
    have hp := places_of_inv s reg h q
    rw [if_pos hq] at hp
    rw [List.count_append]
    exact hp
  · intro q hq
    apply hn
    · intro k fs hk hqf
      exact hq ((hreg q).mpr (Or.inl ⟨k, fs, hk, hqf⟩))
    · intro hmem
      exact hq ((hreg q).mpr (Or.inr ((hval q).mp hmem)))

/-- The C25 theorem applied to the state after two `createFilter` calls and the
move of the first node to the ungrouped mapping: the grouped node `1` and the
ungrouped node `0` are reset against the library and the cache of group `7` is
empty. -/
theorem resetAll_resets_every_node_witness :
    (resetAll matchesAll (handleFilterUpdated matchesAll
        (requestGroup (createFilter matchesAll (createFilter matchesAll
          (State.init twoLibraries 7) 100).2 101).2 0 0 5) 0)).m_widgets 1
      = ((handleFilterUpdated matchesAll
        (requestGroup (createFilter matchesAll (createFilter matchesAll
          (State.init twoLibraries 7) 100).2 101).2 0 0 5) 0).m_widgets 1).reset
            matchesAll twoLibraries
      ∧ (resetAll matchesAll (handleFilterUpdated matchesAll
        (requestGroup (createFilter matchesAll (createFilter matchesAll
          (State.init twoLibraries 7) 100).2 101).2 0 0 5) 0)).m_widgets 0
      = ((handleFilterUpdated matchesAll
        (requestGroup (createFilter matchesAll (createFilter matchesAll
          (State.init twoLibraries 7) 100).2 101).2 0 0 5) 0).m_widgets 0).reset
            matchesAll twoLibraries :=
  ⟨(resetAll_resets_every_node matchesAll _ [1, 0]
      (@Reach.inv matchesAll twoLibraries 7 false _ [1, 0] (by decide)
        (Reach.filterUpdated _ _ 0 0 5
          (Reach.createFilter _ _ 101
            (Reach.createFilter _ _ 100 Reach.init (by decide)) (by decide))
          (by decide) (by decide)))).2.2.1 1 (by decide),
    (resetAll_resets_every_node matchesAll _ [1, 0]
      (@Reach.inv matchesAll twoLibraries 7 false _ [1, 0] (by decide)
        (Reach.filterUpdated _ _ 0 0 5
          (Reach.createFilter _ _ 101
            (Reach.createFilter _ _ 100 Reach.init (by decide)) (by decide))
          (by decide) (by decide)))).2.2.1 0 (by decide)⟩

/-! ## Removing the only active member -/

/-- C26 (Scenario 5), the behaviour of the code: in group `7` with the members
`0` and `1`, the cached combined set `[t1]` and node `1` the only active member,
`removeFilter` of node `1` succeeds and leaves the member `0`, but the cached
combined set is still `[t1]`; the cascade input of the remaining node is `[t1]`
and not the library, and a reset of the nodes from node `0` on gives node `0`
the base set `[t1]`. -/
theorem removeFilter_keeps_cached_set :
    filtersOf secondSelectedState 7 = some [0, 1]
      ∧ cachedTracks secondSelectedState 7 = some [libraryTrack 1 1]
      ∧ (secondSelectedState.m_widgets 0).isActive = false
      ∧ (secondSelectedState.m_widgets 1).isActive = true
      ∧ (removeFilter secondSelectedState 1).1 = true
      ∧ filtersOf (removeFilter secondSelectedState 1).2 7 = some [0]
      ∧ cachedTracks (removeFilter secondSelectedState 1).2 7 = some [libraryTrack 1 1]
      ∧ tracks (removeFilter secondSelectedState 1).2 7 = [libraryTrack 1 1]
      ∧ (removeFilter secondSelectedState 1).2.m_library = twoLibraries
      ∧ tracks (removeFilter secondSelectedState 1).2 7
          ≠ (removeFilter secondSelectedState 1).2.m_library
      ∧ ((resetFiltersAfterFilter matchesAll (removeFilter secondSelectedState 1).2 0).m_widgets
          0).tracks = [libraryTrack 1 1] := by
  decide

/-! ## Completion of an update: the counter -/

theorem FilterGroups.assign_assign (gs : FilterGroups) (key : Id) (a b : FilterGroup) :
    FilterGroups.assign (FilterGroups.assign gs key a) key b = FilterGroups.assign gs key b := by
  unfold FilterGroups.assign
  rw [List.map_map]
  apply List.map_congr_left
  intro kv _
  simp only [Function.comp]
  by_cases h : kv.1 = key
  · simp [h]
  · simp [h]

theorem refreshPairsSpec_groups (refetch : FilterWidget → FilterWidget)
    (softReset : FilterWidget → TrackList → FilterWidget) (n : Nat) :
    ∀ (l : List Ptr) (s : State), l.length ≤ n →
      (refreshPairsSpec refetch softReset l s).m_groups = s.m_groups := by
  induction n with
  | zero =>
    intro l s hl
    have : l = [] := List.length_eq_zero.mp (Nat.le_zero.mp hl)
    rw [this]
    rfl
  | succ n ih =>
    intro l s hl
    match l, hl with
    | [], _ => rfl
    | [_], _ => rfl
    | a :: b :: rest, hl =>
      simp only [refreshPairsSpec]
      rw [ih rest _ (by simp only [List.length_cons] at hl; omega)]
      exact (refreshPair_frame refetch softReset s a b).1

/-- The refresh writes to widgets only: the groups and their counters are the
same afterwards. -/
theorem refreshFiltersSpec_groups (refetch : FilterWidget → FilterWidget)
    (softReset : FilterWidget → TrackList → FilterWidget) (s : State) (g : Id) :
    (refreshFiltersSpec refetch softReset s g).m_groups = s.m_groups := by
  unfold refreshFiltersSpec
  cases s.m_groups.lookup g with
  | none => rfl
  | some group =>
    simp only
    have h1 := refreshPairsSpec_groups refetch softReset group.filters.length group.filters s
      (le_refl _)
    split
    · split
      · rw [(refreshPair_frame refetch softReset _ _ _).1, h1]
      · exact h1
    · exact h1

/-- The slots of the members in `l`, delivered in a state where the counter of
group `g` is `j`: below `count` the counter counts and nothing is refreshed,
and the delivery that reaches `count` refreshes once with the counter at 0. -/
theorem deliver_count (refetch : FilterWidget → FilterWidget)
    (softReset : FilterWidget → TrackList → FilterWidget) (g : Id) (group : FilterGroup)
    (count : Int) (l : List Ptr) :
    ∀ (st : State) (j : Int),
      st.m_groups.lookup g = some { group with updateCount := j } →
      (∀ p, p ∈ l → (st.m_widgets p).group = g) →
      (j + l.length < count →
        deliver refetch softReset (l.map (fun w => (w, count))) st
          = some ({ st with m_groups :=
              if l = [] then st.m_groups
              else st.m_groups.assign g { group with updateCount := j + l.length } }, 0))
      ∧ (l ≠ [] → j + l.length = count →
        deliver refetch softReset (l.map (fun w => (w, count))) st
          = some (refreshFiltersSpec refetch softReset
              { st with m_groups := st.m_groups.assign g { group with updateCount := 0 } } g,
              1)) := by
  induction l with
  | nil =>
    intro st j _ _
    exact ⟨fun _ => rfl, fun h => absurd rfl h⟩
  | cons w rest ih =>
    intro st j hl hgrp
    have hw : (st.m_widgets w).group = g := hgrp w (List.mem_cons_self _ _)
    have hlen : (((w :: rest).length : Nat) : Int) = (rest.length : Int) + 1 := by
      simp only [List.length_cons]
      push_cast
      rfl
    by_cases hc : j + 1 = count
    · have hstep : finishedUpdating refetch softReset st count w
          = some (refreshFiltersSpec refetch softReset
              { st with m_groups := st.m_groups.assign g { group with updateCount := 0 } } g,
              true) := by
        unfold finishedUpdating
        simp only [hw, hl, hc, if_true]
        rw [refreshFilters_eq_spec]
        rfl
      refine ⟨fun hlt => ?_, fun _ heq => ?_⟩
      · rw [hlen] at hlt
        have := Int.natCast_nonneg rest.length
        omega
      · rw [hlen] at heq
        have hr : rest = [] := by
          apply List.length_eq_zero.mp
          omega
        subst hr
        simp only [List.map_cons, List.map_nil, deliver, hstep]
        rfl
    · have hstep : finishedUpdating refetch softReset st count w
          = some ({ st with m_groups :=
              st.m_groups.assign g { group with updateCount := j + 1 } }, false) := by
        unfold finishedUpdating
        simp only [hw, hl, hc, if_false]
      have hl1 : ({ st with m_groups :=
            st.m_groups.assign g { group with updateCount := j + 1 } } : State).m_groups.lookup g
          = some { group with updateCount := j + 1 } := by
        show (st.m_groups.assign g _).lookup g = _
        rw [FilterGroups.lookup_assign_of_some _ _ _ _ _ hl, if_pos rfl]
      obtain ⟨ih1, ih2⟩ := ih _ (j + 1) hl1 (fun p hp => hgrp p (List.mem_cons_of_mem _ hp))
      have hj : j + 1 + (rest.length : Int) = j + (((w :: rest).length : Nat) : Int) := by
        rw [hlen]
        ring
      refine ⟨fun hlt => ?_, fun _ heq => ?_⟩
      · simp only [List.map_cons, deliver, hstep]
        rw [ih1 (by rw [hj]; exact hlt)]
        simp only [if_false, Nat.zero_add, reduceCtorEq]
        by_cases hr : rest = []
        · subst hr
          simp
        · simp only [hr, if_false, FilterGroups.assign_assign, hj]
      · have hr : rest ≠ [] := by
          intro hr
          subst hr
          simp at heq
          exact hc heq
        simp only [List.map_cons, deliver, hstep]
        rw [ih2 hr (by rw [hj]; exact heq)]
        simp only [FilterGroups.assign_assign, if_false, Nat.zero_add]
        simp

theorem pushBatches_groups (m : Track → String → Bool)
    (tracksAdded tracksUpdated : FilterWidget → TrackList → FilterWidget) (tracks : TrackList)
    (isUpdate : Bool) (fs : List Ptr) :
    ∀ (accumulator : TrackList) (s : State),
      (pushBatches m tracksAdded tracksUpdated tracks isUpdate fs accumulator s).m_groups
        = s.m_groups := by
  induction fs with
  | nil => intro _ s; rfl
  | cons node rest ih =>
    intro accumulator s
    simp only [pushBatches]
    rw [ih]
    rfl

/-- The handling of added or updated tracks writes to widgets only: the groups
and their counters are the same afterwards. -/
theorem handleTracksAddedUpdated_groups (m : Track → String → Bool)
    (tracksAdded tracksUpdated : FilterWidget → TrackList → FilterWidget) (tracks : TrackList)
    (updated : Bool) (s : State) :
    (handleTracksAddedUpdated m tracksAdded tracksUpdated s tracks updated).m_groups
      = s.m_groups := by
  unfold handleTracksAddedUpdated
  have key : ∀ (l : FilterGroups) (st : State),
      (l.foldl (fun st kv =>
        (kv.2.filters.foldl (pushTracks m tracksAdded tracksUpdated tracks updated)
          (st, [])).1) st).m_groups = st.m_groups := by
    intro l
    induction l with
    | nil => intro st; rfl
    | cons kv l ih =>
      intro st
      simp only [List.foldl_cons]
      rw [ih, foldl_pushTracks_eq, pushBatches_groups]
  exact key s.m_groups s

/-- C21: a group `g` of `n` members whose counter is 0, every member with the
group field `g`.  An update event connects one completion slot with the count
`n` for every member, an add event connects none, and neither changes a
counter.  When the members signal completion once each, in any order, the
first `j < n` deliveries call `refreshFilters` not at all and leave the
counter at `j`; all `n` deliveries call `refreshFilters` exactly once, on the
state whose counter is 0 again, and the counter is 0 afterwards. -/
theorem update_completion_refreshes_once (m : Track → String → Bool)
    (tracksAdded tracksUpdated : FilterWidget → TrackList → FilterWidget)
    (refetch : FilterWidget → FilterWidget)
    (softReset : FilterWidget → TrackList → FilterWidget) (s : State) (g : Id)
    (group : FilterGroup) (order : List Ptr)
    (hl : s.m_groups.lookup g = some group) (hcount : group.updateCount = 0)
    (hgroup : ∀ p, p ∈ group.filters → (s.m_widgets p).group = g)
    (hne : group.filters ≠ []) (horder : order.Perm group.filters) :
    (∀ p, p ∈ group.filters → (p, (group.filters.length : Int)) ∈ completionHooks s true)
      ∧ (∀ tracks updated,
          (handleTracksAddedUpdated m tracksAdded tracksUpdated s tracks updated).m_groups
            = s.m_groups)
      ∧ (∀ j, j < group.filters.length → ∃ st,
          deliver refetch softReset
              ((order.take j).map (fun w => (w, (group.filters.length : Int)))) s = some (st, 0)
            ∧ (st.m_groups.lookup g).map FilterGroup.updateCount = some (j : Int)
            ∧ st.m_widgets = s.m_widgets)
      ∧ (∃ r, deliver refetch softReset
              (order.map (fun w => (w, (group.filters.length : Int)))) s = some (r, 1)
            ∧ r = refreshFiltersSpec refetch softReset
                { s with m_groups := s.m_groups.assign g { group with updateCount := 0 } } g
            ∧ (r.m_groups.lookup g).map FilterGroup.updateCount = some 0)
      ∧ completionHooks s false = []
      ∧ deliver refetch softReset (completionHooks s false) s = some (s, 0) := by
  have hg0 : group = { group with updateCount := 0 } := by
    cases group
    simp only at hcount
    subst hcount
    rfl
  have hl0 : s.m_groups.lookup g = some { group with updateCount := 0 } := by
    rw [← hg0]
    exact hl
  have hlen : order.length = group.filters.length := horder.length_eq
  have hnone : completionHooks s false = [] := by
    unfold completionHooks
    simp
  refine ⟨?_, ?_, ?_, ?_, hnone, ?_⟩
  · intro p hp
    unfold completionHooks
    rw [List.mem_flatMap]
    refine ⟨(g, group), mem_of_lookup_eq_some hl, ?_⟩
    rw [List.mem_flatMap]
    exact ⟨p, hp, by simp⟩
  · intro tracks updated
    exact handleTracksAddedUpdated_groups m tracksAdded tracksUpdated tracks updated s
  · intro j hj
    have htake : (order.take j).length = j := by
      rw [List.length_take, hlen]
      omega
    have hd := (deliver_count refetch softReset g group (group.filters.length : Int)
      (order.take j) s 0 hl0
      (fun p hp => hgroup p (horder.subset (List.mem_of_mem_take hp)))).1
      (by rw [htake]; omega)
    refine ⟨_, hd, ?_, rfl⟩
    by_cases he : order.take j = []
    · have hj0 : j = 0 := by
        rw [← htake, he]
        rfl
      simp only [he, if_true, hl, Option.map_some', hcount]
      rw [hj0]
      rfl
    · simp only [he, if_false]
      rw [FilterGroups.lookup_assign_of_some _ _ _ _ _ hl, if_pos rfl, htake]
      simp
  · have hd := (deliver_count refetch softReset g group (group.filters.length : Int)
      order s 0 hl0 (fun p hp => hgroup p (horder.subset hp))).2
      (by
        intro he
        rw [he] at hlen
        exact hne (List.length_eq_zero.mp hlen.symm))
      (by rw [hlen]; omega)
    refine ⟨_, hd, rfl, ?_⟩
    rw [refreshFiltersSpec_groups]
    show ((s.m_groups.assign g _).lookup g).map FilterGroup.updateCount = some 0
    rw [FilterGroups.lookup_assign_of_some _ _ _ _ _ hl, if_pos rfl]
    rfl
  · rw [hnone]
    rfl

/-- The C21 theorem applied to the three nodes of group `7`, which complete in
the order `2, 0, 1`: the three deliveries together refresh once and leave the
counter at 0. -/
theorem update_completion_refreshes_once_witness :
    ∃ r, deliver id (fun w _ => w)
        (([2, 0, 1] : List Ptr).map
          (fun w => (w, ((FilterGroup.mk 7 [0, 1, 2] [] 0).filters.length : Int))))
        threeNodesState = some (r, 1)
      ∧ r = refreshFiltersSpec id (fun w _ => w)
          { threeNodesState with
            m_groups :=
              threeNodesState.m_groups.assign 7 (FilterGroup.mk 7 [0, 1, 2] [] 0) } 7
      ∧ (r.m_groups.lookup 7).map FilterGroup.updateCount = some 0 :=
  (update_completion_refreshes_once matchesAll (fun w _ => w) (fun w _ => w) id (fun w _ => w)
    threeNodesState 7 (FilterGroup.mk 7 [0, 1, 2] [] 0) [2, 0, 1] (by decide) (by decide)
    (by decide) (by decide) (by decide)).2.2.2.1

/-! ## M3U playlists: writing a path and reading it back -/

theorem digitChar_spec : ∀ k, k < 10 →
    (Nat.digitChar k).isDigit = true ∧ (Nat.digitChar k).toNat - 48 = k := by
  decide

theorem hash_not_digit : Char.isDigit '#' = false := by decide

theorem newline_not_digit : Char.isDigit '\n' = false := by decide

/-- The decimal digits `Nat.toDigitsCore` puts in front of the accumulator:
a non-empty run of digits whose value is the number. -/
theorem toDigitsCore_spec : ∀ (fuel n : Nat) (acc : List Char), n < fuel →
    ∃ ds, Nat.toDigitsCore 10 fuel n acc = ds ++ acc ∧ ds ≠ []
      ∧ (∀ c, c ∈ ds → c.isDigit = true)
      ∧ ds.foldl (fun (a : Nat) c => a * 10 + (c.toNat - 48)) 0 = n := by
  intro fuel
  induction fuel with
  | zero => intro n acc h; omega
  | succ fuel ih =>
    intro n acc h
    have hd := digitChar_spec (n % 10) (Nat.mod_lt _ (by decide))
    unfold Nat.toDigitsCore
    simp only
    by_cases h0 : n / 10 = 0
    · rw [if_pos h0]
      refine ⟨[Nat.digitChar (n % 10)], rfl, by simp, ?_, ?_⟩
      · intro c hc
        rw [List.mem_singleton.mp hc]
        exact hd.1
      · simp only [List.foldl_cons, List.foldl_nil, hd.2]
        omega
    · rw [if_neg h0]
      obtain ⟨ds, h1, _, h3, h4⟩ := ih (n / 10) (Nat.digitChar (n % 10) :: acc) (by omega)
      refine ⟨ds ++ [Nat.digitChar (n % 10)], by rw [h1]; simp, by simp, ?_, ?_⟩
      · intro c hc
        rcases List.mem_append.mp hc with hc | hc
        · exact h3 c hc
        · rw [List.mem_singleton.mp hc]
          exact hd.1
      · rw [List.foldl_append, h4]
        simp only [List.foldl_cons, List.foldl_nil, hd.2]
        omega

theorem toDigits_spec (n : Nat) :
    Nat.toDigits 10 n ≠ [] ∧ (∀ c, c ∈ Nat.toDigits 10 n → c.isDigit = true)
      ∧ (Nat.toDigits 10 n).foldl (fun (a : Nat) c => a * 10 + (c.toNat - 48)) 0 = n := by
  obtain ⟨ds, h1, h2, h3, h4⟩ := toDigitsCore_spec (n + 1) n [] (by omega)
  have h : Nat.toDigits 10 n = ds := by
    unfold Nat.toDigits
    rw [h1, List.append_nil]
  rw [h]
  exact ⟨h2, h3, h4⟩

theorem takeWhile_digits (ds tail : List Char) (hds : ∀ c, c ∈ ds → c.isDigit = true)
    (htail : ∀ c rest, tail = c :: rest → c.isDigit = false) :
    (ds ++ tail).takeWhile Char.isDigit = ds ∧ (ds ++ tail).dropWhile Char.isDigit = tail := by
  induction ds with
  | nil =>
    cases tail with
    | nil => exact ⟨rfl, rfl⟩
    | cons c rest =>
      have := htail c rest rfl
      simp [List.takeWhile, List.dropWhile, this]
  | cons d ds ih =>
    have hd := hds d (List.mem_cons_self _ _)
    obtain ⟨h1, h2⟩ := ih (fun c hc => hds c (List.mem_cons_of_mem _ hc))
    rw [List.cons_append, List.takeWhile_cons, List.dropWhile_cons]
    simp only [hd, if_true]
    exact ⟨by rw [h1], h2⟩

/-- The expression matches where a `#` is followed by a non-empty run of
digits and then the end or the final newline. -/
theorem subsongAt_match (ds tail : List Char) (hne : ds ≠ [])
    (hds : ∀ c, c ∈ ds → c.isDigit = true) (htail : tail = [] ∨ tail = ['\n']) :
    subsongAt ('#' :: (ds ++ tail)) = some ds := by
  have ht : ∀ c rest, tail = c :: rest → c.isDigit = false := by
    intro c rest h
    rcases htail with h0 | h0
    · rw [h0] at h
      cases h
    · rw [h0] at h
      cases h
      exact newline_not_digit
  obtain ⟨h1, h2⟩ := takeWhile_digits ds tail hds ht
  unfold subsongAt
  simp only [if_true, h1, h2]
  rw [if_pos ⟨hne, htail⟩]

/-- Where the expression matches, the text is a `#`, the captured non-empty
run of digits and then nothing or the final newline. -/
theorem subsongAt_some (text ds : List Char) (h : subsongAt text = some ds) :
    ds ≠ [] ∧ (∀ c, c ∈ ds → c.isDigit = true)
      ∧ (text = '#' :: ds ∨ text = '#' :: (ds ++ ['\n'])) := by
  unfold subsongAt at h
  cases text with
  | nil => cases h
  | cons c rest =>
    simp only at h
    by_cases hc : c = '#'
    · rw [if_pos hc] at h
      by_cases hm : List.takeWhile Char.isDigit rest ≠ []
          ∧ (List.dropWhile Char.isDigit rest = [] ∨ List.dropWhile Char.isDigit rest = ['\n'])
      · rw [if_pos hm] at h
        cases h
        have hsplit := List.takeWhile_append_dropWhile Char.isDigit rest
        refine ⟨hm.1, fun c hc => List.mem_takeWhile_imp hc, ?_⟩
        rcases hm.2 with h0 | h0
        · left
          rw [h0, List.append_nil] at hsplit
          rw [hc, hsplit]
        · right
          rw [h0] at hsplit
          rw [hc, hsplit]
      · rw [if_neg hm] at h
        cases h
    · rw [if_neg hc] at h
      cases h

theorem dropWhile_before_hash (a ds : List Char) :
    ds.length + 1 ≤ ((a ++ '#' :: ds).dropWhile Char.isDigit).length := by
  induction a with
  | nil => simp [List.dropWhile, hash_not_digit]
  | cons x a ih =>
    rw [List.cons_append, List.dropWhile_cons]
    cases hx : x.isDigit with
    | true => exact ih
    | false =>
      simp only [Bool.false_eq_true, if_false, List.length_cons, List.length_append]
      omega

/-- No match starts inside `p` when the text goes on with `#` and a non-empty
run of digits. -/
theorem subsongAt_before_hash (c : Char) (p ds : List Char) (hne : ds ≠ []) :
    subsongAt (c :: (p ++ '#' :: ds)) = none := by
  unfold subsongAt
  simp only
  by_cases hc : c = '#'
  · rw [if_pos hc]
    have hlen := dropWhile_before_hash p ds
    have hpos : 0 < ds.length := List.length_pos.mpr hne
    rw [if_neg]
    rintro ⟨_, h0 | h0⟩
    · rw [h0] at hlen
      simp at hlen
    · rw [h0] at hlen
      simp only [List.length_cons, List.length_nil] at hlen
      omega
  · rw [if_neg hc]

/-- Reading back a path to which `#` and a run of digits were appended. -/
theorem endingSubsongFrom_appended (ds : List Char) (hne : ds ≠ [])
    (hds : ∀ c, c ∈ ds → c.isDigit = true) :
    ∀ (p before : List Char),
      endingSubsongFrom before (p ++ '#' :: ds) = (toInt ds, before ++ p) := by
  intro p
  induction p with
  | nil =>
    intro before
    have h := subsongAt_match ds [] hne hds (Or.inl rfl)
    rw [List.append_nil] at h
    simp only [List.nil_append, endingSubsongFrom, h, List.drop_length, List.append_nil]
  | cons c p ih =>
    intro before
    rw [List.cons_append, endingSubsongFrom, subsongAt_before_hash c p ds hne]
    simp only
    rw [ih]
    simp

/-- Without a match anywhere the text is returned unchanged with `-1`; with a
match somewhere the value returned is not negative. -/
theorem endingSubsongFrom_no_match :
    ∀ (p before : List Char),
      (endingSubsongFrom before p = (-1, before ++ p)
          ↔ ∀ pre suffix, p = pre ++ suffix → subsongAt suffix = none) := by
  intro p
  induction p with
  | nil =>
    intro before
    constructor
    · intro _ pre suffix h
      have hs : suffix = [] := (List.append_eq_nil.mp h.symm).2
      rw [hs]
      rfl
    · intro _
      simp [endingSubsongFrom]
  | cons c p ih =>
    intro before
    cases hm : subsongAt (c :: p) with
    | some ds =>
      constructor
      · intro h
        exfalso
        simp only [endingSubsongFrom, hm] at h
        have h1 : toInt ds = -1 := congrArg Prod.fst h
        unfold toInt at h1
        simp only at h1
        split at h1
        · omega
        · omega
      · intro h
        have := h [] (c :: p) rfl
        rw [hm] at this
        cases this
    | none =>
      have hstep : endingSubsongFrom before (c :: p) = endingSubsongFrom (before ++ [c]) p := by
        simp only [endingSubsongFrom, hm]
      rw [hstep]
      have hcat : before ++ c :: p = (before ++ [c]) ++ p := by simp
      rw [hcat, ih (before ++ [c])]
      constructor
      · intro h pre suffix hps
        cases pre with
        | nil =>
          rw [List.nil_append] at hps
          rw [← hps]
          exact hm
        | cons x pre =>
          rw [List.cons_append] at hps
          exact h pre suffix (List.cons.inj hps).2
      · intro h pre suffix hps
        exact h (c :: pre) suffix (by rw [hps]; rfl)

/-- C30, as amended: the path text `savePlaylist` writes for the path `p` and
the subsong `n`, read back by `endingSubsong`.  For every `p` and every
`n > 0` in the range of `int` the result is `n` and the path `p`.  For `n = 0`
the text written is `p`, and the result is `-1` with the path untouched if and
only if `p` does not end in `#` followed by one or more decimal digits, with or
without one final newline after them. -/
theorem m3u_subsong_round_trip (p : List Char) :
    (∀ n : Int, 0 < n → n ≤ 2147483647 → endingSubsong (savedPath p n) = (n, p))
      ∧ savedPath p 0 = p
      ∧ (endingSubsong (savedPath p 0) = (-1, p)
          ↔ ¬ ∃ pre digits, digits ≠ [] ∧ (∀ c, c ∈ digits → c.isDigit = true)
              ∧ (p = pre ++ '#' :: digits ∨ p = pre ++ '#' :: (digits ++ ['\n']))) := by
  have hsave : savedPath p 0 = p := by
    unfold savedPath
    rw [if_neg (by decide)]
  refine ⟨?_, hsave, ?_⟩
  · intro n hpos hmax
    obtain ⟨h1, h2, h3⟩ := toDigits_spec n.toNat
    unfold savedPath endingSubsong
    rw [if_pos hpos, endingSubsongFrom_appended _ h1 h2 p []]
    unfold toInt
    simp only [h3, List.nil_append]
    rw [if_pos (by omega)]
    congr 1
    omega
  · rw [hsave]
    have h := endingSubsongFrom_no_match p []
    rw [List.nil_append] at h
    unfold endingSubsong
    rw [h]
    constructor
    · rintro hall ⟨pre, digits, hne, hds, hp | hp⟩
      · have hm := subsongAt_match digits [] hne hds (Or.inl rfl)
        rw [List.append_nil] at hm
        rw [hall pre _ hp] at hm
        cases hm
      · have hm := subsongAt_match digits ['\n'] hne hds (Or.inr rfl)
        rw [hall pre _ hp] at hm
        cases hm
    · intro hno pre suffix hp
      cases hm : subsongAt suffix with
      | none => rfl
      | some ds =>
        exfalso
        obtain ⟨hne, hds, hform⟩ := subsongAt_some suffix ds hm
        apply hno
        refine ⟨pre, ds, hne, hds, ?_⟩
        rcases hform with hf | hf
        · left
          rw [hp, hf]
        · right
          rw [hp, hf]

/-- The C30 theorem applied to the path `a#1` and the subsong 12: the text
`a#1#12` is read back as the path `a#1` and the subsong 12. -/
theorem m3u_subsong_round_trip_witness :
    endingSubsong (savedPath ['a', '#', '1'] 12) = (12, ['a', '#', '1']) :=
  (m3u_subsong_round_trip ['a', '#', '1']).1 12 (by decide) (by decide)

/-- C30, counterexample: the path `a#1` of a track without subsong is written
as it is, and is read back as the path `a` with the subsong 1. -/
theorem m3u_path_ending_in_digits_not_recovered :
    savedPath ['a', '#', '1'] 0 = ['a', '#', '1']
      ∧ endingSubsong (savedPath ['a', '#', '1'] 0) = (1, ['a'])
      ∧ endingSubsong (savedPath ['a', '#', '1'] 0) ≠ (-1, ['a', '#', '1']) := by
  decide

end Fooyin
